import Mathlib

/-! # Enhanced Code Flow: semantics of the per-frame actions

A shallow embedding of the action classes of the Enhanced Code Flow plugin
(`UECFDelay`, `UECFWaitAndExecute`, `UECFTimeline`, `UECFTimelineLinearColor`,
`UECFCoroutineActionBase`).

Conventions of the embedding.

* A C++ `float` value is embedded as a rational number (`ℚ`): every finite float
  is one; infinities and NaN are not embedded. Comparisons are the mathematical
  ones, which is what the float comparisons are on finite values.
* Float arithmetic comes at two levels. `UECFDelay.Tick` and the definitions in
  the namespace `Rounded` take the arithmetic as a parameter `F : FloatArith`:
  every `+`, `-`, `*`, `/` of the source is one application of a field of `F`,
  with the operands in the order of the source, each operation rounded on its
  own (no contraction into fused operations). A statement proved for all
  `F` therefore holds whatever the rounding of the target is; `binary32` is the
  single-precision arithmetic with rounding to nearest, ties to even, and
  `exactArith` is the arithmetic without rounding. The timeline definitions
  outside `Rounded` are written with the exact operations directly and are the
  instance `F = exactArith` of those in `Rounded`.
* A `TUniqueFunction` member is either empty (`none`) or bound (`some _`).
  A bound `void` callable is identified by a number; invoking it is observed as
  a `Call` appended to the trace returned by the method that invoked it.
  A bound `bool()` predicate is a stream of answers: invoking it yields the head
  of the stream and leaves the tail as the callable's next state.
* Invoking an empty callable aborts; a method that does so returns `none`.
* A method that mutates `this` takes the object and returns the new object.
* A coroutine frame is a counter of its releases: `destroy()` adds one, and so
  does reaching a final suspension point that does not suspend.
-/

namespace ECF

/-- Identity of a bound user callable. -/
abbrev FuncId := ℕ

/-- Observable invocations of the callables stored in `UECFDelay` and
`UECFWaitAndExecute`. -/
inductive Call where
  | Func (id : FuncId)
  | Predicate (result : Bool)
  deriving DecidableEq

/-- Drives one action over the frames `dts`: on every frame the action is ticked
unless it is already marked as finished, in which case the frame leaves it
untouched. The traces of the frames are concatenated. -/
def runTicks {S E : Type} (finished : S → Bool) (tick : ℚ → S → Option (S × List E)) :
    List ℚ → S → Option (S × List E)
  | [], s => some (s, [])
  | dt :: dts, s =>
    if finished s then runTicks finished tick dts s
    else
      match tick dt s with
      | none => none
      | some (s1, ev1) =>
        match runTicks finished tick dts s1 with
        | none => none
        | some (s2, ev2) => some (s2, ev1 ++ ev2)

/-! ## Float arithmetic -/

/-- The four operations of float arithmetic on finite values: each takes two
floats and returns the float that the operation stores. -/
structure FloatArith where
  Add : ℚ → ℚ → ℚ
  Sub : ℚ → ℚ → ℚ
  Mul : ℚ → ℚ → ℚ
  Div : ℚ → ℚ → ℚ

/-- Arithmetic without rounding. -/
def exactArith : FloatArith where
  Add := fun x y => x + y
  Sub := fun x y => x - y
  Mul := fun x y => x * y
  Div := fun x y => x / y

namespace Binary32

/-- Searches upwards from the exponent `e` for the binade of `a`: the exponent is
raised while the next power of two is still not above `a`, at most `fuel`
times. -/
def findExponent : ℕ → ℤ → ℚ → ℤ
  | 0, e, _ => e
  | fuel + 1, e, a => if (2 : ℚ) ^ (e + 1) ≤ a then findExponent fuel (e + 1) a else e

/-- The binary exponent of `q`: the `e` with `2 ^ e ≤ |q| < 2 ^ (e + 1)`, not
below `-149` (the exponent of the smallest subnormal number) and not above `127`
(the exponent of the largest binade). -/
def exponent (q : ℚ) : ℤ := findExponent 276 (-149) |q|

/-- The integer nearest to `m`; of two equally near integers the even one. -/
def roundHalfEven (m : ℚ) : ℤ :=
  if m - ⌊m⌋ < 1 / 2 then ⌊m⌋
  else if 1 / 2 < m - ⌊m⌋ then ⌊m⌋ + 1
  else if ⌊m⌋ % 2 = 0 then ⌊m⌋ else ⌊m⌋ + 1

/-- The spacing of the single-precision numbers around `q`: the significand has
24 bits, and below `2 ^ (-126)` (the subnormal range) the spacing stays
`2 ^ (-149)`. -/
def ulp (q : ℚ) : ℚ := (2 : ℚ) ^ (max (exponent q) (-126) - 23)

/-- The single-precision number nearest to `q`, ties to even (the default
rounding of IEEE 754). Results beyond the largest finite number, which the
hardware rounds to infinity, are outside the embedding. -/
def roundNearest (q : ℚ) : ℚ := roundHalfEven (q / ulp q) * ulp q

end Binary32

/-- Single-precision arithmetic (the C++ `float` of the target): the exact result
rounded to the nearest single-precision number. -/
def binary32 : FloatArith where
  Add := fun x y => Binary32.roundNearest (x + y)
  Sub := fun x y => Binary32.roundNearest (x - y)
  Mul := fun x y => Binary32.roundNearest (x * y)
  Div := fun x y => Binary32.roundNearest (x / y)

/-! ## Engine types and math used by the timelines -/

/-- The blend functions of `EECFBlendFunc` (declared in ECFTypes.h). -/
inductive EECFBlendFunc where
  | ECFBlend_Linear
  | ECFBlend_Cubic
  | ECFBlend_EaseIn
  | ECFBlend_EaseOut
  | ECFBlend_EaseInOut
  deriving DecidableEq

/-- The engine's `FLinearColor`: four float channels. -/
structure FLinearColor where
  R : ℚ
  G : ℚ
  B : ℚ
  A : ℚ
  deriving DecidableEq

namespace FLinearColor

/-- `FLinearColor::Black`: opaque black. -/
def Black : FLinearColor := ⟨0, 0, 0, 1⟩

instance : Add FLinearColor := ⟨fun x y => ⟨x.R + y.R, x.G + y.G, x.B + y.B, x.A + y.A⟩⟩
instance : Sub FLinearColor := ⟨fun x y => ⟨x.R - y.R, x.G - y.G, x.B - y.B, x.A - y.A⟩⟩
instance : HMul ℚ FLinearColor FLinearColor := ⟨fun k x => ⟨k * x.R, k * x.G, k * x.B, k * x.A⟩⟩

end FLinearColor

namespace FMath

/-- `FMath::Clamp(X, Min, Max)`. -/
def Clamp (X Min Max : ℚ) : ℚ :=
  if X < Min then Min else if X < Max then X else Max

/-- `FMath::Lerp(A, B, Alpha)`, for floats and for colors. -/
def Lerp {T : Type} [Add T] [Sub T] [HMul ℚ T T] (A B : T) (Alpha : ℚ) : T :=
  A + Alpha * (B - A)

/-- `FMath::CubicInterp(P0, T0, P1, T1, A)`, for floats and for colors. -/
def CubicInterp {T : Type} [Add T] [HMul ℚ T T] (P0 T0 P1 T1 : T) (A : ℚ) : T :=
  let A2 := A * A
  let A3 := A2 * A
  (((2 * A3) - (3 * A2) + 1) * P0) + ((A3 - (2 * A2) + A) * T0) + ((A3 - A2) * T1)
    + (((-2 * A3) + (3 * A2)) * P1)

end FMath

/-- The engine math that has no rational counterpart and is left abstract:
`FMath::Pow(A, B)` (the `powf` of the C library) and
`FMath::InterpEaseInOut(A, B, Alpha, Exp)` for floats and for colors. Each field
is the float function as the engine computes it, rounding included. -/
structure EngineMath where
  Pow : ℚ → ℚ → ℚ
  InterpEaseInOut : ℚ → ℚ → ℚ → ℚ → ℚ
  InterpEaseInOutColor : FLinearColor → FLinearColor → ℚ → ℚ → FLinearColor

/-- Contents of a bound completion callable with the stopped flag
(`TUniqueFunction<void(Value, float, bool)>`): a callable of the user, or the
lambda that the `Setup` overload without the flag builds, which forwards to
`CallbackFunc_NoStopped`. -/
inductive StoppedCallback where
  | user (id : FuncId)
  | forwardNoStopped
  deriving DecidableEq

/-- Observable invocations of the user callables stored in a timeline whose
values have type `V`. -/
inductive TimelineCall (V : Type) where
  | TickFunc (id : FuncId) (value : V) (time : ℚ)
  | CallbackFunc (id : FuncId) (value : V) (time : ℚ) (bStopped : Bool)
  | CallbackFunc_NoStopped (id : FuncId) (value : V) (time : ℚ)
  deriving DecidableEq

/-! ## `UECFDelay` (ECFDelay.h) -/

/-- Members of `UECFDelay`; `bHasFinished` is the flag of the base class that
`MarkAsFinished` raises. -/
structure UECFDelay where
  Func : Option FuncId
  DelayTime : ℚ
  CurrentTime : ℚ
  bHasFinished : Bool
  deriving DecidableEq

namespace UECFDelay

/-- Modelled from the spec: `MarkAsFinished` of the base class (not in src); an
action signals completion by marking itself finished. -/
def MarkAsFinished (self : UECFDelay) : UECFDelay :=
  { self with bHasFinished := true }

/-- `UECFDelay::Setup`: stores both arguments, then validates them. -/
def Setup (self : UECFDelay) (InDelayTime : ℚ) (InFunc : Option FuncId) : Bool × UECFDelay :=
  let self1 := { self with DelayTime := InDelayTime }
  let self2 := { self1 with Func := InFunc }
  if self2.Func.isSome && decide (self2.DelayTime ≥ 0) then
    (true, self2)
  else
    (false, self2)

/-- `UECFDelay::Init`. -/
def Init (self : UECFDelay) : UECFDelay :=
  { self with CurrentTime := 0 }

/-- `UECFDelay::Tick`; `CurrentTime += DeltaTime` is one float addition. -/
def Tick (F : FloatArith) (DeltaTime : ℚ) (self : UECFDelay) :
    Option (UECFDelay × List Call) :=
  let self1 := { self with CurrentTime := F.Add self.CurrentTime DeltaTime }
  if self1.CurrentTime > self1.DelayTime then
    match self1.Func with
    | none => none
    | some f => some (self1.MarkAsFinished, [Call.Func f])
  else
    some (self1, [])

end UECFDelay

/-! ## `UECFWaitAndExecute` (ECFWaitAndExecute.h) -/

/-- Members of `UECFWaitAndExecute`; `bHasFinished` is the flag of the base class
that `MarkAsFinished` raises. -/
structure UECFWaitAndExecute where
  Predicate : Option (Stream' Bool)
  Func : Option FuncId
  bHasFinished : Bool

namespace UECFWaitAndExecute

/-- Modelled from the spec: `MarkAsFinished` of the base class (not in src); an
action signals completion by marking itself finished. -/
def MarkAsFinished (self : UECFWaitAndExecute) : UECFWaitAndExecute :=
  { self with bHasFinished := true }

/-- `UECFWaitAndExecute::Setup`: stores both arguments, then validates them. -/
def Setup (self : UECFWaitAndExecute) (InPredicate : Option (Stream' Bool))
    (InFunc : Option FuncId) : Bool × UECFWaitAndExecute :=
  let self1 := { self with Predicate := InPredicate }
  let self2 := { self1 with Func := InFunc }
  if self2.Predicate.isSome && self2.Func.isSome then
    (true, self2)
  else
    (false, self2)

/-- `UECFWaitAndExecute::Tick`: the delta time is not used. -/
def Tick (_DeltaTime : ℚ) (self : UECFWaitAndExecute) :
    Option (UECFWaitAndExecute × List Call) :=
  match self.Predicate with
  | none => none
  | some p =>
    let self1 := { self with Predicate := some p.tail }
    if p.head then
      match self1.Func with
      | none => none
      | some f => some (self1.MarkAsFinished, [Call.Predicate true, Call.Func f])
    else
      some (self1, [Call.Predicate false])

end UECFWaitAndExecute

/-! ## `UECFTimeline` (ECFTimeline.h) -/

/-- Members of `UECFTimeline`; `MaxActionTime` and `bHasFinished` belong to the
base class and are written by `SetMaxActionTime` and `MarkAsFinished`. -/
structure UECFTimeline where
  TickFunc : Option FuncId
  CallbackFunc : Option StoppedCallback
  CallbackFunc_NoStopped : Option FuncId
  StartValue : ℚ
  StopValue : ℚ
  Time : ℚ
  BlendFunc : EECFBlendFunc
  BlendExp : ℚ
  CurrentTime : ℚ
  CurrentValue : ℚ
  MaxActionTime : ℚ
  bHasFinished : Bool
  deriving DecidableEq

namespace UECFTimeline

/-- Modelled from the spec: `SetMaxActionTime` of the base class (not in src);
it records the `maxActionTime` setting of the action. -/
def SetMaxActionTime (self : UECFTimeline) (InMaxActionTime : ℚ) : UECFTimeline :=
  { self with MaxActionTime := InMaxActionTime }

/-- Modelled from the spec: `MarkAsFinished` of the base class (not in src); an
action signals completion by marking itself finished. -/
def MarkAsFinished (self : UECFTimeline) : UECFTimeline :=
  { self with bHasFinished := true }

/-- `UECFTimeline::Setup`, the overload whose completion callable takes the
stopped flag. -/
def Setup (self : UECFTimeline) (InStartValue InStopValue InTime : ℚ)
    (InTickFunc : Option FuncId) (InCallbackFunc : Option StoppedCallback)
    (InBlendFunc : EECFBlendFunc) (InBlendExp : ℚ) : Bool × UECFTimeline :=
  let self1 := { self with
    StartValue := InStartValue, StopValue := InStopValue, Time := InTime,
    TickFunc := InTickFunc, CallbackFunc := InCallbackFunc,
    BlendFunc := InBlendFunc, BlendExp := InBlendExp }
  if self1.TickFunc.isSome && decide (self1.Time > 0) && decide (self1.BlendExp ≠ 0)
      && decide (self1.StartValue ≠ self1.StopValue) then
    (true, { self1.SetMaxActionTime self1.Time with CurrentTime := 0 })
  else
    (false, self1)

/-- `UECFTimeline::Setup`, the overload whose completion callable has no stopped
flag: the callable is kept in `CallbackFunc_NoStopped` and a forwarding lambda is
registered as `CallbackFunc`. -/
def Setup_NoStopped (self : UECFTimeline) (InStartValue InStopValue InTime : ℚ)
    (InTickFunc : Option FuncId) (InCallbackFunc : Option FuncId)
    (InBlendFunc : EECFBlendFunc) (InBlendExp : ℚ) : Bool × UECFTimeline :=
  let self1 := { self with CallbackFunc_NoStopped := InCallbackFunc }
  self1.Setup InStartValue InStopValue InTime InTickFunc
    (some StoppedCallback.forwardNoStopped) InBlendFunc InBlendExp

/-- `UECFTimeline::Complete`. -/
def Complete (self : UECFTimeline) (bStopped : Bool) : List (TimelineCall ℚ) :=
  match self.CallbackFunc with
  | none => []
  | some (StoppedCallback.user id) =>
    [TimelineCall.CallbackFunc id self.CurrentValue self.CurrentTime bStopped]
  | some StoppedCallback.forwardNoStopped =>
    match self.CallbackFunc_NoStopped with
    | none => []
    | some id => [TimelineCall.CallbackFunc_NoStopped id self.CurrentValue self.CurrentTime]

/-- The value that `UECFTimeline::Tick` computes in its `switch (BlendFunc)`. -/
def Blend (M : EngineMath) (self : UECFTimeline) : ℚ :=
  match self.BlendFunc with
  | EECFBlendFunc.ECFBlend_Linear =>
    FMath.Lerp self.StartValue self.StopValue (self.CurrentTime / self.Time)
  | EECFBlendFunc.ECFBlend_Cubic =>
    FMath.CubicInterp self.StartValue 0 self.StopValue 0 (self.CurrentTime / self.Time)
  | EECFBlendFunc.ECFBlend_EaseIn =>
    FMath.Lerp self.StartValue self.StopValue (M.Pow (self.CurrentTime / self.Time) self.BlendExp)
  | EECFBlendFunc.ECFBlend_EaseOut =>
    FMath.Lerp self.StartValue self.StopValue
      (M.Pow (self.CurrentTime / self.Time) (1 / self.BlendExp))
  | EECFBlendFunc.ECFBlend_EaseInOut =>
    M.InterpEaseInOut self.StartValue self.StopValue (self.CurrentTime / self.Time) self.BlendExp

/-- The first statement of `UECFTimeline::Tick`: the clamped time update. -/
def UpdateTime (DeltaTime : ℚ) (self : UECFTimeline) : UECFTimeline :=
  { self with CurrentTime := FMath.Clamp (self.CurrentTime + DeltaTime) 0 self.Time }

/-- The `switch (BlendFunc)` of `UECFTimeline::Tick`: the value update. -/
def UpdateValue (M : EngineMath) (self : UECFTimeline) : UECFTimeline :=
  { self with CurrentValue := Blend M self }

/-- The completion test at the end of `UECFTimeline::Tick`. -/
def HasReachedStop (self : UECFTimeline) : Bool :=
  (decide (self.StopValue > self.StartValue) && decide (self.CurrentValue ≥ self.StopValue))
    || (decide (self.StopValue < self.StartValue) && decide (self.CurrentValue ≤ self.StopValue))

/-- `UECFTimeline::Tick`. -/
def Tick (M : EngineMath) (DeltaTime : ℚ) (self : UECFTimeline) :
    Option (UECFTimeline × List (TimelineCall ℚ)) :=
  let self1 := (self.UpdateTime DeltaTime).UpdateValue M
  match self1.TickFunc with
  | none => none
  | some f =>
    let ticked := [TimelineCall.TickFunc f self1.CurrentValue self1.CurrentTime]
    if self1.HasReachedStop then
      some (self1.MarkAsFinished, ticked ++ self1.Complete false)
    else
      some (self1, ticked)

end UECFTimeline

/-! ## `UECFTimelineLinearColor` (ECFTimelineLinearColor.h) -/

/-- Members of `UECFTimelineLinearColor`; `MaxActionTime` and `bHasFinished`
belong to the base class and are written by `SetMaxActionTime` and
`MarkAsFinished`. -/
structure UECFTimelineLinearColor where
  TickFunc : Option FuncId
  CallbackFunc : Option StoppedCallback
  CallbackFunc_NoStopped : Option FuncId
  StartValue : FLinearColor
  StopValue : FLinearColor
  Time : ℚ
  BlendFunc : EECFBlendFunc
  BlendExp : ℚ
  CurrentTime : ℚ
  CurrentValue : FLinearColor
  MaxActionTime : ℚ
  bHasFinished : Bool
  deriving DecidableEq

namespace UECFTimelineLinearColor

/-- Modelled from the spec: `SetMaxActionTime` of the base class (not in src);
it records the `maxActionTime` setting of the action. -/
def SetMaxActionTime (self : UECFTimelineLinearColor) (InMaxActionTime : ℚ) :
    UECFTimelineLinearColor :=
  { self with MaxActionTime := InMaxActionTime }

/-- Modelled from the spec: `MarkAsFinished` of the base class (not in src); an
action signals completion by marking itself finished. -/
def MarkAsFinished (self : UECFTimelineLinearColor) : UECFTimelineLinearColor :=
  { self with bHasFinished := true }

/-- `UECFTimelineLinearColor::Setup`, the overload whose completion callable
takes the stopped flag. -/
def Setup (self : UECFTimelineLinearColor) (InStartValue InStopValue : FLinearColor) (InTime : ℚ)
    (InTickFunc : Option FuncId) (InCallbackFunc : Option StoppedCallback)
    (InBlendFunc : EECFBlendFunc) (InBlendExp : ℚ) : Bool × UECFTimelineLinearColor :=
  let self1 := { self with
    StartValue := InStartValue, StopValue := InStopValue, Time := InTime,
    TickFunc := InTickFunc, CallbackFunc := InCallbackFunc,
    BlendFunc := InBlendFunc, BlendExp := InBlendExp }
  if self1.TickFunc.isSome && decide (self1.Time > 0) && decide (self1.BlendExp ≠ 0)
      && decide (self1.StartValue ≠ self1.StopValue) then
    (true, { self1.SetMaxActionTime self1.Time with CurrentTime := 0 })
  else
    (false, self1)

/-- `UECFTimelineLinearColor::Setup`, the overload whose completion callable has
no stopped flag: the callable is kept in `CallbackFunc_NoStopped` and a
forwarding lambda is registered as `CallbackFunc`. -/
def Setup_NoStopped (self : UECFTimelineLinearColor) (InStartValue InStopValue : FLinearColor)
    (InTime : ℚ) (InTickFunc : Option FuncId) (InCallbackFunc : Option FuncId)
    (InBlendFunc : EECFBlendFunc) (InBlendExp : ℚ) : Bool × UECFTimelineLinearColor :=
  let self1 := { self with CallbackFunc_NoStopped := InCallbackFunc }
  self1.Setup InStartValue InStopValue InTime InTickFunc
    (some StoppedCallback.forwardNoStopped) InBlendFunc InBlendExp

/-- `UECFTimelineLinearColor::Complete`. -/
def Complete (self : UECFTimelineLinearColor) (bStopped : Bool) :
    List (TimelineCall FLinearColor) :=
  match self.CallbackFunc with
  | none => []
  | some (StoppedCallback.user id) =>
    [TimelineCall.CallbackFunc id self.CurrentValue self.CurrentTime bStopped]
  | some StoppedCallback.forwardNoStopped =>
    match self.CallbackFunc_NoStopped with
    | none => []
    | some id => [TimelineCall.CallbackFunc_NoStopped id self.CurrentValue self.CurrentTime]

/-- The value that `UECFTimelineLinearColor::Tick` computes in its
`switch (BlendFunc)` from `LerpValue`. -/
def Blend (M : EngineMath) (self : UECFTimelineLinearColor) (LerpValue : ℚ) : FLinearColor :=
  match self.BlendFunc with
  | EECFBlendFunc.ECFBlend_Linear =>
    FMath.Lerp self.StartValue self.StopValue LerpValue
  | EECFBlendFunc.ECFBlend_Cubic =>
    FMath.CubicInterp self.StartValue FLinearColor.Black self.StopValue FLinearColor.Black
      LerpValue
  | EECFBlendFunc.ECFBlend_EaseIn =>
    FMath.Lerp self.StartValue self.StopValue (M.Pow LerpValue self.BlendExp)
  | EECFBlendFunc.ECFBlend_EaseOut =>
    FMath.Lerp self.StartValue self.StopValue (M.Pow LerpValue (1 / self.BlendExp))
  | EECFBlendFunc.ECFBlend_EaseInOut =>
    M.InterpEaseInOutColor self.StartValue self.StopValue LerpValue self.BlendExp

/-- The first statement of `UECFTimelineLinearColor::Tick`: the clamped time
update. -/
def UpdateTime (DeltaTime : ℚ) (self : UECFTimelineLinearColor) : UECFTimelineLinearColor :=
  { self with CurrentTime := FMath.Clamp (self.CurrentTime + DeltaTime) 0 self.Time }

/-- The local `LerpValue` of `UECFTimelineLinearColor::Tick`. -/
def LerpValue (self : UECFTimelineLinearColor) : ℚ :=
  self.CurrentTime / self.Time

/-- The `switch (BlendFunc)` of `UECFTimelineLinearColor::Tick`: the value
update. -/
def UpdateValue (M : EngineMath) (self : UECFTimelineLinearColor) : UECFTimelineLinearColor :=
  { self with CurrentValue := Blend M self self.LerpValue }

/-- `UECFTimelineLinearColor::Tick`. -/
def Tick (M : EngineMath) (DeltaTime : ℚ) (self : UECFTimelineLinearColor) :
    Option (UECFTimelineLinearColor × List (TimelineCall FLinearColor)) :=
  let self1 := (self.UpdateTime DeltaTime).UpdateValue M
  match self1.TickFunc with
  | none => none
  | some f =>
    let ticked := [TimelineCall.TickFunc f self1.CurrentValue self1.CurrentTime]
    if self1.LerpValue ≥ 1 then
      some (self1.MarkAsFinished, ticked ++ self1.Complete false)
    else
      some (self1, ticked)

end UECFTimelineLinearColor

/-! ## A rational instance of the engine math -/

/-- An instance of the engine math over the rationals, used to evaluate examples.
`Pow(A, B)` is `A` to the integer power `⌈B⌉`, which is the exact power whenever
the exponent `B` is an integer or the base `A` is `1`; it is not the engine's
power at other arguments, and the examples use it only at an integer exponent or
at the base `1`. `InterpEaseInOut(A, B, Alpha, Exp)` is the
engine's formula over that power: `Lerp(A, B, InterpEaseIn(0, 1, 2 Alpha, Exp) / 2)`
for `Alpha < 0.5` and `Lerp(A, B, InterpEaseOut(0, 1, 2 Alpha - 1, Exp) / 2 + 0.5)`
otherwise. -/
def rationalMath : EngineMath where
  Pow := fun A B => A ^ ⌈B⌉
  InterpEaseInOut := fun A B Alpha Exp =>
    FMath.Lerp A B
      (if Alpha < 1 / 2 then FMath.Lerp 0 1 ((Alpha * 2) ^ ⌈Exp⌉) * (1 / 2)
       else FMath.Lerp 0 1 (1 - (1 - (Alpha * 2 - 1)) ^ ⌈Exp⌉) * (1 / 2) + 1 / 2)
  InterpEaseInOutColor := fun A B Alpha Exp =>
    FMath.Lerp A B
      (if Alpha < 1 / 2 then FMath.Lerp 0 1 ((Alpha * 2) ^ ⌈Exp⌉) * (1 / 2)
       else FMath.Lerp 0 1 (1 - (1 - (Alpha * 2 - 1)) ^ ⌈Exp⌉) * (1 / 2) + 1 / 2)

/-! ## The timelines over float arithmetic

The `Tick` of both timelines with every arithmetic operation of the source taken
from `F`. `Setup`, `Complete`, `MarkAsFinished` and the completion test do no
arithmetic; they are the definitions above. -/

namespace Rounded

namespace FMath

/-- `FMath::Lerp(A, B, Alpha)` for floats: `A + Alpha * (B - A)`, one
subtraction, one multiplication and one addition. -/
def Lerp (F : FloatArith) (A B Alpha : ℚ) : ℚ :=
  F.Add A (F.Mul Alpha (F.Sub B A))

/-- `FMath::CubicInterp(P0, T0, P1, T1, A)` for floats. -/
def CubicInterp (F : FloatArith) (P0 T0 P1 T1 A : ℚ) : ℚ :=
  let A2 := F.Mul A A
  let A3 := F.Mul A2 A
  F.Add
    (F.Add
      (F.Add (F.Mul (F.Add (F.Sub (F.Mul 2 A3) (F.Mul 3 A2)) 1) P0)
        (F.Mul (F.Add (F.Sub A3 (F.Mul 2 A2)) A) T0))
      (F.Mul (F.Sub A3 A2) T1))
    (F.Mul (F.Add (F.Mul (-2) A3) (F.Mul 3 A2)) P1)

end FMath

namespace FLinearColor

/-- `FLinearColor::operator+`: channel by channel. -/
def Plus (F : FloatArith) (x y : FLinearColor) : FLinearColor :=
  ⟨F.Add x.R y.R, F.Add x.G y.G, F.Add x.B y.B, F.Add x.A y.A⟩

/-- `FLinearColor::operator-`: channel by channel. -/
def Minus (F : FloatArith) (x y : FLinearColor) : FLinearColor :=
  ⟨F.Sub x.R y.R, F.Sub x.G y.G, F.Sub x.B y.B, F.Sub x.A y.A⟩

/-- The product `Scalar * Color` of `FLinearColor`, which is
`Color.operator*(Scalar)`: every channel is multiplied by the scalar, the
channel being the left operand. -/
def Times (F : FloatArith) (k : ℚ) (x : FLinearColor) : FLinearColor :=
  ⟨F.Mul x.R k, F.Mul x.G k, F.Mul x.B k, F.Mul x.A k⟩

/-- `FMath::Lerp(A, B, Alpha)` for colors: `A + Alpha * (B - A)`. -/
def Lerp (F : FloatArith) (A B : FLinearColor) (Alpha : ℚ) : FLinearColor :=
  Plus F A (Times F Alpha (Minus F B A))

/-- `FMath::CubicInterp(P0, T0, P1, T1, A)` for colors. -/
def CubicInterp (F : FloatArith) (P0 T0 P1 T1 : FLinearColor) (A : ℚ) : FLinearColor :=
  let A2 := F.Mul A A
  let A3 := F.Mul A2 A
  Plus F
    (Plus F
      (Plus F (Times F (F.Add (F.Sub (F.Mul 2 A3) (F.Mul 3 A2)) 1) P0)
        (Times F (F.Add (F.Sub A3 (F.Mul 2 A2)) A) T0))
      (Times F (F.Sub A3 A2) T1))
    (Times F (F.Add (F.Mul (-2) A3) (F.Mul 3 A2)) P1)

end FLinearColor

namespace UECFTimeline

/-- The value that `UECFTimeline::Tick` computes in its `switch (BlendFunc)`. -/
def Blend (F : FloatArith) (M : EngineMath) (self : UECFTimeline) : ℚ :=
  match self.BlendFunc with
  | EECFBlendFunc.ECFBlend_Linear =>
    FMath.Lerp F self.StartValue self.StopValue (F.Div self.CurrentTime self.Time)
  | EECFBlendFunc.ECFBlend_Cubic =>
    FMath.CubicInterp F self.StartValue 0 self.StopValue 0 (F.Div self.CurrentTime self.Time)
  | EECFBlendFunc.ECFBlend_EaseIn =>
    FMath.Lerp F self.StartValue self.StopValue
      (M.Pow (F.Div self.CurrentTime self.Time) self.BlendExp)
  | EECFBlendFunc.ECFBlend_EaseOut =>
    FMath.Lerp F self.StartValue self.StopValue
      (M.Pow (F.Div self.CurrentTime self.Time) (F.Div 1 self.BlendExp))
  | EECFBlendFunc.ECFBlend_EaseInOut =>
    M.InterpEaseInOut self.StartValue self.StopValue (F.Div self.CurrentTime self.Time)
      self.BlendExp

/-- The first statement of `UECFTimeline::Tick`: the clamped time update. -/
def UpdateTime (F : FloatArith) (DeltaTime : ℚ) (self : UECFTimeline) : UECFTimeline :=
  { self with CurrentTime := ECF.FMath.Clamp (F.Add self.CurrentTime DeltaTime) 0 self.Time }

/-- The `switch (BlendFunc)` of `UECFTimeline::Tick`: the value update. -/
def UpdateValue (F : FloatArith) (M : EngineMath) (self : UECFTimeline) : UECFTimeline :=
  { self with CurrentValue := Blend F M self }

/-- `UECFTimeline::Tick`. -/
def Tick (F : FloatArith) (M : EngineMath) (DeltaTime : ℚ) (self : UECFTimeline) :
    Option (UECFTimeline × List (TimelineCall ℚ)) :=
  let self1 := UpdateValue F M (UpdateTime F DeltaTime self)
  match self1.TickFunc with
  | none => none
  | some f =>
    let ticked := [TimelineCall.TickFunc f self1.CurrentValue self1.CurrentTime]
    if self1.HasReachedStop then
      some (self1.MarkAsFinished, ticked ++ self1.Complete false)
    else
      some (self1, ticked)

end UECFTimeline

namespace UECFTimelineLinearColor

/-- The value that `UECFTimelineLinearColor::Tick` computes in its
`switch (BlendFunc)` from `LerpValue`. -/
def Blend (F : FloatArith) (M : EngineMath) (self : UECFTimelineLinearColor) (LerpValue : ℚ) :
    ECF.FLinearColor :=
  match self.BlendFunc with
  | EECFBlendFunc.ECFBlend_Linear =>
    FLinearColor.Lerp F self.StartValue self.StopValue LerpValue
  | EECFBlendFunc.ECFBlend_Cubic =>
    FLinearColor.CubicInterp F self.StartValue ECF.FLinearColor.Black self.StopValue
      ECF.FLinearColor.Black LerpValue
  | EECFBlendFunc.ECFBlend_EaseIn =>
    FLinearColor.Lerp F self.StartValue self.StopValue (M.Pow LerpValue self.BlendExp)
  | EECFBlendFunc.ECFBlend_EaseOut =>
    FLinearColor.Lerp F self.StartValue self.StopValue
      (M.Pow LerpValue (F.Div 1 self.BlendExp))
  | EECFBlendFunc.ECFBlend_EaseInOut =>
    M.InterpEaseInOutColor self.StartValue self.StopValue LerpValue self.BlendExp

/-- The first statement of `UECFTimelineLinearColor::Tick`: the clamped time
update. -/
def UpdateTime (F : FloatArith) (DeltaTime : ℚ) (self : UECFTimelineLinearColor) :
    UECFTimelineLinearColor :=
  { self with CurrentTime := ECF.FMath.Clamp (F.Add self.CurrentTime DeltaTime) 0 self.Time }

/-- The local `LerpValue` of `UECFTimelineLinearColor::Tick`. -/
def LerpValue (F : FloatArith) (self : UECFTimelineLinearColor) : ℚ :=
  F.Div self.CurrentTime self.Time

/-- The `switch (BlendFunc)` of `UECFTimelineLinearColor::Tick`: the value
update. -/
def UpdateValue (F : FloatArith) (M : EngineMath) (self : UECFTimelineLinearColor) :
    UECFTimelineLinearColor :=
  { self with CurrentValue := Blend F M self (LerpValue F self) }

/-- `UECFTimelineLinearColor::Tick`. -/
def Tick (F : FloatArith) (M : EngineMath) (DeltaTime : ℚ) (self : UECFTimelineLinearColor) :
    Option (UECFTimelineLinearColor × List (TimelineCall ECF.FLinearColor)) :=
  let self1 := UpdateValue F M (UpdateTime F DeltaTime self)
  match self1.TickFunc with
  | none => none
  | some f =>
    let ticked := [TimelineCall.TickFunc f self1.CurrentValue self1.CurrentTime]
    if LerpValue F self1 ≥ 1 then
      some (self1.MarkAsFinished, ticked ++ self1.Complete false)
    else
      some (self1, ticked)

end UECFTimelineLinearColor

end Rounded

/-! ## Coroutines (ECFCoroutine.h, ECFCoroutineActionBase.h) -/

/-- Identity of an owner object (`const UObject*`); `none` is the null pointer. -/
abbrev UObjectPtr := Option ℕ

/-- The engine-side `FECFHandle` (declared in ECFHandle.h): an opaque comparable
identifier of an action. -/
abbrev FECFHandle := ℕ

/-- The `FECFInstanceId` passed to `SetAction` (declared outside src); `0` is the
default-constructed one. -/
abbrev FECFInstanceId := ℕ

/-- Modelled from the spec: the per-action settings `FECFActionSettings` (not in
src), a configuration object with the options `firstDelay`, `tickInterval`,
`maxActionTime` and `ignorePause`. -/
structure FECFActionSettings where
  FirstDelay : ℚ
  TickInterval : ℚ
  MaxActionTime : ℚ
  bIgnorePause : Bool
  deriving DecidableEq

/-- A `FECFCoroutineHandle`: the address of the coroutine frame it refers to. -/
abbrev FECFCoroutineHandle := ℕ

/-- The two standard awaitables that the promise returns at its suspension
points. -/
inductive SuspendKind where
  | suspend_always
  | suspend_never
  deriving DecidableEq

namespace FECFCoroutinePromise

/-- `FECFCoroutinePromise::initial_suspend`. -/
def initial_suspend : SuspendKind := SuspendKind.suspend_never

/-- `FECFCoroutinePromise::final_suspend`; the argument is the value of the build
macro `ECF_USE_EXPLICIT_CORO_DESTROY`, which selects the `#if` branch. -/
def final_suspend (ECF_USE_EXPLICIT_CORO_DESTROY : Bool) : SuspendKind :=
  if ECF_USE_EXPLICIT_CORO_DESTROY then SuspendKind.suspend_always
  else SuspendKind.suspend_never

end FECFCoroutinePromise

/-- The state of one coroutine frame, the suspended computation of a routine:
whether the routine has run to its end, and how many times the frame has been
released. -/
structure CoroutineFrame where
  bDone : Bool
  Releases : ℕ
  deriving DecidableEq

namespace CoroutineFrame

/-- `std::coroutine_handle::destroy()`: releases the frame. -/
def destroy (self : CoroutineFrame) : CoroutineFrame :=
  { self with Releases := self.Releases + 1 }

/-- The routine runs to its end and reaches `final_suspend`: when the awaitable
returned there does not suspend (`suspend_never`) the coroutine releases its own
frame; when it suspends (`suspend_always`) the frame stays until `destroy()`. -/
def RunToEnd (ECF_USE_EXPLICIT_CORO_DESTROY : Bool) (self : CoroutineFrame) : CoroutineFrame :=
  match FECFCoroutinePromise.final_suspend ECF_USE_EXPLICIT_CORO_DESTROY with
  | SuspendKind.suspend_never => { bDone := true, Releases := self.Releases + 1 }
  | SuspendKind.suspend_always => { self with bDone := true }

end CoroutineFrame

/-- The coroutine frames, by address. -/
abbrev CoroutineFrames := FECFCoroutineHandle → CoroutineFrame

/-- Members of `UECFCoroutineActionBase`; `Owner`, `HandleId`, `InstanceId` and
`Settings` belong to the base class `UECFActionBase` and are written by
`SetAction`. -/
structure UECFCoroutineActionBase where
  Owner : UObjectPtr
  HandleId : FECFHandle
  InstanceId : FECFInstanceId
  Settings : FECFActionSettings
  CoroutineHandle : FECFCoroutineHandle
  bHasValidCoroutineHandle : Bool
  deriving DecidableEq

namespace UECFCoroutineActionBase

/-- Modelled from the spec: `UECFActionBase::SetAction` (not in src); the action
holds the owner reference, the handle and the settings it is registered with. -/
def SetAction (self : UECFCoroutineActionBase) (InOwner : UObjectPtr) (InHandleId : FECFHandle)
    (InInstanceId : FECFInstanceId) (InSettings : FECFActionSettings) :
    UECFCoroutineActionBase :=
  { self with
    Owner := InOwner, HandleId := InHandleId, InstanceId := InInstanceId,
    Settings := InSettings }

/-- `UECFCoroutineActionBase::SetCoroutineAction`: the second argument of the call
of `SetAction` is the member `HandleId`; the parameter `InHandleId` is not used. -/
def SetCoroutineAction (self : UECFCoroutineActionBase) (InOwner : UObjectPtr)
    (InCoroutineHandle : FECFCoroutineHandle) (InHandleId : FECFHandle)
    (InSettings : FECFActionSettings) : UECFCoroutineActionBase :=
  let self1 := self.SetAction InOwner self.HandleId 0 InSettings
  let self2 := { self1 with CoroutineHandle := InCoroutineHandle }
  { self2 with bHasValidCoroutineHandle := true }

/-- `UECFCoroutineActionBase::BeginDestroy`, acting on the coroutine frames; the
`Super::BeginDestroy()` of the engine does not touch them. -/
def BeginDestroy (self : UECFCoroutineActionBase) (Frames : CoroutineFrames) : CoroutineFrames :=
  if self.bHasValidCoroutineHandle then
    Function.update Frames self.CoroutineHandle (Frames self.CoroutineHandle).destroy
  else
    Frames

end UECFCoroutineActionBase

/-! ## Properties of the driver -/

/-- An action that is already marked as finished is left untouched by every
further frame, and nothing is invoked. -/
theorem runTicks_of_finished {S E : Type} (finished : S → Bool)
    (tick : ℚ → S → Option (S × List E)) (dts : List ℚ) (s : S) (h : finished s = true) :
    runTicks finished tick dts s = some (s, []) := by
  induction dts with
  | nil => rfl
  | cons dt dts ih => simp [runTicks, h, ih]

/-- One frame of the driver on an action that is not finished. -/
theorem runTicks_cons_of_running {S E : Type} (finished : S → Bool)
    (tick : ℚ → S → Option (S × List E)) (dt : ℚ) (dts : List ℚ) (s s1 : S) (ev1 : List E)
    (h : finished s = false) (ht : tick dt s = some (s1, ev1)) :
    runTicks finished tick (dt :: dts) s
      = (runTicks finished tick dts s1).map (fun r => (r.1, ev1 ++ r.2)) := by
  simp only [runTicks, h, ht]
  cases runTicks finished tick dts s1 <;> simp

/-! ## Single-precision rounding -/

namespace Binary32

/-- The exponent found is the starting exponent or a power of two not above the
argument. -/
theorem findExponent_le (fuel : ℕ) (e : ℤ) (a : ℚ) :
    findExponent fuel e a = e ∨ (2 : ℚ) ^ findExponent fuel e a ≤ a := by
  induction fuel generalizing e with
  | zero => exact Or.inl rfl
  | succ n ih =>
    unfold findExponent
    split
    · rename_i h
      rcases ih (e + 1) with h1 | h1
      · right; rw [h1]; exact h
      · right; exact h1
    · exact Or.inl rfl

/-- The search finds the binade of `a` when it lies within reach. -/
theorem findExponent_eq (fuel : ℕ) (e0 e : ℤ) (a : ℚ) (h0 : e0 ≤ e) (hf : e - e0 ≤ fuel)
    (hle : e0 < e → (2 : ℚ) ^ e ≤ a) (hlt : a < (2 : ℚ) ^ (e + 1)) :
    findExponent fuel e0 a = e := by
  induction fuel generalizing e0 with
  | zero =>
    have h : e0 = e := by
      have : e - e0 ≤ 0 := by exact_mod_cast hf
      omega
    simpa [findExponent] using h
  | succ n ih =>
    unfold findExponent
    rcases eq_or_lt_of_le h0 with h | h
    · subst h
      rw [if_neg (not_le.mpr hlt)]
    · have h2 : (2 : ℚ) ^ (e0 + 1) ≤ a :=
        le_trans (zpow_le_zpow_right₀ (by norm_num) (by omega)) (hle h)
      rw [if_pos h2]
      apply ih (e0 + 1) (by omega)
      · push_cast at hf ⊢; linarith
      · intro _; exact hle h

/-- The binary exponent of a number inside the binade `[2 ^ e, 2 ^ (e + 1))`. -/
theorem exponent_eq (q : ℚ) (e : ℤ) (h1 : -149 ≤ e) (h2 : e ≤ 127)
    (hle : (2 : ℚ) ^ e ≤ |q|) (hlt : |q| < (2 : ℚ) ^ (e + 1)) : exponent q = e := by
  unfold exponent
  apply findExponent_eq 276 (-149) e |q| h1
  · push_cast; linarith
  · intro _; exact hle
  · exact hlt

/-- Rounding a number inside the binade `[2 ^ e, 2 ^ (e + 1))`: its multiple of
the spacing `2 ^ (max e (-126) - 23)` is rounded to an integer. -/
theorem roundNearest_eq (q : ℚ) (e : ℤ) (h1 : -149 ≤ e) (h2 : e ≤ 127)
    (hle : (2 : ℚ) ^ e ≤ |q|) (hlt : |q| < (2 : ℚ) ^ (e + 1)) :
    roundNearest q
      = roundHalfEven (q / (2 : ℚ) ^ (max e (-126) - 23)) * (2 : ℚ) ^ (max e (-126) - 23) := by
  unfold roundNearest ulp
  rw [exponent_eq q e h1 h2 hle hlt]

/-- An integer is its own rounding. -/
theorem roundHalfEven_intCast (n : ℤ) : roundHalfEven (n : ℚ) = n := by
  unfold roundHalfEven
  simp

/-- A number `m * 2 ^ k` with a significand `m` of at most 24 bits and an exponent
`k` not below that of the smallest subnormal number is a single-precision number:
rounding leaves it as it is. -/
theorem roundNearest_of_representable (m k : ℤ) (hm : |m| < 2 ^ 24) (hk : -149 ≤ k) :
    roundNearest ((m : ℚ) * (2 : ℚ) ^ k) = (m : ℚ) * (2 : ℚ) ^ k := by
  have h2 : (0 : ℚ) < 2 := by norm_num
  have hu : max (exponent ((m : ℚ) * (2 : ℚ) ^ k)) (-126) - 23 ≤ k := by
    have hexp : exponent ((m : ℚ) * (2 : ℚ) ^ k) ≤ k + 23 := by
      unfold exponent
      rcases findExponent_le 276 (-149) |(m : ℚ) * (2 : ℚ) ^ k| with h | h
      · rw [h]; omega
      · by_contra hcon
        push_neg at hcon
        have hpow : (2 : ℚ) ^ (k + 24) ≤ |(m : ℚ) * (2 : ℚ) ^ k| :=
          le_trans (zpow_le_zpow_right₀ (by norm_num) (by omega)) h
        have habs : |(m : ℚ) * (2 : ℚ) ^ k| = |(m : ℚ)| * (2 : ℚ) ^ k := by
          rw [abs_mul, abs_of_pos (zpow_pos h2 k)]
        rw [habs, zpow_add₀ (by norm_num : (2 : ℚ) ≠ 0), mul_comm] at hpow
        have hm2 : (2 : ℚ) ^ (24 : ℤ) ≤ |(m : ℚ)| :=
          le_of_mul_le_mul_right hpow (zpow_pos h2 k)
        have hm3 : |(m : ℚ)| < 2 ^ 24 := by
          have : ((|m| : ℤ) : ℚ) < ((2 ^ 24 : ℤ) : ℚ) := by exact_mod_cast hm
          simpa using this
        norm_num at hm2 hm3
        linarith
    omega
  unfold roundNearest ulp
  set u := max (exponent ((m : ℚ) * (2 : ℚ) ^ k)) (-126) - 23 with hudef
  obtain ⟨d, hd⟩ : ∃ d : ℕ, k = u + d := ⟨(k - u).toNat, by omega⟩
  have hk2 : (2 : ℚ) ^ k = (2 : ℚ) ^ u * (2 : ℚ) ^ d := by
    rw [hd, zpow_add₀ (by norm_num : (2 : ℚ) ≠ 0), zpow_natCast]
  have hq : (m : ℚ) * (2 : ℚ) ^ k / (2 : ℚ) ^ u = ((m * 2 ^ d : ℤ) : ℚ) := by
    rw [hk2]
    push_cast
    field_simp
    ring
  rw [hq, roundHalfEven_intCast, hk2]
  push_cast
  ring

/-- Rounding leaves `q` as it is when `q = m * 2 ^ k` for a significand `m` of at
most 24 bits and an exponent `k ≥ -149`. -/
theorem roundNearest_eq_self (q : ℚ) (m k : ℤ) (hm1 : -16777216 < m) (hm2 : m < 16777216)
    (hk : -149 ≤ k) (hq : q = (m : ℚ) * (2 : ℚ) ^ k) : roundNearest q = q := by
  rw [hq]
  exact roundNearest_of_representable m k (by rw [abs_lt]; constructor <;> norm_num <;> omega) hk

end Binary32

/-! ## `UECFDelay` -/

namespace UECFDelay

/-- A running delay with callback `f`, driven over the frames `dts`: the driver
does not abort; when none of the elapsed times stored by the successive frames
exceeds `DelayTime`, nothing has been called and the action is still running;
when one of them does, the callback has been called once and the action is
finished. The elapsed time stored by frame `k` is the float sum
`(((CurrentTime + dt₁) + dt₂) + ...) + dtₖ`. -/
theorem Delay_runTicks (F : FloatArith) (f : FuncId) (dts : List ℚ) :
    ∀ s : UECFDelay, s.Func = some f → s.bHasFinished = false →
      ∃ s1 ev, runTicks UECFDelay.bHasFinished (UECFDelay.Tick F) dts s = some (s1, ev)
        ∧ ((∀ k, 1 ≤ k → k ≤ dts.length →
              List.foldl F.Add s.CurrentTime (dts.take k) ≤ s.DelayTime) →
            ev = [] ∧ s1.bHasFinished = false)
        ∧ ((∃ k, 1 ≤ k ∧ k ≤ dts.length
              ∧ s.DelayTime < List.foldl F.Add s.CurrentTime (dts.take k)) →
            ev = [Call.Func f] ∧ s1.bHasFinished = true) := by
  induction dts with
  | nil =>
    intro s _ hfin
    refine ⟨s, [], rfl, fun _ => ⟨rfl, hfin⟩, ?_⟩
    rintro ⟨k, hk1, hk2, _⟩
    simp at hk2
    omega
  | cons dt dts ih =>
    intro s hf hfin
    by_cases hgt : s.DelayTime < F.Add s.CurrentTime dt
    · have ht : Tick F dt s
          = some (({ s with CurrentTime := F.Add s.CurrentTime dt } : UECFDelay).MarkAsFinished,
              [Call.Func f]) := by
        simp [Tick, hgt, hf]
      refine ⟨({ s with CurrentTime := F.Add s.CurrentTime dt } : UECFDelay).MarkAsFinished,
        [Call.Func f], ?_, fun hall => ?_, fun _ => ⟨rfl, rfl⟩⟩
      · rw [runTicks_cons_of_running _ _ dt dts s _ _ hfin ht,
          runTicks_of_finished _ _ dts _ (by simp [MarkAsFinished])]
        rfl
      · have h1 := hall 1 (le_refl _) (by simp)
        simp only [List.take_succ_cons, List.take_zero, List.foldl_cons, List.foldl_nil] at h1
        exact absurd hgt (not_lt.mpr h1)
    · have ht : Tick F dt s
          = some (({ s with CurrentTime := F.Add s.CurrentTime dt } : UECFDelay), []) := by
        simp [Tick, hgt]
      obtain ⟨s1, ev, hrun, hnone, hsome⟩ :=
        ih ({ s with CurrentTime := F.Add s.CurrentTime dt }) hf hfin
      refine ⟨s1, ev, ?_, fun hall => ?_, ?_⟩
      · rw [runTicks_cons_of_running _ _ dt dts s _ _ hfin ht, hrun]
        rfl
      · apply hnone
        intro k hk1 hk2
        have h := hall (k + 1) (by omega) (by simp; omega)
        simpa only [List.take_succ_cons, List.foldl_cons] using h
      · rintro ⟨k, hk1, hk2, hk3⟩
        apply hsome
        obtain ⟨j, rfl⟩ : ∃ j, k = j + 1 := ⟨k - 1, by omega⟩
        simp only [List.take_succ_cons, List.foldl_cons] at hk3
        rcases Nat.eq_zero_or_pos j with hj | hj
        · subst hj
          simp only [List.take_zero, List.foldl_nil] at hk3
          exact absurd hk3 hgt
        · exact ⟨j, hj, by simpa using hk2, hk3⟩

end UECFDelay

/-- The stored elapsed time is the exact sum of the frames as long as every
addition of a frame to the sum of the frames before it is exact. -/
theorem foldl_Add_eq_sum (F : FloatArith) (dts : List ℚ)
    (hexact : ∀ k, k < dts.length →
      F.Add (dts.take k).sum (dts.getD k 0) = (dts.take k).sum + dts.getD k 0) :
    ∀ k, k ≤ dts.length → List.foldl F.Add 0 (dts.take k) = (dts.take k).sum := by
  intro k
  induction k with
  | zero => intro _; simp
  | succ k ih =>
    intro hk
    have hlt : k < dts.length := hk
    have htake : dts.take (k + 1) = dts.take k ++ [dts.getD k 0] := by
      rw [List.take_succ, List.getD_eq_getElem?_getD, List.getElem?_eq_getElem hlt]
      rfl
    rw [htake, List.foldl_append, List.sum_append, ih (le_of_lt hlt)]
    simp only [List.foldl_cons, List.foldl_nil, List.sum_cons, List.sum_nil, add_zero]
    exact hexact k hlt

/-- C1, counterexample, in single precision: delay `1`, a first frame of `1`
and then any number `n + 1` of frames of `2⁻²⁵`. The cumulative time
`1 + (n + 1) * 2⁻²⁵` is strictly greater than the delay after the second frame
and grows without bound, but every addition `1 + 2⁻²⁵` is rounded back to `1`:
the stored elapsed time stays `1`, the test `CurrentTime > DelayTime` never
holds, the callback is never called and the action never finishes. -/
theorem C1_delay_never_fires_when_frames_are_rounded_away :
    ((UECFDelay.mk none 0 7 false).Setup 1 (some 5)).1 = true
    ∧ ∀ n : ℕ,
      (1 : ℚ) < (1 :: List.replicate (n + 1) (1 / 33554432 : ℚ)).sum
      ∧ (runTicks UECFDelay.bHasFinished (UECFDelay.Tick binary32)
            (1 :: List.replicate (n + 1) (1 / 33554432))
            ((UECFDelay.mk none 0 7 false).Setup 1 (some 5)).2.Init).map
          (fun r => (r.1.bHasFinished, r.1.CurrentTime, r.2))
        = some (false, 1, []) := by
  have hA : binary32.Add 0 1 = 1 := by
    show Binary32.roundNearest (0 + 1) = 1
    rw [Binary32.roundNearest_eq_self (0 + 1) 1 0 (by norm_num) (by norm_num) (by norm_num)
      (by norm_num)]
    norm_num
  have hB : binary32.Add 1 (1 / 33554432) = 1 := by
    show Binary32.roundNearest (1 + 1 / 33554432) = 1
    rw [Binary32.roundNearest_eq _ 0 (by norm_num) (by norm_num)
      (by rw [abs_of_pos (by norm_num)]; norm_num) (by rw [abs_of_pos (by norm_num)]; norm_num)]
    norm_num [Binary32.roundHalfEven]
  have hset : ((UECFDelay.mk none 0 7 false).Setup 1 (some 5)).2.Init
      = UECFDelay.mk (some 5) 1 0 false := by
    simp [UECFDelay.Setup, UECFDelay.Init]
  have hfirst : UECFDelay.Tick binary32 1 (UECFDelay.mk (some 5) 1 0 false)
      = some (UECFDelay.mk (some 5) 1 1 false, []) := by
    simp [UECFDelay.Tick, hA]
  have hnext : UECFDelay.Tick binary32 (1 / 33554432) (UECFDelay.mk (some 5) 1 1 false)
      = some (UECFDelay.mk (some 5) 1 1 false, []) := by
    simp only [UECFDelay.Tick, hB]
    simp
  have hrest : ∀ m : ℕ,
      runTicks UECFDelay.bHasFinished (UECFDelay.Tick binary32)
          (List.replicate m (1 / 33554432)) (UECFDelay.mk (some 5) 1 1 false)
        = some (UECFDelay.mk (some 5) 1 1 false, []) := by
    intro m
    induction m with
    | zero => rfl
    | succ m ih =>
      rw [List.replicate_succ, runTicks_cons_of_running _ _ _ _ _ _ _ rfl hnext, ih]
      rfl
  refine ⟨by simp [UECFDelay.Setup], fun n => ⟨?_, ?_⟩⟩
  · simp [List.sum_replicate]
    positivity
  · rw [hset, runTicks_cons_of_running _ _ _ _ _ _ _ rfl hfirst, hrest]
    rfl

/-- C1, amended: a fresh Delay set up with `delayTime = d ≥ 0` and a bound callback
`f` is accepted by `Setup`. After `Init`, driven over any frames `dts` (the
action not being ticked once finished), whatever the rounding of the float
additions: the elapsed time after frame `k` is what the code has accumulated in
`CurrentTime` by its float additions, `(((0 + dt₁) + dt₂) + ...) + dtₖ`. As long
as none of these stored elapsed times is strictly greater than `d` (also when
one equals `d`), nothing has been called and the action is not finished; once
one of them is strictly greater than `d`, the callback `f` has been called
exactly once and the action is marked finished. So the callback fires on the
first frame after which the stored elapsed time exceeds `d`, on no earlier
frame, the action finishes on that frame, and no later frame calls it again.
When every addition of a frame to the sum of the frames before it is exact, the
stored elapsed time after frame `k` is the cumulative time `dt₁ + ... + dtₖ`. -/
theorem C1_delay_fires_once_when_stored_time_exceeds_delay (F : FloatArith) (self : UECFDelay)
    (d : ℚ) (f : FuncId) (dts : List ℚ) (hfresh : self.bHasFinished = false) (hd : 0 ≤ d) :
    (self.Setup d (some f)).1 = true
    ∧ (∃ s1 ev,
        runTicks UECFDelay.bHasFinished (UECFDelay.Tick F) dts (self.Setup d (some f)).2.Init
          = some (s1, ev)
        ∧ ((∀ k, 1 ≤ k → k ≤ dts.length → List.foldl F.Add 0 (dts.take k) ≤ d) →
            ev = [] ∧ s1.bHasFinished = false)
        ∧ ((∃ k, 1 ≤ k ∧ k ≤ dts.length ∧ d < List.foldl F.Add 0 (dts.take k)) →
            ev = [Call.Func f] ∧ s1.bHasFinished = true))
    ∧ ((∀ k, k < dts.length →
          F.Add (dts.take k).sum (dts.getD k 0) = (dts.take k).sum + dts.getD k 0) →
        ∀ k, k ≤ dts.length → List.foldl F.Add 0 (dts.take k) = (dts.take k).sum) := by
  have hset : self.Setup d (some f) = (true, { self with DelayTime := d, Func := some f }) := by
    simp [UECFDelay.Setup, hd]
  refine ⟨by rw [hset], ?_, foldl_Add_eq_sum F dts⟩
  have h := UECFDelay.Delay_runTicks F f dts (self.Setup d (some f)).2.Init
    (by simp [hset, UECFDelay.Init]) (by simp [hset, UECFDelay.Init, hfresh])
  simpa [hset, UECFDelay.Init] using h

/-- Witness for the amended C1, in single precision: delay `2`, frames `1`, `1`,
`1`, all added exactly. After two frames the stored elapsed time is exactly `2`
and nothing has been called; after three frames it is `3 > 2`: the callback has
been called once and the action is finished. -/
theorem C1_delay_fires_once_when_stored_time_exceeds_delay_witness :
    (∃ s1, runTicks UECFDelay.bHasFinished (UECFDelay.Tick binary32) [1, 1]
        ((UECFDelay.mk none 0 7 false).Setup 2 (some 5)).2.Init = some (s1, [])
      ∧ s1.bHasFinished = false)
    ∧ (∃ s1, runTicks UECFDelay.bHasFinished (UECFDelay.Tick binary32) [1, 1, 1]
        ((UECFDelay.mk none 0 7 false).Setup 2 (some 5)).2.Init = some (s1, [Call.Func 5])
      ∧ s1.bHasFinished = true) := by
  have hA : binary32.Add 0 1 = 1 := by
    show Binary32.roundNearest (0 + 1) = 1
    rw [Binary32.roundNearest_eq_self (0 + 1) 1 0 (by norm_num) (by norm_num) (by norm_num)
      (by norm_num)]
    norm_num
  have hB : binary32.Add 1 1 = 2 := by
    show Binary32.roundNearest (1 + 1) = 2
    rw [Binary32.roundNearest_eq_self (1 + 1) 2 0 (by norm_num) (by norm_num) (by norm_num)
      (by norm_num)]
    norm_num
  have hC : binary32.Add 2 1 = 3 := by
    show Binary32.roundNearest (2 + 1) = 3
    rw [Binary32.roundNearest_eq_self (2 + 1) 3 0 (by norm_num) (by norm_num) (by norm_num)
      (by norm_num)]
    norm_num
  constructor
  · obtain ⟨_, ⟨s1, ev, hrun, hnone, _⟩, _⟩ :=
      C1_delay_fires_once_when_stored_time_exceeds_delay binary32 (UECFDelay.mk none 0 7 false)
        2 5 [1, 1] rfl (by norm_num)
    have h := hnone (by
      intro k hk1 hk2
      have hk3 : k ≤ 2 := hk2
      interval_cases k
      · simp only [List.take_succ_cons, List.take_zero, List.foldl_cons, List.foldl_nil, hA]
        norm_num
      · simp only [List.take_succ_cons, List.take_zero, List.foldl_cons, List.foldl_nil, hA, hB]
        exact le_refl _)
    exact ⟨s1, by rw [hrun, h.1], h.2⟩
  · obtain ⟨_, ⟨s1, ev, hrun, _, hsome⟩, _⟩ :=
      C1_delay_fires_once_when_stored_time_exceeds_delay binary32 (UECFDelay.mk none 0 7 false)
        2 5 [1, 1, 1] rfl (by norm_num)
    have h := hsome ⟨3, by norm_num, by simp, by
      simp only [List.take_succ_cons, List.take_zero, List.foldl_cons, List.foldl_nil, hA, hB, hC]
      norm_num⟩
    exact ⟨s1, by rw [hrun, h.1], h.2⟩

/-- C8: `UECFDelay::Setup` returns true exactly when the callback is bound and
the delay is not negative; a delay of `0` with a bound callback is accepted, a
negative delay or an empty callback is rejected. -/
theorem C8_delay_setup_accepts_iff (self : UECFDelay) (d : ℚ) (InFunc : Option FuncId) :
    ((self.Setup d InFunc).1 = true ↔ (InFunc.isSome = true ∧ 0 ≤ d))
    ∧ (∀ f : FuncId, (self.Setup 0 (some f)).1 = true)
    ∧ (d < 0 → (self.Setup d InFunc).1 = false)
    ∧ (self.Setup d none).1 = false := by
  refine ⟨?_, ?_, ?_, ?_⟩
  · by_cases hd : 0 ≤ d <;> cases InFunc <;> simp [UECFDelay.Setup, hd]
  · intro f
    simp [UECFDelay.Setup]
  · intro hd
    cases InFunc <;> simp [UECFDelay.Setup, not_le.mpr hd]
  · simp [UECFDelay.Setup]

/-! ## `UECFWaitAndExecute` -/

namespace UECFWaitAndExecute

/-- One `Tick` of an action with bound predicate `q` and bound callback `f`. -/
theorem WaitAndExecute_Tick_bound (dt : ℚ) (s : UECFWaitAndExecute) (q : Stream' Bool) (f : FuncId)
    (hP : s.Predicate = some q) (hF : s.Func = some f) :
    Tick dt s = some
      (if q.head = true then
        (({ s with Predicate := some q.tail } : UECFWaitAndExecute).MarkAsFinished,
          [Call.Predicate true, Call.Func f])
       else (({ s with Predicate := some q.tail } : UECFWaitAndExecute),
          [Call.Predicate false])) := by
  cases hq : q.head <;> simp [Tick, hP, hF, hq]

/-- The predicate is false on each of the frames: it is evaluated once per
frame, the callback never fires and the action keeps running. -/
theorem WaitAndExecute_runTicks_never_true (f : FuncId) (dts : List ℚ) :
    ∀ (s : UECFWaitAndExecute) (q : Stream' Bool), s.Predicate = some q → s.Func = some f →
      s.bHasFinished = false → (∀ j < dts.length, q.get j = false) →
      ∃ s1, runTicks UECFWaitAndExecute.bHasFinished UECFWaitAndExecute.Tick dts s
          = some (s1, List.replicate dts.length (Call.Predicate false))
        ∧ s1.bHasFinished = false := by
  induction dts with
  | nil =>
    intro s q _ _ hfin _
    exact ⟨s, rfl, hfin⟩
  | cons dt dts ih =>
    intro s q hP hF hfin hq
    have h0 : q.head = false := hq 0 (by simp)
    have ht := WaitAndExecute_Tick_bound dt s q f hP hF
    simp only [h0, Bool.false_eq_true, if_false] at ht
    obtain ⟨s1, hrun, hfin1⟩ := ih { s with Predicate := some q.tail } q.tail rfl hF hfin
      (fun j hj => hq (j + 1) (by simpa using hj))
    refine ⟨s1, ?_, hfin1⟩
    rw [runTicks_cons_of_running _ _ dt dts s _ _ hfin ht, hrun]
    simp [List.replicate_succ]

/-- The predicate is first true on its evaluation number `k` (counted from 0),
and there are more than `k` frames: the predicate is evaluated on the frames
`0..k` only, the callback fires once, on frame `k`, and the action is finished. -/
theorem WaitAndExecute_runTicks_first_true (f : FuncId) (k : ℕ) :
    ∀ (dts : List ℚ) (s : UECFWaitAndExecute) (q : Stream' Bool), s.Predicate = some q →
      s.Func = some f → s.bHasFinished = false → k < dts.length →
      (∀ j < k, q.get j = false) → q.get k = true →
      ∃ s1, runTicks UECFWaitAndExecute.bHasFinished UECFWaitAndExecute.Tick dts s
          = some (s1, List.replicate k (Call.Predicate false)
              ++ [Call.Predicate true, Call.Func f])
        ∧ s1.bHasFinished = true := by
  induction k with
  | zero =>
    intro dts s q hP hF hfin hlen _ hk
    cases dts with
    | nil => simp at hlen
    | cons dt dts =>
      have h0 : q.head = true := hk
      have ht := WaitAndExecute_Tick_bound dt s q f hP hF
      simp only [h0, if_true] at ht
      refine ⟨({ s with Predicate := some q.tail } : UECFWaitAndExecute).MarkAsFinished, ?_, ?_⟩
      · rw [runTicks_cons_of_running _ _ dt dts s _ _ hfin ht,
          runTicks_of_finished _ _ dts _ (by simp [MarkAsFinished])]
        simp
      · simp [MarkAsFinished]
  | succ k ih =>
    intro dts s q hP hF hfin hlen hlt hk
    cases dts with
    | nil => simp at hlen
    | cons dt dts =>
      have h0 : q.head = false := hlt 0 (Nat.succ_pos k)
      have ht := WaitAndExecute_Tick_bound dt s q f hP hF
      simp only [h0, Bool.false_eq_true, if_false] at ht
      obtain ⟨s1, hrun, hfin1⟩ := ih dts { s with Predicate := some q.tail } q.tail rfl hF hfin
        (by simpa using hlen) (fun j hj => hlt (j + 1) (by omega)) hk
      refine ⟨s1, ?_, hfin1⟩
      rw [runTicks_cons_of_running _ _ dt dts s _ _ hfin ht, hrun]
      simp [List.replicate_succ]

end UECFWaitAndExecute

/-- C9: for a WaitAndExecute action `s` accepted by `Setup` with predicate `q` and
callback `f` (and not yet finished): (1) one `Tick` evaluates the predicate once;
when the answer is true the trace is that evaluation followed by one call of `f`
and the action is marked finished, when it is false the trace is the evaluation
alone and the action is not marked finished; (2) over frames on which the action
is no longer ticked once finished, if the predicate is first true on evaluation
`k` then the callback fires once, on frame `k`, after `k` evaluations that
answered false, and nothing is evaluated afterwards; (3) if the predicate is
false on every frame the callback never fires and the action keeps running. -/
theorem C9_wait_and_execute_fires_once_on_first_true (self s : UECFWaitAndExecute)
    (q : Stream' Bool) (f : FuncId) (hsetup : self.Setup (some q) (some f) = (true, s))
    (hfresh : self.bHasFinished = false) :
    (∀ dt : ℚ, ∃ s1,
        UECFWaitAndExecute.Tick dt s
          = some (s1, if q.head = true then [Call.Predicate true, Call.Func f]
                      else [Call.Predicate false])
        ∧ s1.bHasFinished = q.head)
    ∧ (∀ (dts : List ℚ) (k : ℕ), k < dts.length → (∀ j < k, q.get j = false) →
        q.get k = true →
        ∃ s1, runTicks UECFWaitAndExecute.bHasFinished UECFWaitAndExecute.Tick dts s
            = some (s1, List.replicate k (Call.Predicate false)
                ++ [Call.Predicate true, Call.Func f])
          ∧ s1.bHasFinished = true)
    ∧ (∀ dts : List ℚ, (∀ j < dts.length, q.get j = false) →
        ∃ s1, runTicks UECFWaitAndExecute.bHasFinished UECFWaitAndExecute.Tick dts s
            = some (s1, List.replicate dts.length (Call.Predicate false))
          ∧ s1.bHasFinished = false) := by
  have hs : s = { self with Predicate := some q, Func := some f } := by
    simp [UECFWaitAndExecute.Setup] at hsetup
    exact hsetup.symm
  have hP : s.Predicate = some q := by rw [hs]
  have hF : s.Func = some f := by rw [hs]
  have hfin : s.bHasFinished = false := by rw [hs]; exact hfresh
  refine ⟨fun dt => ?_, fun dts k hk hlt hq => ?_, fun dts hq => ?_⟩
  · have ht := UECFWaitAndExecute.WaitAndExecute_Tick_bound dt s q f hP hF
    cases hq : q.head
    · simp only [hq, Bool.false_eq_true, if_false] at ht ⊢
      exact ⟨_, ht, hfin⟩
    · simp only [hq, if_true] at ht ⊢
      exact ⟨_, ht, by simp [UECFWaitAndExecute.MarkAsFinished]⟩
  · exact UECFWaitAndExecute.WaitAndExecute_runTicks_first_true f k dts s q hP hF hfin hk hlt hq
  · exact UECFWaitAndExecute.WaitAndExecute_runTicks_never_true f dts s q hP hF hfin hq

/-- C10: `UECFWaitAndExecute::Setup` returns true exactly when both the predicate
and the callback are bound; it returns false when either one is empty. -/
theorem C10_wait_and_execute_setup_accepts_iff (self : UECFWaitAndExecute)
    (InPredicate : Option (Stream' Bool)) (InFunc : Option FuncId) :
    ((self.Setup InPredicate InFunc).1 = true
        ↔ (InPredicate.isSome = true ∧ InFunc.isSome = true))
    ∧ (self.Setup none InFunc).1 = false
    ∧ (self.Setup InPredicate none).1 = false := by
  refine ⟨?_, ?_, ?_⟩
  · cases InPredicate <;> cases InFunc <;> simp [UECFWaitAndExecute.Setup]
  · simp [UECFWaitAndExecute.Setup]
  · cases InPredicate <;> simp [UECFWaitAndExecute.Setup]

/-- Witness for C9: the predicate answers false, false, true, ...; over four
frames it is evaluated three times, the callback fires once on the third frame,
and the action is finished. -/
theorem C9_wait_and_execute_fires_once_on_first_true_witness :
    ∃ s1, runTicks UECFWaitAndExecute.bHasFinished UECFWaitAndExecute.Tick [1, 1, 1, 1]
        ((UECFWaitAndExecute.mk none none false).Setup
          (some (fun n => decide (2 ≤ n))) (some 3)).2
        = some (s1, [Call.Predicate false, Call.Predicate false, Call.Predicate true,
            Call.Func 3])
      ∧ s1.bHasFinished = true := by
  have h := (C9_wait_and_execute_fires_once_on_first_true (UECFWaitAndExecute.mk none none false)
    _ (fun n => decide (2 ≤ n)) 3 rfl rfl).2.1 [1, 1, 1, 1] 2 (by simp)
    (by intro j hj; simp [Stream'.get]; omega) (by simp [Stream'.get])
  simpa [List.replicate] using h

/-! ## Timelines -/

namespace FMath

/-- `Clamp` stays inside a non-empty range. -/
theorem Clamp_mem (X Min Max : ℚ) (h : Min ≤ Max) :
    Min ≤ Clamp X Min Max ∧ Clamp X Min Max ≤ Max := by
  unfold Clamp
  split_ifs with h1 h2
  · exact ⟨le_refl _, h⟩
  · exact ⟨not_lt.mp h1, le_of_lt h2⟩
  · exact ⟨h, le_refl _⟩

/-- `Clamp` returns the upper bound for an argument at or above it. -/
theorem Clamp_of_ge (X Min Max : ℚ) (h : Min ≤ Max) (hX : Max ≤ X) : Clamp X Min Max = Max := by
  unfold Clamp
  split_ifs with h1 h2
  · linarith
  · linarith
  · rfl

/-- `Clamp` returns an argument that lies inside the range. -/
theorem Clamp_of_mem (X Min Max : ℚ) (h1 : Min ≤ X) (h2 : X < Max) : Clamp X Min Max = X := by
  unfold Clamp
  rw [if_neg (not_lt.mpr h1), if_pos h2]

end FMath

/-- A property that every `tick` establishes again, and on which `tick` does not
abort, holds after driving the action over any frames. -/
theorem runTicks_invariant {S E : Type} (finished : S → Bool)
    (tick : ℚ → S → Option (S × List E)) (Inv : S → Prop)
    (htick : ∀ dt s, Inv s → ∃ s1 ev, tick dt s = some (s1, ev) ∧ Inv s1) (dts : List ℚ) :
    ∀ s, Inv s → ∃ s1 ev, runTicks finished tick dts s = some (s1, ev) ∧ Inv s1 := by
  induction dts with
  | nil => exact fun s hs => ⟨s, [], rfl, hs⟩
  | cons dt dts ih =>
    intro s hs
    cases hfin : finished s
    · obtain ⟨s1, ev1, ht, h1⟩ := htick dt s hs
      obtain ⟨s2, ev2, hr, h2⟩ := ih s1 h1
      exact ⟨s2, ev1 ++ ev2, by rw [runTicks_cons_of_running _ _ dt dts s s1 ev1 hfin ht, hr]; rfl,
        h2⟩
    · exact ⟨s, [], runTicks_of_finished _ _ _ s hfin, hs⟩

/-- The four-part validation of the timeline `Setup`s fails exactly when one of
its parts fails. -/
theorem validation_false_iff {V : Type} [DecidableEq V] (tf : Option FuncId) (T e : ℚ) (a b : V) :
    (tf.isSome && decide (T > 0) && decide (e ≠ 0) && decide (a ≠ b)) = false
      ↔ (T ≤ 0 ∨ e = 0 ∨ a = b ∨ tf = none) := by
  cases tf with
  | none => simp
  | some f =>
    by_cases hT : T ≤ 0
    · simp [hT, not_lt.mpr hT]
    · by_cases he : e = 0
      · simp [he]
      · by_cases hab : a = b
        · simp [hab]
        · simp [hT, he, hab, not_le.mp hT]

namespace UECFTimeline

/-- The result of `Setup` is the value of its validation. -/
theorem Scalar_Setup_fst (self : UECFTimeline) (a b T : ℚ) (tf : Option FuncId)
    (cbk : Option StoppedCallback) (bf : EECFBlendFunc) (e : ℚ) :
    (self.Setup a b T tf cbk bf e).1
      = (tf.isSome && decide (T > 0) && decide (e ≠ 0) && decide (a ≠ b)) := by
  unfold Setup
  dsimp only
  split_ifs with h
  · exact h.symm
  · exact (Bool.not_eq_true _ ▸ h).symm

/-- The object that an accepting `Setup` leaves. -/
theorem Scalar_Setup_snd_of_accept (self : UECFTimeline) (a b T : ℚ) (tf : Option FuncId)
    (cbk : Option StoppedCallback) (bf : EECFBlendFunc) (e : ℚ)
    (h : (self.Setup a b T tf cbk bf e).1 = true) :
    (self.Setup a b T tf cbk bf e).2
      = { self with
          StartValue := a, StopValue := b, Time := T, TickFunc := tf, CallbackFunc := cbk,
          BlendFunc := bf, BlendExp := e, MaxActionTime := T, CurrentTime := 0 } := by
  rw [Scalar_Setup_fst] at h
  unfold Setup
  dsimp only
  rw [if_pos h]
  rfl

end UECFTimeline

namespace UECFTimelineLinearColor

/-- The result of `Setup` is the value of its validation. -/
theorem Color_Setup_fst (self : UECFTimelineLinearColor) (a b : FLinearColor) (T : ℚ)
    (tf : Option FuncId) (cbk : Option StoppedCallback) (bf : EECFBlendFunc) (e : ℚ) :
    (self.Setup a b T tf cbk bf e).1
      = (tf.isSome && decide (T > 0) && decide (e ≠ 0) && decide (a ≠ b)) := by
  unfold Setup
  dsimp only
  split_ifs with h
  · exact h.symm
  · exact (Bool.not_eq_true _ ▸ h).symm

/-- The object that an accepting `Setup` leaves. -/
theorem Color_Setup_snd_of_accept (self : UECFTimelineLinearColor) (a b : FLinearColor) (T : ℚ)
    (tf : Option FuncId) (cbk : Option StoppedCallback) (bf : EECFBlendFunc) (e : ℚ)
    (h : (self.Setup a b T tf cbk bf e).1 = true) :
    (self.Setup a b T tf cbk bf e).2
      = { self with
          StartValue := a, StopValue := b, Time := T, TickFunc := tf, CallbackFunc := cbk,
          BlendFunc := bf, BlendExp := e, MaxActionTime := T, CurrentTime := 0 } := by
  rw [Color_Setup_fst] at h
  unfold Setup
  dsimp only
  rw [if_pos h]
  rfl

end UECFTimelineLinearColor

/-- C4: for `UECFTimeline` and `UECFTimelineLinearColor`, and for both `Setup`
overloads of each, `Setup` returns false exactly when the duration is not
positive, or the blend exponent is `0`, or the start and stop values are equal,
or the tick callable is empty; when it returns true it has set `CurrentTime` to
`0` and the max action time to the duration. The result is the same for every
completion callable, bound or empty. -/
theorem C4_timeline_setup_rejects_iff (a b T e : ℚ) (c0 c1 : FLinearColor)
    (tf : Option FuncId) (bf : EECFBlendFunc) :
    (∀ (self : UECFTimeline) (cbk : Option StoppedCallback),
      ((self.Setup a b T tf cbk bf e).1 = false ↔ (T ≤ 0 ∨ e = 0 ∨ a = b ∨ tf = none))
      ∧ ((self.Setup a b T tf cbk bf e).1 = true →
          (self.Setup a b T tf cbk bf e).2.CurrentTime = 0
          ∧ (self.Setup a b T tf cbk bf e).2.MaxActionTime = T)
      ∧ (self.Setup a b T tf cbk bf e).1 = (self.Setup a b T tf none bf e).1)
    ∧ (∀ (self : UECFTimeline) (cbk : Option FuncId),
      ((self.Setup_NoStopped a b T tf cbk bf e).1 = false
          ↔ (T ≤ 0 ∨ e = 0 ∨ a = b ∨ tf = none))
      ∧ ((self.Setup_NoStopped a b T tf cbk bf e).1 = true →
          (self.Setup_NoStopped a b T tf cbk bf e).2.CurrentTime = 0
          ∧ (self.Setup_NoStopped a b T tf cbk bf e).2.MaxActionTime = T)
      ∧ (self.Setup_NoStopped a b T tf cbk bf e).1 = (self.Setup_NoStopped a b T tf none bf e).1)
    ∧ (∀ (self : UECFTimelineLinearColor) (cbk : Option StoppedCallback),
      ((self.Setup c0 c1 T tf cbk bf e).1 = false ↔ (T ≤ 0 ∨ e = 0 ∨ c0 = c1 ∨ tf = none))
      ∧ ((self.Setup c0 c1 T tf cbk bf e).1 = true →
          (self.Setup c0 c1 T tf cbk bf e).2.CurrentTime = 0
          ∧ (self.Setup c0 c1 T tf cbk bf e).2.MaxActionTime = T)
      ∧ (self.Setup c0 c1 T tf cbk bf e).1 = (self.Setup c0 c1 T tf none bf e).1)
    ∧ (∀ (self : UECFTimelineLinearColor) (cbk : Option FuncId),
      ((self.Setup_NoStopped c0 c1 T tf cbk bf e).1 = false
          ↔ (T ≤ 0 ∨ e = 0 ∨ c0 = c1 ∨ tf = none))
      ∧ ((self.Setup_NoStopped c0 c1 T tf cbk bf e).1 = true →
          (self.Setup_NoStopped c0 c1 T tf cbk bf e).2.CurrentTime = 0
          ∧ (self.Setup_NoStopped c0 c1 T tf cbk bf e).2.MaxActionTime = T)
      ∧ (self.Setup_NoStopped c0 c1 T tf cbk bf e).1
          = (self.Setup_NoStopped c0 c1 T tf none bf e).1) := by
  refine ⟨fun self cbk => ⟨?_, fun h => ?_, ?_⟩, fun self cbk => ⟨?_, fun h => ?_, ?_⟩,
    fun self cbk => ⟨?_, fun h => ?_, ?_⟩, fun self cbk => ⟨?_, fun h => ?_, ?_⟩⟩
  · rw [UECFTimeline.Scalar_Setup_fst]
    exact validation_false_iff tf T e a b
  · rw [UECFTimeline.Scalar_Setup_snd_of_accept _ _ _ _ _ _ _ _ h]
    exact ⟨rfl, rfl⟩
  · rw [UECFTimeline.Scalar_Setup_fst, UECFTimeline.Scalar_Setup_fst]
  · unfold UECFTimeline.Setup_NoStopped
    rw [UECFTimeline.Scalar_Setup_fst]
    exact validation_false_iff tf T e a b
  · unfold UECFTimeline.Setup_NoStopped at h ⊢
    rw [UECFTimeline.Scalar_Setup_snd_of_accept _ _ _ _ _ _ _ _ h]
    exact ⟨rfl, rfl⟩
  · unfold UECFTimeline.Setup_NoStopped
    rw [UECFTimeline.Scalar_Setup_fst, UECFTimeline.Scalar_Setup_fst]
  · rw [UECFTimelineLinearColor.Color_Setup_fst]
    exact validation_false_iff tf T e c0 c1
  · rw [UECFTimelineLinearColor.Color_Setup_snd_of_accept _ _ _ _ _ _ _ _ h]
    exact ⟨rfl, rfl⟩
  · rw [UECFTimelineLinearColor.Color_Setup_fst, UECFTimelineLinearColor.Color_Setup_fst]
  · unfold UECFTimelineLinearColor.Setup_NoStopped
    rw [UECFTimelineLinearColor.Color_Setup_fst]
    exact validation_false_iff tf T e c0 c1
  · unfold UECFTimelineLinearColor.Setup_NoStopped at h ⊢
    rw [UECFTimelineLinearColor.Color_Setup_snd_of_accept _ _ _ _ _ _ _ _ h]
    exact ⟨rfl, rfl⟩
  · unfold UECFTimelineLinearColor.Setup_NoStopped
    rw [UECFTimelineLinearColor.Color_Setup_fst, UECFTimelineLinearColor.Color_Setup_fst]


namespace FMath

end FMath

namespace UECFTimeline

/-- One `Tick` of a timeline whose tick callable is bound to `tf`. -/
theorem Scalar_Tick_bound (M : EngineMath) (dt : ℚ) (s : UECFTimeline) (tf : FuncId)
    (h : s.TickFunc = some tf) :
    Tick M dt s = some
      (if ((s.UpdateTime dt).UpdateValue M).HasReachedStop = true then
        (((s.UpdateTime dt).UpdateValue M).MarkAsFinished,
          TimelineCall.TickFunc tf ((s.UpdateTime dt).UpdateValue M).CurrentValue
              ((s.UpdateTime dt).UpdateValue M).CurrentTime
            :: ((s.UpdateTime dt).UpdateValue M).Complete false)
       else
        ((s.UpdateTime dt).UpdateValue M,
          [TimelineCall.TickFunc tf ((s.UpdateTime dt).UpdateValue M).CurrentValue
              ((s.UpdateTime dt).UpdateValue M).CurrentTime])) := by
  have h1 : ((s.UpdateTime dt).UpdateValue M).TickFunc = some tf := h
  unfold Tick
  simp only [h1]
  split_ifs <;> rfl

end UECFTimeline

namespace UECFTimeline

/-- A `Tick` of a timeline with a bound tick callable does not abort, and it
changes the object as `UpdateTime` and `UpdateValue` do, apart from the finished
flag. -/
theorem Scalar_Tick_total (M : EngineMath) (dt : ℚ) (s : UECFTimeline) (tf : FuncId)
    (h : s.TickFunc = some tf) :
    ∃ s1 ev, Tick M dt s = some (s1, ev)
      ∧ s1 = { (s.UpdateTime dt).UpdateValue M with bHasFinished := s1.bHasFinished } := by
  rw [Scalar_Tick_bound M dt s tf h]
  split_ifs
  · exact ⟨_, _, rfl, rfl⟩
  · exact ⟨_, _, rfl, rfl⟩

end UECFTimeline

namespace UECFTimeline

/-- What every `Tick` of a scalar timeline keeps: the stored callables, the
duration, and the time inside `[0, Time]`; the new time is the clamped sum. -/
theorem Scalar_Tick_step (M : EngineMath) (tf : FuncId) (cbk : Option StoppedCallback)
    (ncb : Option FuncId) (T : ℚ) (hT : 0 ≤ T) (dt : ℚ) (s : UECFTimeline)
    (hs : s.TickFunc = some tf ∧ s.CallbackFunc = cbk ∧ s.CallbackFunc_NoStopped = ncb
      ∧ s.Time = T ∧ 0 ≤ s.CurrentTime ∧ s.CurrentTime ≤ T) :
    ∃ s1 ev, Tick M dt s = some (s1, ev)
      ∧ (s1.TickFunc = some tf ∧ s1.CallbackFunc = cbk ∧ s1.CallbackFunc_NoStopped = ncb
        ∧ s1.Time = T ∧ 0 ≤ s1.CurrentTime ∧ s1.CurrentTime ≤ T)
      ∧ s1.CurrentTime = FMath.Clamp (s.CurrentTime + dt) 0 T := by
  obtain ⟨h1, h2, h3, h4, _, _⟩ := hs
  obtain ⟨s1, ev, ht, hs1⟩ := Scalar_Tick_total M dt s tf h1
  have hc : s1.CurrentTime = FMath.Clamp (s.CurrentTime + dt) 0 T := by
    rw [hs1, ← h4]
    rfl
  have hm := FMath.Clamp_mem (s.CurrentTime + dt) 0 T hT
  refine ⟨s1, ev, ht, ⟨?_, ?_, ?_, ?_, ?_, ?_⟩, hc⟩
  · rw [hs1]; exact h1
  · rw [hs1]; exact h2
  · rw [hs1]; exact h3
  · rw [hs1]; exact h4
  · rw [hc]; exact hm.1
  · rw [hc]; exact hm.2

end UECFTimeline

namespace UECFTimelineLinearColor

/-- One `Tick` of a color timeline whose tick callable is bound to `tf`. -/
theorem Color_Tick_bound (M : EngineMath) (dt : ℚ) (s : UECFTimelineLinearColor) (tf : FuncId)
    (h : s.TickFunc = some tf) :
    Tick M dt s = some
      (if ((s.UpdateTime dt).UpdateValue M).LerpValue ≥ 1 then
        (((s.UpdateTime dt).UpdateValue M).MarkAsFinished,
          TimelineCall.TickFunc tf ((s.UpdateTime dt).UpdateValue M).CurrentValue
              ((s.UpdateTime dt).UpdateValue M).CurrentTime
            :: ((s.UpdateTime dt).UpdateValue M).Complete false)
       else
        ((s.UpdateTime dt).UpdateValue M,
          [TimelineCall.TickFunc tf ((s.UpdateTime dt).UpdateValue M).CurrentValue
              ((s.UpdateTime dt).UpdateValue M).CurrentTime])) := by
  have h1 : ((s.UpdateTime dt).UpdateValue M).TickFunc = some tf := h
  unfold Tick
  simp only [h1]
  split_ifs <;> rfl

/-- A `Tick` of a color timeline with a bound tick callable does not abort, and
it changes the object as `UpdateTime` and `UpdateValue` do, apart from the
finished flag. -/
theorem Color_Tick_total (M : EngineMath) (dt : ℚ) (s : UECFTimelineLinearColor) (tf : FuncId)
    (h : s.TickFunc = some tf) :
    ∃ s1 ev, Tick M dt s = some (s1, ev)
      ∧ s1 = { (s.UpdateTime dt).UpdateValue M with bHasFinished := s1.bHasFinished } := by
  rw [Color_Tick_bound M dt s tf h]
  split_ifs
  · exact ⟨_, _, rfl, rfl⟩
  · exact ⟨_, _, rfl, rfl⟩

/-- What every `Tick` of a color timeline keeps: the stored callables, the
duration, and the time inside `[0, Time]`; the new time is the clamped sum. -/
theorem Color_Tick_step (M : EngineMath) (tf : FuncId) (cbk : Option StoppedCallback)
    (ncb : Option FuncId) (T : ℚ) (hT : 0 ≤ T) (dt : ℚ) (s : UECFTimelineLinearColor)
    (hs : s.TickFunc = some tf ∧ s.CallbackFunc = cbk ∧ s.CallbackFunc_NoStopped = ncb
      ∧ s.Time = T ∧ 0 ≤ s.CurrentTime ∧ s.CurrentTime ≤ T) :
    ∃ s1 ev, Tick M dt s = some (s1, ev)
      ∧ (s1.TickFunc = some tf ∧ s1.CallbackFunc = cbk ∧ s1.CallbackFunc_NoStopped = ncb
        ∧ s1.Time = T ∧ 0 ≤ s1.CurrentTime ∧ s1.CurrentTime ≤ T)
      ∧ s1.CurrentTime = FMath.Clamp (s.CurrentTime + dt) 0 T := by
  obtain ⟨h1, h2, h3, h4, _, _⟩ := hs
  obtain ⟨s1, ev, ht, hs1⟩ := Color_Tick_total M dt s tf h1
  have hc : s1.CurrentTime = FMath.Clamp (s.CurrentTime + dt) 0 T := by
    rw [hs1, ← h4]
    rfl
  have hm := FMath.Clamp_mem (s.CurrentTime + dt) 0 T hT
  refine ⟨s1, ev, ht, ⟨?_, ?_, ?_, ?_, ?_, ?_⟩, hc⟩
  · rw [hs1]; exact h1
  · rw [hs1]; exact h2
  · rw [hs1]; exact h3
  · rw [hs1]; exact h4
  · rw [hc]; exact hm.1
  · rw [hc]; exact hm.2

end UECFTimelineLinearColor

/-- An accepting scalar `Setup` was given a bound tick callable, a positive
duration, and leaves an object on which the step invariant holds. -/
theorem Scalar_Setup_accept_inv (self : UECFTimeline) (a b T : ℚ) (tf : Option FuncId)
    (cbk : Option StoppedCallback) (bf : EECFBlendFunc) (e : ℚ)
    (h : (self.Setup a b T tf cbk bf e).1 = true) :
    0 < T ∧ ∃ f, tf = some f
      ∧ ((self.Setup a b T tf cbk bf e).2.TickFunc = some f
        ∧ (self.Setup a b T tf cbk bf e).2.CallbackFunc = cbk
        ∧ (self.Setup a b T tf cbk bf e).2.CallbackFunc_NoStopped = self.CallbackFunc_NoStopped
        ∧ (self.Setup a b T tf cbk bf e).2.Time = T
        ∧ 0 ≤ (self.Setup a b T tf cbk bf e).2.CurrentTime
        ∧ (self.Setup a b T tf cbk bf e).2.CurrentTime ≤ T)
      ∧ (self.Setup a b T tf cbk bf e).2.CurrentTime = 0 := by
  have h0 := UECFTimeline.Scalar_Setup_snd_of_accept _ _ _ _ _ _ _ _ h
  rw [UECFTimeline.Scalar_Setup_fst] at h
  simp only [Bool.and_eq_true, decide_eq_true_eq] at h
  obtain ⟨⟨⟨htf, hT⟩, _⟩, _⟩ := h
  obtain ⟨f, hf⟩ := Option.isSome_iff_exists.mp htf
  refine ⟨hT, f, hf, ?_, ?_⟩
  · rw [h0]
    exact ⟨hf, rfl, rfl, rfl, le_refl _, le_of_lt hT⟩
  · rw [h0]

/-- An accepting color `Setup` was given a bound tick callable, a positive
duration, and leaves an object on which the step invariant holds. -/
theorem Color_Setup_accept_inv (self : UECFTimelineLinearColor) (a b : FLinearColor) (T : ℚ)
    (tf : Option FuncId) (cbk : Option StoppedCallback) (bf : EECFBlendFunc) (e : ℚ)
    (h : (self.Setup a b T tf cbk bf e).1 = true) :
    0 < T ∧ ∃ f, tf = some f
      ∧ ((self.Setup a b T tf cbk bf e).2.TickFunc = some f
        ∧ (self.Setup a b T tf cbk bf e).2.CallbackFunc = cbk
        ∧ (self.Setup a b T tf cbk bf e).2.CallbackFunc_NoStopped = self.CallbackFunc_NoStopped
        ∧ (self.Setup a b T tf cbk bf e).2.Time = T
        ∧ 0 ≤ (self.Setup a b T tf cbk bf e).2.CurrentTime
        ∧ (self.Setup a b T tf cbk bf e).2.CurrentTime ≤ T)
      ∧ (self.Setup a b T tf cbk bf e).2.CurrentTime = 0 := by
  have h0 := UECFTimelineLinearColor.Color_Setup_snd_of_accept _ _ _ _ _ _ _ _ h
  rw [UECFTimelineLinearColor.Color_Setup_fst] at h
  simp only [Bool.and_eq_true, decide_eq_true_eq] at h
  obtain ⟨⟨⟨htf, hT⟩, _⟩, _⟩ := h
  obtain ⟨f, hf⟩ := Option.isSome_iff_exists.mp htf
  refine ⟨hT, f, hf, ?_, ?_⟩
  · rw [h0]
    exact ⟨hf, rfl, rfl, rfl, le_refl _, le_of_lt hT⟩
  · rw [h0]

/-- From the object left by an accepting scalar `Setup`, driving over any frames
does not abort and reaches an object on which the step invariant holds. -/
theorem Scalar_reach (M : EngineMath) (self : UECFTimeline) (a b T : ℚ) (tf : Option FuncId)
    (cbk : Option StoppedCallback) (bf : EECFBlendFunc) (e : ℚ)
    (h : (self.Setup a b T tf cbk bf e).1 = true) (dts : List ℚ) :
    0 < T ∧ ∃ f s ev, tf = some f
      ∧ runTicks UECFTimeline.bHasFinished (UECFTimeline.Tick M) dts
          (self.Setup a b T tf cbk bf e).2 = some (s, ev)
      ∧ (s.TickFunc = some f ∧ s.CallbackFunc = cbk
        ∧ s.CallbackFunc_NoStopped = self.CallbackFunc_NoStopped
        ∧ s.Time = T ∧ 0 ≤ s.CurrentTime ∧ s.CurrentTime ≤ T) := by
  obtain ⟨hT, f, hf, hinv, _⟩ := Scalar_Setup_accept_inv self a b T tf cbk bf e h
  obtain ⟨s, ev, hrun, hs⟩ := runTicks_invariant UECFTimeline.bHasFinished
    (UECFTimeline.Tick M) _
    (fun dt s hs => by
      obtain ⟨s1, ev1, ht, hinv1, _⟩ := UECFTimeline.Scalar_Tick_step M f cbk
        self.CallbackFunc_NoStopped T (le_of_lt hT) dt s hs
      exact ⟨s1, ev1, ht, hinv1⟩) dts _ hinv
  exact ⟨hT, f, s, ev, hf, hrun, hs⟩

/-- From the object left by an accepting color `Setup`, driving over any frames
does not abort and reaches an object on which the step invariant holds. -/
theorem Color_reach (M : EngineMath) (self : UECFTimelineLinearColor) (a b : FLinearColor)
    (T : ℚ) (tf : Option FuncId) (cbk : Option StoppedCallback) (bf : EECFBlendFunc) (e : ℚ)
    (h : (self.Setup a b T tf cbk bf e).1 = true) (dts : List ℚ) :
    0 < T ∧ ∃ f s ev, tf = some f
      ∧ runTicks UECFTimelineLinearColor.bHasFinished (UECFTimelineLinearColor.Tick M) dts
          (self.Setup a b T tf cbk bf e).2 = some (s, ev)
      ∧ (s.TickFunc = some f ∧ s.CallbackFunc = cbk
        ∧ s.CallbackFunc_NoStopped = self.CallbackFunc_NoStopped
        ∧ s.Time = T ∧ 0 ≤ s.CurrentTime ∧ s.CurrentTime ≤ T) := by
  obtain ⟨hT, f, hf, hinv, _⟩ := Color_Setup_accept_inv self a b T tf cbk bf e h
  obtain ⟨s, ev, hrun, hs⟩ := runTicks_invariant UECFTimelineLinearColor.bHasFinished
    (UECFTimelineLinearColor.Tick M) _
    (fun dt s hs => by
      obtain ⟨s1, ev1, ht, hinv1, _⟩ := UECFTimelineLinearColor.Color_Tick_step M f cbk
        self.CallbackFunc_NoStopped T (le_of_lt hT) dt s hs
      exact ⟨s1, ev1, ht, hinv1⟩) dts _ hinv
  exact ⟨hT, f, s, ev, hf, hrun, hs⟩

/-- C6, counterexample: a scalar timeline from `0` to `10` of duration `2` set up
through the overload without the stopped flag, with the user's completion
callable `7`; after one Advance by `1` the action is still running, and
`Complete(true)` calls the user's callable `7` with `(5, 1)`. -/
theorem C6_complete_true_calls_no_stopped_callback :
    (UECFTimeline.Tick ⟨fun _ _ => 0, fun _ _ _ _ => 0, fun x _ _ _ => x⟩ 1
        ((UECFTimeline.mk none none none 0 0 0 EECFBlendFunc.ECFBlend_Cubic 0 7 7 0
          false).Setup_NoStopped 0 10 2 (some 1) (some 7) EECFBlendFunc.ECFBlend_Linear 1).2).map
        (fun r => (r.1.bHasFinished, r.1.Complete true))
      = some (false, [TimelineCall.CallbackFunc_NoStopped 7 5 1]) := by
  norm_num [UECFTimeline.Tick, UECFTimeline.Setup_NoStopped, UECFTimeline.Setup,
    UECFTimeline.SetMaxActionTime, UECFTimeline.UpdateTime, UECFTimeline.UpdateValue,
    UECFTimeline.Blend, UECFTimeline.HasReachedStop, UECFTimeline.Complete, FMath.Clamp,
    FMath.Lerp]

/-- C6, amended: for a scalar timeline and for a color timeline accepted by the
`Setup` overload without the stopped flag, given the user's completion callable
`ucb`: in every state reached by driving the action over any frames,
`Complete(bStopped)` makes the same calls for `bStopped = true` as for
`bStopped = false`: one call of the user's callable with
`(CurrentValue, CurrentTime)` when it is bound, and no call when it is empty. The
stopped flag is never passed on. -/
theorem C6_no_stopped_callback_called_without_flag (M : EngineMath) (self : UECFTimeline)
    (cself : UECFTimelineLinearColor) (a b T e : ℚ) (c0 c1 : FLinearColor)
    (tf ucb : Option FuncId) (bf : EECFBlendFunc)
    (hs : (self.Setup_NoStopped a b T tf ucb bf e).1 = true)
    (hc : (cself.Setup_NoStopped c0 c1 T tf ucb bf e).1 = true) :
    (∀ dts : List ℚ, ∃ s ev,
        runTicks UECFTimeline.bHasFinished (UECFTimeline.Tick M) dts
            (self.Setup_NoStopped a b T tf ucb bf e).2 = some (s, ev)
        ∧ ∀ bStopped : Bool, s.Complete bStopped
            = match ucb with
              | some id => [TimelineCall.CallbackFunc_NoStopped id s.CurrentValue s.CurrentTime]
              | none => [])
    ∧ (∀ dts : List ℚ, ∃ s ev,
        runTicks UECFTimelineLinearColor.bHasFinished (UECFTimelineLinearColor.Tick M) dts
            (cself.Setup_NoStopped c0 c1 T tf ucb bf e).2 = some (s, ev)
        ∧ ∀ bStopped : Bool, s.Complete bStopped
            = match ucb with
              | some id => [TimelineCall.CallbackFunc_NoStopped id s.CurrentValue s.CurrentTime]
              | none => []) := by
  refine ⟨fun dts => ?_, fun dts => ?_⟩
  · obtain ⟨_, f, s, ev, _, hrun, hinv⟩ := Scalar_reach M
      { self with CallbackFunc_NoStopped := ucb } a b T tf
      (some StoppedCallback.forwardNoStopped) bf e hs dts
    refine ⟨s, ev, hrun, fun bStopped => ?_⟩
    have h3 : s.CallbackFunc_NoStopped = ucb := hinv.2.2.1
    simp only [UECFTimeline.Complete, hinv.2.1, h3]
    cases ucb <;> rfl
  · obtain ⟨_, f, s, ev, _, hrun, hinv⟩ := Color_reach M
      { cself with CallbackFunc_NoStopped := ucb } c0 c1 T tf
      (some StoppedCallback.forwardNoStopped) bf e hc dts
    refine ⟨s, ev, hrun, fun bStopped => ?_⟩
    have h3 : s.CallbackFunc_NoStopped = ucb := hinv.2.2.1
    simp only [UECFTimelineLinearColor.Complete, hinv.2.1, h3]
    cases ucb <;> rfl

/-- Witness for the amended C6: a scalar timeline from `0` to `10` and a color
timeline from black to white, duration `2`, user's completion callable `7`
without the stopped flag; after one frame `Complete` calls `7` with the stored
value and time, whatever the flag. -/
theorem C6_no_stopped_callback_called_without_flag_witness :
    (∃ s ev,
      runTicks UECFTimeline.bHasFinished
          (UECFTimeline.Tick ⟨fun _ _ => 0, fun _ _ _ _ => 0, fun x _ _ _ => x⟩) [1]
          ((UECFTimeline.mk none none none 0 0 0 EECFBlendFunc.ECFBlend_Cubic 0 7 7 0
            false).Setup_NoStopped 0 10 2 (some 1) (some 7) EECFBlendFunc.ECFBlend_Linear 1).2
        = some (s, ev)
      ∧ ∀ bStopped : Bool, s.Complete bStopped
          = [TimelineCall.CallbackFunc_NoStopped 7 s.CurrentValue s.CurrentTime])
    ∧ (∃ s ev,
      runTicks UECFTimelineLinearColor.bHasFinished
          (UECFTimelineLinearColor.Tick ⟨fun _ _ => 0, fun _ _ _ _ => 0, fun x _ _ _ => x⟩) [1]
          ((UECFTimelineLinearColor.mk none none none FLinearColor.Black FLinearColor.Black 0
            EECFBlendFunc.ECFBlend_Cubic 0 7 FLinearColor.Black 0 false).Setup_NoStopped
            FLinearColor.Black ⟨1, 1, 1, 1⟩ 2 (some 1) (some 7) EECFBlendFunc.ECFBlend_Linear 1).2
        = some (s, ev)
      ∧ ∀ bStopped : Bool, s.Complete bStopped
          = [TimelineCall.CallbackFunc_NoStopped 7 s.CurrentValue s.CurrentTime]) := by
  have h := C6_no_stopped_callback_called_without_flag
    ⟨fun _ _ => 0, fun _ _ _ _ => 0, fun x _ _ _ => x⟩
    (UECFTimeline.mk none none none 0 0 0 EECFBlendFunc.ECFBlend_Cubic 0 7 7 0 false)
    (UECFTimelineLinearColor.mk none none none FLinearColor.Black FLinearColor.Black 0
      EECFBlendFunc.ECFBlend_Cubic 0 7 FLinearColor.Black 0 false)
    0 10 2 1 FLinearColor.Black ⟨1, 1, 1, 1⟩ (some 1) (some 7) EECFBlendFunc.ECFBlend_Linear
    (by unfold UECFTimeline.Setup_NoStopped; rw [UECFTimeline.Scalar_Setup_fst]; simp)
    (by unfold UECFTimelineLinearColor.Setup_NoStopped
        rw [UECFTimelineLinearColor.Color_Setup_fst]; simp [FLinearColor.Black])
  exact ⟨h.1 [1], h.2 [1]⟩

/-! ## Coroutine actions -/

namespace UECFCoroutineActionBase

/-- `BeginDestroy` of an action with an attached coroutine handle releases the
frame of that handle once and leaves every other frame alone; without an
attached handle it releases nothing. -/
theorem BeginDestroy_releases (self : UECFCoroutineActionBase) (Frames : CoroutineFrames) :
    (self.bHasValidCoroutineHandle = true →
      (self.BeginDestroy Frames self.CoroutineHandle).Releases
          = (Frames self.CoroutineHandle).Releases + 1
      ∧ ∀ h, h ≠ self.CoroutineHandle → self.BeginDestroy Frames h = Frames h)
    ∧ (self.bHasValidCoroutineHandle = false → self.BeginDestroy Frames = Frames) := by
  refine ⟨fun h => ⟨?_, fun k hk => ?_⟩, fun h => ?_⟩
  · simp [BeginDestroy, h, CoroutineFrame.destroy]
  · simp [BeginDestroy, h, Function.update_noteq hk]
  · simp [BeginDestroy, h]

/-- When the frame is kept at the final suspension point
(`ECF_USE_EXPLICIT_CORO_DESTROY` set), or the routine has not run to its end, the
frame of a fresh routine has been released exactly once after `BeginDestroy`. -/
theorem BeginDestroy_single_release (self : UECFCoroutineActionBase) (InOwner : UObjectPtr)
    (c : FECFCoroutineHandle) (h : FECFHandle) (InSettings : FECFActionSettings)
    (Frames : CoroutineFrames) (hfresh : (Frames c).Releases = 0) :
    ((self.SetCoroutineAction InOwner c h InSettings).BeginDestroy Frames c).Releases = 1
    ∧ ((self.SetCoroutineAction InOwner c h InSettings).BeginDestroy
        (Function.update Frames c ((Frames c).RunToEnd true)) c).Releases = 1 := by
  simp [BeginDestroy, SetCoroutineAction, SetAction, CoroutineFrame.destroy,
    CoroutineFrame.RunToEnd, FECFCoroutinePromise.final_suspend, hfresh]

end UECFCoroutineActionBase

/-- C13, failing input: the build without `ECF_USE_EXPLICIT_CORO_DESTROY`
(`final_suspend` returns `suspend_never`). A fresh routine at frame `7` is
attached to an action by `SetCoroutineAction` and runs to its end, which
releases the frame; `BeginDestroy` of the action then calls `destroy()` on the
same frame, so the frame has been released twice. -/
theorem C13_begin_destroy_releases_finished_routine_again :
    ((UECFCoroutineActionBase.mk none 0 0 ⟨0, 0, 0, false⟩ 0 false).SetCoroutineAction
        (some 1) 7 5 ⟨0, 0, 0, false⟩).BeginDestroy
      (Function.update (fun _ => CoroutineFrame.mk false 0) 7
        ((CoroutineFrame.mk false 0).RunToEnd false)) 7
      = CoroutineFrame.mk true 2 := by
  simp [UECFCoroutineActionBase.BeginDestroy, UECFCoroutineActionBase.SetCoroutineAction,
    UECFCoroutineActionBase.SetAction, CoroutineFrame.destroy, CoroutineFrame.RunToEnd,
    FECFCoroutinePromise.final_suspend]

/-- C14, failing input: an action whose `HandleId` is `0` is registered by
`SetCoroutineAction(owner 1, coroutine 7, handle 5, settings)`. The owner, the
settings and the coroutine handle are stored and the coroutine handle is flagged
valid, but the stored `HandleId` is still `0`, not the handle `5` it was
registered with. -/
theorem C14_set_coroutine_action_keeps_old_handle :
    (UECFCoroutineActionBase.mk none 0 0 ⟨0, 0, 0, false⟩ 0 false).SetCoroutineAction
        (some 1) 7 5 ⟨1, 2, 3, true⟩
      = UECFCoroutineActionBase.mk (some 1) 0 0 ⟨1, 2, 3, true⟩ 7 true
    ∧ ((UECFCoroutineActionBase.mk none 0 0 ⟨0, 0, 0, false⟩ 0 false).SetCoroutineAction
        (some 1) 7 5 ⟨1, 2, 3, true⟩).HandleId ≠ 5 := by
  constructor
  · rfl
  · simp [UECFCoroutineActionBase.SetCoroutineAction, UECFCoroutineActionBase.SetAction]

/-- What `SetCoroutineAction` stores, for every action and all arguments: the
given owner, settings and coroutine handle, the valid flag, and the `HandleId`
that the action had before the call. -/
theorem SetCoroutineAction_fields (self : UECFCoroutineActionBase) (InOwner : UObjectPtr)
    (c : FECFCoroutineHandle) (h : FECFHandle) (InSettings : FECFActionSettings) :
    self.SetCoroutineAction InOwner c h InSettings
      = { Owner := InOwner, HandleId := self.HandleId, InstanceId := 0, Settings := InSettings,
          CoroutineHandle := c, bHasValidCoroutineHandle := true } := rfl

/-! ## Failing `Setup`s -/

/-- C12, counterexample: a Delay holding callback `3` and delay `4` is set up
again with delay `-1` and an empty callback. `Setup` returns false, and the
stored delay and callback are now `-1` and empty: the fields are not the same
after the failing call as before it. -/
theorem C12_failing_setup_overwrites_fields :
    (UECFDelay.mk (some 3) 4 0 false).Setup (-1) none
        = (false, UECFDelay.mk none (-1) 0 false)
    ∧ ((UECFDelay.mk (some 3) 4 0 false).Setup (-1) none).2 ≠ UECFDelay.mk (some 3) 4 0 false := by
  constructor
  · simp [UECFDelay.Setup]
  · simp [UECFDelay.Setup]

/-- C12, amended: when `Setup` of a Delay, a WaitAndExecute, a Timeline or a
TimelineLinearColor (either overload) returns false, the action afterwards is
the action before the call with the fields that hold the `Setup` arguments (the
stored parameters and callables) overwritten by the arguments of the failing
call; every other field (current time, current value, max action time, finished
flag) is unchanged; a Delay and a WaitAndExecute are left like that by every
`Setup`, failing or not. `Setup` itself invokes no callable: it only stores and
tests them. -/
theorem C12_failing_setup_only_stores_arguments
    (delay : UECFDelay) (d : ℚ) (fn : Option FuncId)
    (wait : UECFWaitAndExecute) (pr : Option (Stream' Bool)) (wfn : Option FuncId)
    (tl : UECFTimeline) (ctl : UECFTimelineLinearColor) (a b T e : ℚ) (c0 c1 : FLinearColor)
    (tf ucb : Option FuncId) (cbk : Option StoppedCallback) (bf : EECFBlendFunc)
    (ht : (tl.Setup a b T tf cbk bf e).1 = false)
    (hc : (ctl.Setup c0 c1 T tf cbk bf e).1 = false) :
    (delay.Setup d fn).2 = { delay with DelayTime := d, Func := fn }
    ∧ (wait.Setup pr wfn).2 = { wait with Predicate := pr, Func := wfn }
    ∧ (tl.Setup a b T tf cbk bf e).2
        = { tl with
            StartValue := a, StopValue := b, Time := T, TickFunc := tf, CallbackFunc := cbk,
            BlendFunc := bf, BlendExp := e }
    ∧ (tl.Setup_NoStopped a b T tf ucb bf e).1 = false
    ∧ (tl.Setup_NoStopped a b T tf ucb bf e).2
        = { tl with
            StartValue := a, StopValue := b, Time := T, TickFunc := tf,
            CallbackFunc := some StoppedCallback.forwardNoStopped,
            CallbackFunc_NoStopped := ucb, BlendFunc := bf, BlendExp := e }
    ∧ (ctl.Setup c0 c1 T tf cbk bf e).2
        = { ctl with
            StartValue := c0, StopValue := c1, Time := T, TickFunc := tf, CallbackFunc := cbk,
            BlendFunc := bf, BlendExp := e }
    ∧ (ctl.Setup_NoStopped c0 c1 T tf ucb bf e).1 = false
    ∧ (ctl.Setup_NoStopped c0 c1 T tf ucb bf e).2
        = { ctl with
            StartValue := c0, StopValue := c1, Time := T, TickFunc := tf,
            CallbackFunc := some StoppedCallback.forwardNoStopped,
            CallbackFunc_NoStopped := ucb, BlendFunc := bf, BlendExp := e } := by
  have hv : (tf.isSome && decide (T > 0) && decide (e ≠ 0) && decide (a ≠ b)) = false := by
    rw [← UECFTimeline.Scalar_Setup_fst tl a b T tf cbk bf e]
    exact ht
  have hcv : (tf.isSome && decide (T > 0) && decide (e ≠ 0) && decide (c0 ≠ c1)) = false := by
    rw [← UECFTimelineLinearColor.Color_Setup_fst ctl c0 c1 T tf cbk bf e]
    exact hc
  refine ⟨?_, ?_, ?_, ?_, ?_, ?_, ?_, ?_⟩
  · unfold UECFDelay.Setup
    dsimp only
    split_ifs <;> rfl
  · unfold UECFWaitAndExecute.Setup
    dsimp only
    split_ifs <;> rfl
  · unfold UECFTimeline.Setup
    dsimp only
    rw [if_neg (by rw [hv]; simp)]
  · unfold UECFTimeline.Setup_NoStopped
    rw [UECFTimeline.Scalar_Setup_fst]
    exact hv
  · unfold UECFTimeline.Setup_NoStopped UECFTimeline.Setup
    dsimp only
    rw [if_neg (by rw [hv]; simp)]
  · unfold UECFTimelineLinearColor.Setup
    dsimp only
    rw [if_neg (by rw [hcv]; simp)]
  · unfold UECFTimelineLinearColor.Setup_NoStopped
    rw [UECFTimelineLinearColor.Color_Setup_fst]
    exact hcv
  · unfold UECFTimelineLinearColor.Setup_NoStopped UECFTimelineLinearColor.Setup
    dsimp only
    rw [if_neg (by rw [hcv]; simp)]

/-- Witness for the amended C12: a timeline from `0` to `10` and a color
timeline from black to white, both set up with a duration of `0`; both `Setup`s
fail and leave the arguments stored in the action, the other fields as they
were. -/
theorem C12_failing_setup_only_stores_arguments_witness :
    ((UECFTimeline.mk (some 8) none none 0 1 1 EECFBlendFunc.ECFBlend_Cubic 1 7 7 9 false).Setup
        0 10 0 (some 1) none EECFBlendFunc.ECFBlend_Linear 1).2
      = UECFTimeline.mk (some 1) none none 0 10 0 EECFBlendFunc.ECFBlend_Linear 1 7 7 9 false
    ∧ ((UECFTimelineLinearColor.mk (some 8) none none FLinearColor.Black FLinearColor.Black 1
          EECFBlendFunc.ECFBlend_Cubic 1 7 FLinearColor.Black 9 false).Setup
        FLinearColor.Black ⟨1, 1, 1, 1⟩ 0 (some 1) none EECFBlendFunc.ECFBlend_Linear 1).2
      = UECFTimelineLinearColor.mk (some 1) none none FLinearColor.Black ⟨1, 1, 1, 1⟩ 0
          EECFBlendFunc.ECFBlend_Linear 1 7 FLinearColor.Black 9 false := by
  have h := C12_failing_setup_only_stores_arguments (UECFDelay.mk none 0 0 false) 1 none
    (UECFWaitAndExecute.mk none none false) none none
    (UECFTimeline.mk (some 8) none none 0 1 1 EECFBlendFunc.ECFBlend_Cubic 1 7 7 9 false)
    (UECFTimelineLinearColor.mk (some 8) none none FLinearColor.Black FLinearColor.Black 1
      EECFBlendFunc.ECFBlend_Cubic 1 7 FLinearColor.Black 9 false)
    0 10 0 1 FLinearColor.Black ⟨1, 1, 1, 1⟩ (some 1) none none EECFBlendFunc.ECFBlend_Linear
    (by rw [UECFTimeline.Scalar_Setup_fst]; simp)
    (by rw [UECFTimelineLinearColor.Color_Setup_fst]; simp)
  exact ⟨h.2.2.1, h.2.2.2.2.2.1⟩

/-! ## The trace of one Advance -/

namespace UECFTimeline

/-- The calls of `Complete` for a completion callable of the user that takes the
stopped flag. -/
theorem Scalar_Complete_user (s : UECFTimeline) (id : FuncId) (bStopped : Bool)
    (h : s.CallbackFunc = some (StoppedCallback.user id)) :
    s.Complete bStopped
      = [TimelineCall.CallbackFunc id s.CurrentValue s.CurrentTime bStopped] := by
  simp only [Complete, h]

end UECFTimeline

namespace UECFTimelineLinearColor

/-- The calls of `Complete` for a completion callable of the user that takes the
stopped flag. -/
theorem Color_Complete_user (s : UECFTimelineLinearColor) (id : FuncId) (bStopped : Bool)
    (h : s.CallbackFunc = some (StoppedCallback.user id)) :
    s.Complete bStopped
      = [TimelineCall.CallbackFunc id s.CurrentValue s.CurrentTime bStopped] := by
  simp only [Complete, h]

end UECFTimelineLinearColor

namespace Rounded

namespace UECFTimeline

/-- Without rounding, `Tick` over float arithmetic is the `Tick` written with the
exact operations. -/
theorem Rounded_Scalar_Tick_exactArith (M : EngineMath) (dt : ℚ) (s : ECF.UECFTimeline) :
    Tick exactArith M dt s = ECF.UECFTimeline.Tick M dt s := rfl

/-- One `Tick` of a scalar timeline that holds what `Setup` stored, whatever the
float arithmetic: the trace, the finished flag, the new time, the new value as
the blend at the new time, and what is kept. -/
theorem Rounded_Scalar_Tick_facts (F : FloatArith) (M : EngineMath) (tf : FuncId)
    (cbk : Option StoppedCallback) (a b T e : ℚ) (bf : EECFBlendFunc) (hT : 0 ≤ T) (dt : ℚ)
    (s : ECF.UECFTimeline)
    (hs : s.TickFunc = some tf ∧ s.CallbackFunc = cbk ∧ s.StartValue = a ∧ s.StopValue = b
      ∧ s.Time = T ∧ s.BlendFunc = bf ∧ s.BlendExp = e ∧ 0 ≤ s.CurrentTime ∧ s.CurrentTime ≤ T) :
    ∃ s1, Tick F M dt s
        = some (s1, TimelineCall.TickFunc tf s1.CurrentValue s1.CurrentTime
            :: (if s1.HasReachedStop = true then s1.Complete false else []))
      ∧ s1.bHasFinished = (s.bHasFinished || s1.HasReachedStop)
      ∧ s1.CurrentValue = Blend F M s1
      ∧ s1.CurrentTime = ECF.FMath.Clamp (F.Add s.CurrentTime dt) 0 T
      ∧ (s1.TickFunc = some tf ∧ s1.CallbackFunc = cbk ∧ s1.StartValue = a ∧ s1.StopValue = b
        ∧ s1.Time = T ∧ s1.BlendFunc = bf ∧ s1.BlendExp = e ∧ 0 ≤ s1.CurrentTime
        ∧ s1.CurrentTime ≤ T) := by
  obtain ⟨h1, h2, h3, h4, h5, h6, h7, _, _⟩ := hs
  have hu : (UpdateValue F M (UpdateTime F dt s)).TickFunc = some tf := h1
  have hm := ECF.FMath.Clamp_mem (F.Add s.CurrentTime dt) 0 T hT
  have hc : (UpdateValue F M (UpdateTime F dt s)).CurrentTime
      = ECF.FMath.Clamp (F.Add s.CurrentTime dt) 0 T := by
    rw [← h5]
    rfl
  by_cases hr : (UpdateValue F M (UpdateTime F dt s)).HasReachedStop = true
  · have hr1 : ((UpdateValue F M (UpdateTime F dt s)).MarkAsFinished).HasReachedStop = true := hr
    refine ⟨(UpdateValue F M (UpdateTime F dt s)).MarkAsFinished, ?_, ?_, rfl, hc,
      h1, h2, h3, h4, h5, h6, h7, ?_, ?_⟩
    · unfold Tick
      simp only [hu]
      rw [if_pos hr, if_pos hr1]
      rfl
    · rw [hr1, Bool.or_true]
      rfl
    · rw [show ((UpdateValue F M (UpdateTime F dt s)).MarkAsFinished).CurrentTime
        = ECF.FMath.Clamp (F.Add s.CurrentTime dt) 0 T from hc]
      exact hm.1
    · rw [show ((UpdateValue F M (UpdateTime F dt s)).MarkAsFinished).CurrentTime
        = ECF.FMath.Clamp (F.Add s.CurrentTime dt) 0 T from hc]
      exact hm.2
  · have hr0 : (UpdateValue F M (UpdateTime F dt s)).HasReachedStop = false :=
      Bool.eq_false_iff.mpr hr
    refine ⟨UpdateValue F M (UpdateTime F dt s), ?_, ?_, rfl, hc,
      h1, h2, h3, h4, h5, h6, h7, ?_, ?_⟩
    · unfold Tick
      simp only [hu]
      rw [if_neg hr, if_neg hr]
    · rw [hr0, Bool.or_false]
      rfl
    · rw [hc]; exact hm.1
    · rw [hc]; exact hm.2

/-- The completion test of the scalar timeline, written out. -/
theorem Rounded_HasReachedStop_iff (u : ECF.UECFTimeline) :
    u.HasReachedStop = true
      ↔ (u.StartValue < u.StopValue ∧ u.StopValue ≤ u.CurrentValue)
        ∨ (u.StopValue < u.StartValue ∧ u.CurrentValue ≤ u.StopValue) := by
  unfold ECF.UECFTimeline.HasReachedStop
  simp only [Bool.or_eq_true, Bool.and_eq_true, decide_eq_true_eq, gt_iff_lt, ge_iff_le]

end UECFTimeline

namespace UECFTimelineLinearColor

/-- Without rounding, `Tick` over float arithmetic is the `Tick` written with the
exact operations. -/
theorem Rounded_Color_Tick_exactArith (M : EngineMath) (dt : ℚ)
    (s : ECF.UECFTimelineLinearColor) :
    Tick exactArith M dt s = ECF.UECFTimelineLinearColor.Tick M dt s := by
  have hadd : ∀ x y : ECF.FLinearColor,
      x + y = ⟨x.R + y.R, x.G + y.G, x.B + y.B, x.A + y.A⟩ := fun _ _ => rfl
  have hsub : ∀ x y : ECF.FLinearColor,
      x - y = ⟨x.R - y.R, x.G - y.G, x.B - y.B, x.A - y.A⟩ := fun _ _ => rfl
  have hmul : ∀ (k : ℚ) (x : ECF.FLinearColor),
      k * x = ⟨k * x.R, k * x.G, k * x.B, k * x.A⟩ := fun _ _ => rfl
  have hB : ∀ (u : ECF.UECFTimelineLinearColor) (l : ℚ),
      Blend exactArith M u l = ECF.UECFTimelineLinearColor.Blend M u l := by
    intro u l
    unfold Blend ECF.UECFTimelineLinearColor.Blend
    cases u.BlendFunc <;>
      simp only [FLinearColor.Lerp, FLinearColor.CubicInterp, FLinearColor.Plus,
        FLinearColor.Minus, FLinearColor.Times, ECF.FMath.Lerp, ECF.FMath.CubicInterp,
        exactArith, hadd, hsub, hmul, mul_comm]
  have hU : UpdateValue exactArith M (UpdateTime exactArith dt s)
      = (s.UpdateTime dt).UpdateValue M := by
    show ({ (s.UpdateTime dt) with
        CurrentValue := Blend exactArith M (s.UpdateTime dt) (s.UpdateTime dt).LerpValue }
        : ECF.UECFTimelineLinearColor) = _
    rw [hB]
    rfl
  unfold Tick ECF.UECFTimelineLinearColor.Tick
  rw [hU]
  rfl

/-- One `Tick` of a color timeline that holds what `Setup` stored, whatever the
float arithmetic: the trace, the finished flag, the new time, the new value as
the blend at the new time, and what is kept. -/
theorem Rounded_Color_Tick_facts (F : FloatArith) (M : EngineMath) (tf : FuncId)
    (cbk : Option StoppedCallback) (a b : ECF.FLinearColor) (T e : ℚ) (bf : EECFBlendFunc)
    (hT : 0 ≤ T) (dt : ℚ) (s : ECF.UECFTimelineLinearColor)
    (hs : s.TickFunc = some tf ∧ s.CallbackFunc = cbk ∧ s.StartValue = a ∧ s.StopValue = b
      ∧ s.Time = T ∧ s.BlendFunc = bf ∧ s.BlendExp = e ∧ 0 ≤ s.CurrentTime ∧ s.CurrentTime ≤ T) :
    ∃ s1, Tick F M dt s
        = some (s1, TimelineCall.TickFunc tf s1.CurrentValue s1.CurrentTime
            :: (if F.Div s1.CurrentTime T ≥ 1 then s1.Complete false else []))
      ∧ s1.bHasFinished = (s.bHasFinished || decide (F.Div s1.CurrentTime T ≥ 1))
      ∧ s1.CurrentValue = Blend F M s1 (F.Div s1.CurrentTime T)
      ∧ s1.CurrentTime = ECF.FMath.Clamp (F.Add s.CurrentTime dt) 0 T
      ∧ (s1.TickFunc = some tf ∧ s1.CallbackFunc = cbk ∧ s1.StartValue = a ∧ s1.StopValue = b
        ∧ s1.Time = T ∧ s1.BlendFunc = bf ∧ s1.BlendExp = e ∧ 0 ≤ s1.CurrentTime
        ∧ s1.CurrentTime ≤ T) := by
  obtain ⟨h1, h2, h3, h4, h5, h6, h7, _, _⟩ := hs
  have hu : (UpdateValue F M (UpdateTime F dt s)).TickFunc = some tf := h1
  have hm := ECF.FMath.Clamp_mem (F.Add s.CurrentTime dt) 0 T hT
  have hc : (UpdateValue F M (UpdateTime F dt s)).CurrentTime
      = ECF.FMath.Clamp (F.Add s.CurrentTime dt) 0 T := by
    rw [← h5]
    rfl
  have hl : LerpValue F (UpdateValue F M (UpdateTime F dt s))
      = F.Div (UpdateValue F M (UpdateTime F dt s)).CurrentTime T := by
    rw [← h5]
    rfl
  by_cases hr : LerpValue F (UpdateValue F M (UpdateTime F dt s)) ≥ 1
  · have hr1 : F.Div ((UpdateValue F M (UpdateTime F dt s)).MarkAsFinished).CurrentTime T ≥ 1 := by
      rw [hl] at hr
      exact hr
    refine ⟨(UpdateValue F M (UpdateTime F dt s)).MarkAsFinished, ?_, ?_, ?_, hc,
      h1, h2, h3, h4, h5, h6, h7, ?_, ?_⟩
    · unfold Tick
      simp only [hu]
      rw [if_pos hr, if_pos hr1]
      rfl
    · rw [decide_eq_true hr1, Bool.or_true]
      rfl
    · rw [← h5]
      rfl
    · rw [show ((UpdateValue F M (UpdateTime F dt s)).MarkAsFinished).CurrentTime
        = ECF.FMath.Clamp (F.Add s.CurrentTime dt) 0 T from hc]
      exact hm.1
    · rw [show ((UpdateValue F M (UpdateTime F dt s)).MarkAsFinished).CurrentTime
        = ECF.FMath.Clamp (F.Add s.CurrentTime dt) 0 T from hc]
      exact hm.2
  · have hr1 : ¬ F.Div (UpdateValue F M (UpdateTime F dt s)).CurrentTime T ≥ 1 := by
      rw [hl] at hr
      exact hr
    refine ⟨UpdateValue F M (UpdateTime F dt s), ?_, ?_, ?_, hc,
      h1, h2, h3, h4, h5, h6, h7, ?_, ?_⟩
    · unfold Tick
      simp only [hu]
      rw [if_neg hr, if_neg hr1]
    · rw [decide_eq_false hr1, Bool.or_false]
      rfl
    · rw [← h5]
      rfl
    · rw [hc]; exact hm.1
    · rw [hc]; exact hm.2

end UECFTimelineLinearColor

end Rounded

/-- From the object left by an accepting scalar `Setup`, ticking over any frames,
under any rule `finished` for leaving frames out and whatever the float
arithmetic, does not abort and reaches an object that still holds everything
that `Setup` stored, with its time inside `[0, T]`. -/
theorem Rounded_Scalar_reach (finished : UECFTimeline → Bool) (F : FloatArith) (M : EngineMath)
    (self : UECFTimeline) (a b T : ℚ) (tf : Option FuncId) (cbk : Option StoppedCallback)
    (bf : EECFBlendFunc) (e : ℚ) (h : (self.Setup a b T tf cbk bf e).1 = true) :
    (0 < T ∧ e ≠ 0 ∧ a ≠ b) ∧ ∃ f, tf = some f
      ∧ (self.Setup a b T tf cbk bf e).2.CurrentTime = 0
      ∧ ∀ dts : List ℚ, ∃ s ev,
          runTicks finished (Rounded.UECFTimeline.Tick F M) dts (self.Setup a b T tf cbk bf e).2
            = some (s, ev)
          ∧ (s.TickFunc = some f ∧ s.CallbackFunc = cbk ∧ s.StartValue = a ∧ s.StopValue = b
            ∧ s.Time = T ∧ s.BlendFunc = bf ∧ s.BlendExp = e ∧ 0 ≤ s.CurrentTime
            ∧ s.CurrentTime ≤ T) := by
  have h0 := UECFTimeline.Scalar_Setup_snd_of_accept _ _ _ _ _ _ _ _ h
  have hv := h
  rw [UECFTimeline.Scalar_Setup_fst] at hv
  simp only [Bool.and_eq_true, decide_eq_true_eq] at hv
  obtain ⟨⟨⟨htf, hT⟩, he⟩, hab⟩ := hv
  obtain ⟨f, hf⟩ := Option.isSome_iff_exists.mp htf
  have hinv : (fun s : UECFTimeline => s.TickFunc = some f ∧ s.CallbackFunc = cbk
      ∧ s.StartValue = a ∧ s.StopValue = b ∧ s.Time = T ∧ s.BlendFunc = bf ∧ s.BlendExp = e
      ∧ 0 ≤ s.CurrentTime ∧ s.CurrentTime ≤ T) (self.Setup a b T tf cbk bf e).2 := by
    rw [h0]
    exact ⟨hf, rfl, rfl, rfl, rfl, rfl, rfl, le_refl _, le_of_lt hT⟩
  refine ⟨⟨hT, he, hab⟩, f, hf, by rw [h0], fun dts => ?_⟩
  exact runTicks_invariant finished (Rounded.UECFTimeline.Tick F M) _
    (fun dt s hs => by
      obtain ⟨s1, ht, _, _, _, hinv1⟩ :=
        Rounded.UECFTimeline.Rounded_Scalar_Tick_facts F M f cbk a b T e bf (le_of_lt hT) dt s hs
      exact ⟨s1, _, ht, hinv1⟩)
    dts _ hinv

/-- From the object left by an accepting color `Setup`, ticking over any frames,
under any rule `finished` for leaving frames out and whatever the float
arithmetic, does not abort and reaches an object that still holds everything
that `Setup` stored, with its time inside `[0, T]`. -/
theorem Rounded_Color_reach (finished : UECFTimelineLinearColor → Bool) (F : FloatArith)
    (M : EngineMath) (self : UECFTimelineLinearColor) (a b : FLinearColor) (T : ℚ)
    (tf : Option FuncId) (cbk : Option StoppedCallback) (bf : EECFBlendFunc) (e : ℚ)
    (h : (self.Setup a b T tf cbk bf e).1 = true) :
    (0 < T ∧ e ≠ 0 ∧ a ≠ b) ∧ ∃ f, tf = some f
      ∧ (self.Setup a b T tf cbk bf e).2.CurrentTime = 0
      ∧ ∀ dts : List ℚ, ∃ s ev,
          runTicks finished (Rounded.UECFTimelineLinearColor.Tick F M) dts
              (self.Setup a b T tf cbk bf e).2
            = some (s, ev)
          ∧ (s.TickFunc = some f ∧ s.CallbackFunc = cbk ∧ s.StartValue = a ∧ s.StopValue = b
            ∧ s.Time = T ∧ s.BlendFunc = bf ∧ s.BlendExp = e ∧ 0 ≤ s.CurrentTime
            ∧ s.CurrentTime ≤ T) := by
  have h0 := UECFTimelineLinearColor.Color_Setup_snd_of_accept _ _ _ _ _ _ _ _ h
  have hv := h
  rw [UECFTimelineLinearColor.Color_Setup_fst] at hv
  simp only [Bool.and_eq_true, decide_eq_true_eq] at hv
  obtain ⟨⟨⟨htf, hT⟩, he⟩, hab⟩ := hv
  obtain ⟨f, hf⟩ := Option.isSome_iff_exists.mp htf
  have hinv : (fun s : UECFTimelineLinearColor => s.TickFunc = some f ∧ s.CallbackFunc = cbk
      ∧ s.StartValue = a ∧ s.StopValue = b ∧ s.Time = T ∧ s.BlendFunc = bf ∧ s.BlendExp = e
      ∧ 0 ≤ s.CurrentTime ∧ s.CurrentTime ≤ T) (self.Setup a b T tf cbk bf e).2 := by
    rw [h0]
    exact ⟨hf, rfl, rfl, rfl, rfl, rfl, rfl, le_refl _, le_of_lt hT⟩
  refine ⟨⟨hT, he, hab⟩, f, hf, by rw [h0], fun dts => ?_⟩
  exact runTicks_invariant finished (Rounded.UECFTimelineLinearColor.Tick F M) _
    (fun dt s hs => by
      obtain ⟨s1, ht, _, _, _, hinv1⟩ :=
        Rounded.UECFTimelineLinearColor.Rounded_Color_Tick_facts F M f cbk a b T e bf
          (le_of_lt hT) dt s hs
      exact ⟨s1, _, ht, hinv1⟩)
    dts _ hinv

/-! ## Evaluating single-precision operations -/

/-- A single-precision sum whose exact value `r = m * 2 ^ k` is a single-precision
number is that value. -/
theorem binary32_Add_exact (x y r : ℚ) (m k : ℤ) (hm1 : -16777216 < m) (hm2 : m < 16777216)
    (hk : -149 ≤ k) (hr : x + y = r) (hq : r = (m : ℚ) * (2 : ℚ) ^ k) : binary32.Add x y = r := by
  show Binary32.roundNearest (x + y) = r
  rw [hr]
  exact Binary32.roundNearest_eq_self r m k hm1 hm2 hk hq

/-- A single-precision difference whose exact value `r = m * 2 ^ k` is a
single-precision number is that value. -/
theorem binary32_Sub_exact (x y r : ℚ) (m k : ℤ) (hm1 : -16777216 < m) (hm2 : m < 16777216)
    (hk : -149 ≤ k) (hr : x - y = r) (hq : r = (m : ℚ) * (2 : ℚ) ^ k) : binary32.Sub x y = r := by
  show Binary32.roundNearest (x - y) = r
  rw [hr]
  exact Binary32.roundNearest_eq_self r m k hm1 hm2 hk hq

/-- A single-precision product whose exact value `r = m * 2 ^ k` is a
single-precision number is that value. -/
theorem binary32_Mul_exact (x y r : ℚ) (m k : ℤ) (hm1 : -16777216 < m) (hm2 : m < 16777216)
    (hk : -149 ≤ k) (hr : x * y = r) (hq : r = (m : ℚ) * (2 : ℚ) ^ k) : binary32.Mul x y = r := by
  show Binary32.roundNearest (x * y) = r
  rw [hr]
  exact Binary32.roundNearest_eq_self r m k hm1 hm2 hk hq

/-- A single-precision quotient whose exact value `r = m * 2 ^ k` is a
single-precision number is that value. -/
theorem binary32_Div_exact (x y r : ℚ) (m k : ℤ) (hm1 : -16777216 < m) (hm2 : m < 16777216)
    (hk : -149 ≤ k) (hr : x / y = r) (hq : r = (m : ℚ) * (2 : ℚ) ^ k) : binary32.Div x y = r := by
  show Binary32.roundNearest (x / y) = r
  rw [hr]
  exact Binary32.roundNearest_eq_self r m k hm1 hm2 hk hq

/-! ## The trace and the value of one Advance -/

/-- C15: for a scalar timeline and for a color timeline accepted by `Setup` with
tick callable `tf` and completion callable `cbk`, whatever the rounding of the
float operations: from every state reached by driving the action over any
frames, an Advance by any `dt` stores the time `Clamp(previous time + dt, 0, T)`
and the value that the blend function gives at `g = CurrentTime / T` for this new
time (Linear: `a + g * (b - a)`; Cubic: the cubic interpolation with tangents
`0`, for colors those of opaque black; EaseIn and EaseOut: `a + w * (b - a)` with
`w = Pow(g, e)` and `w = Pow(g, 1 / e)`; EaseInOut: the engine's
`InterpEaseInOut(a, b, g, e)`); it calls the tick callable first and once, with
this new value and time. When the Advance completes the timeline (scalar: the
new value has reached or passed the stop value in the direction of travel;
color: `g ≥ 1`), the calls of `Complete(false)` follow, for a user callable `id`
the single call `id(CurrentValue, CurrentTime, false)` with the same value and
time, and the action is marked finished. Otherwise nothing follows the tick call
and the finished flag is unchanged. -/
theorem C15_advance_ticks_once_with_the_new_value (F : FloatArith) (M : EngineMath)
    (self : UECFTimeline) (cself : UECFTimelineLinearColor) (a b T e : ℚ) (c0 c1 : FLinearColor)
    (tf : Option FuncId) (cbk : Option StoppedCallback) (bf : EECFBlendFunc)
    (hs : (self.Setup a b T tf cbk bf e).1 = true)
    (hc : (cself.Setup c0 c1 T tf cbk bf e).1 = true) :
    (∀ dts : List ℚ, ∃ f s ev, tf = some f
        ∧ runTicks UECFTimeline.bHasFinished (Rounded.UECFTimeline.Tick F M) dts
            (self.Setup a b T tf cbk bf e).2 = some (s, ev)
        ∧ ∀ dt : ℚ, ∃ s1 ev1, Rounded.UECFTimeline.Tick F M dt s = some (s1, ev1)
            ∧ s1.CurrentTime = FMath.Clamp (F.Add s.CurrentTime dt) 0 T
            ∧ (let g := F.Div s1.CurrentTime T
               let g2 := F.Mul g g
               let g3 := F.Mul g2 g
               (bf = EECFBlendFunc.ECFBlend_Linear →
                  s1.CurrentValue = F.Add a (F.Mul g (F.Sub b a)))
               ∧ (bf = EECFBlendFunc.ECFBlend_Cubic →
                  s1.CurrentValue
                    = F.Add
                        (F.Add
                          (F.Add (F.Mul (F.Add (F.Sub (F.Mul 2 g3) (F.Mul 3 g2)) 1) a)
                            (F.Mul (F.Add (F.Sub g3 (F.Mul 2 g2)) g) 0))
                          (F.Mul (F.Sub g3 g2) 0))
                        (F.Mul (F.Add (F.Mul (-2) g3) (F.Mul 3 g2)) b))
               ∧ (bf = EECFBlendFunc.ECFBlend_EaseIn →
                  s1.CurrentValue = F.Add a (F.Mul (M.Pow g e) (F.Sub b a)))
               ∧ (bf = EECFBlendFunc.ECFBlend_EaseOut →
                  s1.CurrentValue = F.Add a (F.Mul (M.Pow g (F.Div 1 e)) (F.Sub b a)))
               ∧ (bf = EECFBlendFunc.ECFBlend_EaseInOut →
                  s1.CurrentValue = M.InterpEaseInOut a b g e))
            ∧ ((a < b ∧ b ≤ s1.CurrentValue) ∨ (b < a ∧ s1.CurrentValue ≤ b) →
                s1.bHasFinished = true
                ∧ ev1 = TimelineCall.TickFunc f s1.CurrentValue s1.CurrentTime
                    :: s1.Complete false
                ∧ ∀ id : FuncId, cbk = some (StoppedCallback.user id) →
                    s1.Complete false
                      = [TimelineCall.CallbackFunc id s1.CurrentValue s1.CurrentTime false])
            ∧ (¬ ((a < b ∧ b ≤ s1.CurrentValue) ∨ (b < a ∧ s1.CurrentValue ≤ b)) →
                s1.bHasFinished = s.bHasFinished
                ∧ ev1 = [TimelineCall.TickFunc f s1.CurrentValue s1.CurrentTime]))
    ∧ (∀ dts : List ℚ, ∃ f s ev, tf = some f
        ∧ runTicks UECFTimelineLinearColor.bHasFinished
            (Rounded.UECFTimelineLinearColor.Tick F M) dts
            (cself.Setup c0 c1 T tf cbk bf e).2 = some (s, ev)
        ∧ ∀ dt : ℚ, ∃ s1 ev1, Rounded.UECFTimelineLinearColor.Tick F M dt s = some (s1, ev1)
            ∧ s1.CurrentTime = FMath.Clamp (F.Add s.CurrentTime dt) 0 T
            ∧ (let g := F.Div s1.CurrentTime T
               let g2 := F.Mul g g
               let g3 := F.Mul g2 g
               let lerp := fun (w x y : ℚ) => F.Add x (F.Mul (F.Sub y x) w)
               let cubic := fun (x t y : ℚ) =>
                 F.Add
                   (F.Add
                     (F.Add (F.Mul x (F.Add (F.Sub (F.Mul 2 g3) (F.Mul 3 g2)) 1))
                       (F.Mul t (F.Add (F.Sub g3 (F.Mul 2 g2)) g)))
                     (F.Mul t (F.Sub g3 g2)))
                   (F.Mul y (F.Add (F.Mul (-2) g3) (F.Mul 3 g2)))
               (bf = EECFBlendFunc.ECFBlend_Linear →
                  s1.CurrentValue
                    = FLinearColor.mk (lerp g c0.R c1.R) (lerp g c0.G c1.G) (lerp g c0.B c1.B)
                        (lerp g c0.A c1.A))
               ∧ (bf = EECFBlendFunc.ECFBlend_Cubic →
                  s1.CurrentValue
                    = FLinearColor.mk (cubic c0.R 0 c1.R) (cubic c0.G 0 c1.G) (cubic c0.B 0 c1.B)
                        (cubic c0.A 1 c1.A))
               ∧ (bf = EECFBlendFunc.ECFBlend_EaseIn →
                  s1.CurrentValue
                    = FLinearColor.mk (lerp (M.Pow g e) c0.R c1.R) (lerp (M.Pow g e) c0.G c1.G)
                        (lerp (M.Pow g e) c0.B c1.B) (lerp (M.Pow g e) c0.A c1.A))
               ∧ (bf = EECFBlendFunc.ECFBlend_EaseOut →
                  s1.CurrentValue
                    = FLinearColor.mk (lerp (M.Pow g (F.Div 1 e)) c0.R c1.R)
                        (lerp (M.Pow g (F.Div 1 e)) c0.G c1.G)
                        (lerp (M.Pow g (F.Div 1 e)) c0.B c1.B)
                        (lerp (M.Pow g (F.Div 1 e)) c0.A c1.A))
               ∧ (bf = EECFBlendFunc.ECFBlend_EaseInOut →
                  s1.CurrentValue = M.InterpEaseInOutColor c0 c1 g e))
            ∧ (F.Div s1.CurrentTime T ≥ 1 →
                s1.bHasFinished = true
                ∧ ev1 = TimelineCall.TickFunc f s1.CurrentValue s1.CurrentTime
                    :: s1.Complete false
                ∧ ∀ id : FuncId, cbk = some (StoppedCallback.user id) →
                    s1.Complete false
                      = [TimelineCall.CallbackFunc id s1.CurrentValue s1.CurrentTime false])
            ∧ (¬ F.Div s1.CurrentTime T ≥ 1 →
                s1.bHasFinished = s.bHasFinished
                ∧ ev1 = [TimelineCall.TickFunc f s1.CurrentValue s1.CurrentTime])) := by
  refine ⟨fun dts => ?_, fun dts => ?_⟩
  · obtain ⟨⟨hT, _, _⟩, f, hf, _, hreach⟩ :=
      Rounded_Scalar_reach UECFTimeline.bHasFinished F M self a b T tf cbk bf e hs
    obtain ⟨s, ev, hrun, hinv⟩ := hreach dts
    refine ⟨f, s, ev, hf, hrun, fun dt => ?_⟩
    obtain ⟨s1, ht, hfin, hval, hct, _, hcb, ha, hb, hTime, hbf, he, _, _⟩ :=
      Rounded.UECFTimeline.Rounded_Scalar_Tick_facts F M f cbk a b T e bf (le_of_lt hT) dt s hinv
    have htest := Rounded.UECFTimeline.Rounded_HasReachedStop_iff s1
    rw [ha, hb] at htest
    refine ⟨s1, _, ht, hct, ?_, fun hyes => ?_, fun hno => ?_⟩
    · dsimp only
      rw [hval]
      simp only [Rounded.UECFTimeline.Blend, Rounded.FMath.Lerp, Rounded.FMath.CubicInterp,
        hbf, ha, hb, hTime, he]
      refine ⟨?_, ?_, ?_, ?_, ?_⟩ <;> rintro rfl <;> rfl
    · have hr : s1.HasReachedStop = true := htest.mpr hyes
      refine ⟨by rw [hfin, hr, Bool.or_true], by rw [if_pos hr], fun id hid => ?_⟩
      exact UECFTimeline.Scalar_Complete_user s1 id false (by rw [hcb, hid])
    · have hr : ¬ s1.HasReachedStop = true := fun h => hno (htest.mp h)
      refine ⟨by rw [hfin, Bool.eq_false_iff.mpr hr, Bool.or_false], by rw [if_neg hr]⟩
  · obtain ⟨⟨hT, _, _⟩, f, hf, _, hreach⟩ :=
      Rounded_Color_reach UECFTimelineLinearColor.bHasFinished F M cself c0 c1 T tf cbk bf e hc
    obtain ⟨s, ev, hrun, hinv⟩ := hreach dts
    refine ⟨f, s, ev, hf, hrun, fun dt => ?_⟩
    obtain ⟨s1, ht, hfin, hval, hct, _, hcb, ha, hb, hTime, hbf, he, _, _⟩ :=
      Rounded.UECFTimelineLinearColor.Rounded_Color_Tick_facts F M f cbk c0 c1 T e bf
        (le_of_lt hT) dt s hinv
    refine ⟨s1, _, ht, hct, ?_, fun hyes => ?_, fun hno => ?_⟩
    · dsimp only
      rw [hval]
      simp only [Rounded.UECFTimelineLinearColor.Blend, Rounded.FLinearColor.Lerp,
        Rounded.FLinearColor.CubicInterp, Rounded.FLinearColor.Plus, Rounded.FLinearColor.Minus,
        Rounded.FLinearColor.Times, FLinearColor.Black, hbf, ha, hb, he]
      refine ⟨?_, ?_, ?_, ?_, ?_⟩ <;> rintro rfl <;> rfl
    · refine ⟨by rw [hfin, decide_eq_true hyes, Bool.or_true], by rw [if_pos hyes],
        fun id hid => ?_⟩
      exact UECFTimelineLinearColor.Color_Complete_user s1 id false (by rw [hcb, hid])
    · refine ⟨by rw [hfin, decide_eq_false hno, Bool.or_false], by rw [if_neg hno]⟩

/-- Witness for C15, in single precision: a scalar timeline from `0` to `10` and
a color timeline from opaque black to white, duration `2`, Linear, tick callable
`1`, user completion callable `9`. From the state left by `Setup`, the Advance by
`1` of the scalar timeline calls the tick callable with `(5, 1)` and nothing
else; the Advances by `3` clamp the time to `2`, call the tick callable with the
stop value and `2`, then the completion callable with the same value and time
and `false`, and mark the actions finished. -/
theorem C15_advance_ticks_once_with_the_new_value_witness :
    (∃ s1, Rounded.UECFTimeline.Tick binary32 rationalMath 1
        ((UECFTimeline.mk none none none 0 0 0 EECFBlendFunc.ECFBlend_Cubic 0 7 7 0 false).Setup
          0 10 2 (some 1) (some (StoppedCallback.user 9)) EECFBlendFunc.ECFBlend_Linear 1).2
        = some (s1, [TimelineCall.TickFunc 1 5 1])
      ∧ s1.bHasFinished = false)
    ∧ (∃ s1, Rounded.UECFTimeline.Tick binary32 rationalMath 3
        ((UECFTimeline.mk none none none 0 0 0 EECFBlendFunc.ECFBlend_Cubic 0 7 7 0 false).Setup
          0 10 2 (some 1) (some (StoppedCallback.user 9)) EECFBlendFunc.ECFBlend_Linear 1).2
        = some (s1, [TimelineCall.TickFunc 1 10 2, TimelineCall.CallbackFunc 9 10 2 false])
      ∧ s1.bHasFinished = true)
    ∧ (∃ s1, Rounded.UECFTimelineLinearColor.Tick binary32 rationalMath 3
        ((UECFTimelineLinearColor.mk none none none FLinearColor.Black FLinearColor.Black 0
          EECFBlendFunc.ECFBlend_Cubic 0 7 FLinearColor.Black 0 false).Setup
          FLinearColor.Black ⟨1, 1, 1, 1⟩ 2 (some 1) (some (StoppedCallback.user 9))
          EECFBlendFunc.ECFBlend_Linear 1).2
        = some (s1, [TimelineCall.TickFunc 1 ⟨1, 1, 1, 1⟩ 2,
            TimelineCall.CallbackFunc 9 ⟨1, 1, 1, 1⟩ 2 false])
      ∧ s1.bHasFinished = true) := by
  have h := C15_advance_ticks_once_with_the_new_value binary32 rationalMath
    (UECFTimeline.mk none none none 0 0 0 EECFBlendFunc.ECFBlend_Cubic 0 7 7 0 false)
    (UECFTimelineLinearColor.mk none none none FLinearColor.Black FLinearColor.Black 0
      EECFBlendFunc.ECFBlend_Cubic 0 7 FLinearColor.Black 0 false)
    0 10 2 1 FLinearColor.Black ⟨1, 1, 1, 1⟩ (some 1) (some (StoppedCallback.user 9))
    EECFBlendFunc.ECFBlend_Linear
    (by rw [UECFTimeline.Scalar_Setup_fst]; simp)
    (by rw [UECFTimelineLinearColor.Color_Setup_fst]; simp [FLinearColor.Black])
  have hAdd01 : binary32.Add 0 1 = 1 :=
    binary32_Add_exact 0 1 1 1 0 (by norm_num) (by norm_num) (by norm_num) (by norm_num)
      (by norm_num)
  have hAdd03 : binary32.Add 0 3 = 3 :=
    binary32_Add_exact 0 3 3 3 0 (by norm_num) (by norm_num) (by norm_num) (by norm_num)
      (by norm_num)
  have hAdd05 : binary32.Add 0 5 = 5 :=
    binary32_Add_exact 0 5 5 5 0 (by norm_num) (by norm_num) (by norm_num) (by norm_num)
      (by norm_num)
  have hAdd010 : binary32.Add 0 10 = 10 :=
    binary32_Add_exact 0 10 10 10 0 (by norm_num) (by norm_num) (by norm_num) (by norm_num)
      (by norm_num)
  have hAdd10 : binary32.Add 1 0 = 1 :=
    binary32_Add_exact 1 0 1 1 0 (by norm_num) (by norm_num) (by norm_num) (by norm_num)
      (by norm_num)
  have hDiv12 : binary32.Div 1 2 = 1 / 2 :=
    binary32_Div_exact 1 2 (1 / 2) 1 (-1) (by norm_num) (by norm_num) (by norm_num) (by norm_num)
      (by norm_num)
  have hDiv22 : binary32.Div 2 2 = 1 :=
    binary32_Div_exact 2 2 1 1 0 (by norm_num) (by norm_num) (by norm_num) (by norm_num)
      (by norm_num)
  have hSub100 : binary32.Sub 10 0 = 10 :=
    binary32_Sub_exact 10 0 10 10 0 (by norm_num) (by norm_num) (by norm_num) (by norm_num)
      (by norm_num)
  have hSub10 : binary32.Sub 1 0 = 1 :=
    binary32_Sub_exact 1 0 1 1 0 (by norm_num) (by norm_num) (by norm_num) (by norm_num)
      (by norm_num)
  have hSub11 : binary32.Sub 1 1 = 0 :=
    binary32_Sub_exact 1 1 0 0 0 (by norm_num) (by norm_num) (by norm_num) (by norm_num)
      (by norm_num)
  have hMul1210 : binary32.Mul (1 / 2) 10 = 5 :=
    binary32_Mul_exact (1 / 2) 10 5 5 0 (by norm_num) (by norm_num) (by norm_num) (by norm_num)
      (by norm_num)
  have hMul110 : binary32.Mul 1 10 = 10 :=
    binary32_Mul_exact 1 10 10 10 0 (by norm_num) (by norm_num) (by norm_num) (by norm_num)
      (by norm_num)
  have hMul11 : binary32.Mul 1 1 = 1 :=
    binary32_Mul_exact 1 1 1 1 0 (by norm_num) (by norm_num) (by norm_num) (by norm_num)
      (by norm_num)
  have hMul01 : binary32.Mul 0 1 = 0 :=
    binary32_Mul_exact 0 1 0 0 0 (by norm_num) (by norm_num) (by norm_num) (by norm_num)
      (by norm_num)
  have hClamp1 : FMath.Clamp 1 0 2 = 1 := by norm_num [FMath.Clamp]
  have hClamp3 : FMath.Clamp 3 0 2 = 2 := by norm_num [FMath.Clamp]
  have h0 : ((UECFTimeline.mk none none none 0 0 0 EECFBlendFunc.ECFBlend_Cubic 0 7 7 0
      false).Setup 0 10 2 (some 1) (some (StoppedCallback.user 9))
      EECFBlendFunc.ECFBlend_Linear 1).2.CurrentTime = 0 := by
    norm_num [UECFTimeline.Setup, UECFTimeline.SetMaxActionTime]
  have hc0 : ((UECFTimelineLinearColor.mk none none none FLinearColor.Black FLinearColor.Black 0
      EECFBlendFunc.ECFBlend_Cubic 0 7 FLinearColor.Black 0 false).Setup
      FLinearColor.Black ⟨1, 1, 1, 1⟩ 2 (some 1) (some (StoppedCallback.user 9))
      EECFBlendFunc.ECFBlend_Linear 1).2.CurrentTime = 0 := by
    norm_num [UECFTimelineLinearColor.Setup, UECFTimelineLinearColor.SetMaxActionTime,
      FLinearColor.Black]
  have hfin0 : ((UECFTimeline.mk none none none 0 0 0 EECFBlendFunc.ECFBlend_Cubic 0 7 7 0
      false).Setup 0 10 2 (some 1) (some (StoppedCallback.user 9))
      EECFBlendFunc.ECFBlend_Linear 1).2.bHasFinished = false := by
    norm_num [UECFTimeline.Setup, UECFTimeline.SetMaxActionTime]
  obtain ⟨f, s, ev, hf, hrun, hstep⟩ := h.1 []
  obtain ⟨rfl, -⟩ := Prod.mk.inj (Option.some.inj hrun)
  obtain rfl := Option.some.inj hf
  obtain ⟨g, c, cev, hg, hcrun, hcstep⟩ := h.2 []
  obtain ⟨rfl, -⟩ := Prod.mk.inj (Option.some.inj hcrun)
  obtain rfl := Option.some.inj hg
  refine ⟨?_, ?_, ?_⟩
  · obtain ⟨s1, ev1, ht, hct, hval, -, hno⟩ := hstep 1
    rw [h0, hAdd01, hClamp1] at hct
    have hval := hval.1 rfl
    rw [hct] at hval
    simp only [hDiv12, hSub100, hMul1210, hAdd05] at hval
    have hn := hno (by rw [hval]; norm_num)
    exact ⟨s1, by rw [ht, hn.2, hval, hct], by rw [hn.1, hfin0]⟩
  · obtain ⟨s1, ev1, ht, hct, hval, hyes, -⟩ := hstep 3
    rw [h0, hAdd03, hClamp3] at hct
    have hval := hval.1 rfl
    rw [hct] at hval
    simp only [hDiv22, hSub100, hMul110, hAdd010] at hval
    have hy := hyes (by rw [hval]; norm_num)
    exact ⟨s1, by rw [ht, hy.2.1, hy.2.2 9 rfl, hval, hct], hy.1⟩
  · obtain ⟨s1, ev1, ht, hct, hval, hyes, -⟩ := hcstep 3
    rw [hc0, hAdd03, hClamp3] at hct
    have hval := hval.1 rfl
    rw [hct] at hval
    simp only [hDiv22, hSub10, hSub11, hMul11, hMul01, hAdd01, hAdd10, FLinearColor.Black]
      at hval
    have hy := hyes (by rw [hct, hDiv22])
    exact ⟨s1, by rw [ht, hy.2.1, hy.2.2 9 rfl, hval, hct], hy.1⟩

/-! ## Blend functions of the scalar timeline -/

/-- The rational power function is the identity at the exponent `1`. -/
theorem rationalMath_Pow_one (x : ℚ) : rationalMath.Pow x 1 = x := by
  simp [rationalMath]

/-- The rational power function is `1` at the base `1`. -/
theorem rationalMath_one_Pow (y : ℚ) : rationalMath.Pow 1 y = 1 := by
  simp [rationalMath]

/-- The rational power function at the exponent `2` is the square. -/
theorem rationalMath_Pow_two (x : ℚ) : rationalMath.Pow x 2 = x ^ 2 := by
  show x ^ ⌈(2 : ℚ)⌉ = x ^ 2
  have h : ⌈(2 : ℚ)⌉ = 2 := by simp
  rw [h]
  exact zpow_ofNat x 2

/-- C16: for scalar timelines accepted by `Setup` with start `a`, stop `b` and
duration `T`, one with the EaseIn blend function and exponent `eIn`, one with
the EaseOut blend function and exponent `eOut`, whatever the rounding of the
float operations: from every state reached by driving the action over any
frames, an Advance stores, with `g = CurrentTime / T` for the new time, the
value `a + Pow(g, eIn) * (b - a)` for EaseIn and `a + Pow(g, 1 / eOut) * (b - a)`
for EaseOut, where `a + w * (b - a)` is the engine's `Lerp(a, b, w)` written
out and `Pow` is the engine's power function. With the exponent `1`, and a
power function with `Pow(x, 1) = x` (and `1 / 1 = 1` for EaseOut), both values
are the Linear value `a + g * (b - a)`. -/
theorem C16_ease_in_and_ease_out_values (F : FloatArith) (M : EngineMath)
    (selfIn selfOut : UECFTimeline) (a b T eIn eOut : ℚ)
    (tf : Option FuncId) (cbk : Option StoppedCallback)
    (hin : (selfIn.Setup a b T tf cbk EECFBlendFunc.ECFBlend_EaseIn eIn).1 = true)
    (hout : (selfOut.Setup a b T tf cbk EECFBlendFunc.ECFBlend_EaseOut eOut).1 = true) :
    (∀ dts : List ℚ, ∃ s ev,
        runTicks UECFTimeline.bHasFinished (Rounded.UECFTimeline.Tick F M) dts
            (selfIn.Setup a b T tf cbk EECFBlendFunc.ECFBlend_EaseIn eIn).2 = some (s, ev)
        ∧ ∀ dt : ℚ, ∃ s1 ev1, Rounded.UECFTimeline.Tick F M dt s = some (s1, ev1)
            ∧ s1.CurrentTime = FMath.Clamp (F.Add s.CurrentTime dt) 0 T
            ∧ s1.CurrentValue
                = F.Add a (F.Mul (M.Pow (F.Div s1.CurrentTime T) eIn) (F.Sub b a))
            ∧ (eIn = 1 → (∀ x, M.Pow x 1 = x) →
                s1.CurrentValue = F.Add a (F.Mul (F.Div s1.CurrentTime T) (F.Sub b a))))
    ∧ (∀ dts : List ℚ, ∃ s ev,
        runTicks UECFTimeline.bHasFinished (Rounded.UECFTimeline.Tick F M) dts
            (selfOut.Setup a b T tf cbk EECFBlendFunc.ECFBlend_EaseOut eOut).2 = some (s, ev)
        ∧ ∀ dt : ℚ, ∃ s1 ev1, Rounded.UECFTimeline.Tick F M dt s = some (s1, ev1)
            ∧ s1.CurrentTime = FMath.Clamp (F.Add s.CurrentTime dt) 0 T
            ∧ s1.CurrentValue
                = F.Add a (F.Mul (M.Pow (F.Div s1.CurrentTime T) (F.Div 1 eOut)) (F.Sub b a))
            ∧ (eOut = 1 → F.Div 1 1 = 1 → (∀ x, M.Pow x 1 = x) →
                s1.CurrentValue = F.Add a (F.Mul (F.Div s1.CurrentTime T) (F.Sub b a)))) := by
  refine ⟨fun dts => ?_, fun dts => ?_⟩
  · obtain ⟨⟨hT, _, _⟩, f, _, _, hreach⟩ :=
      Rounded_Scalar_reach UECFTimeline.bHasFinished F M selfIn a b T tf cbk _ eIn hin
    obtain ⟨s, ev, hrun, hinv⟩ := hreach dts
    refine ⟨s, ev, hrun, fun dt => ?_⟩
    obtain ⟨s1, ht, _, hval, hct, _, _, ha, hb, hTime, hbf, he, _, _⟩ :=
      Rounded.UECFTimeline.Rounded_Scalar_Tick_facts F M f cbk a b T eIn _ (le_of_lt hT) dt s hinv
    have hv : s1.CurrentValue
        = F.Add a (F.Mul (M.Pow (F.Div s1.CurrentTime T) eIn) (F.Sub b a)) := by
      rw [hval]
      simp only [Rounded.UECFTimeline.Blend, Rounded.FMath.Lerp, hbf, ha, hb, hTime, he]
    refine ⟨s1, _, ht, hct, hv, fun he1 hpow => ?_⟩
    rw [hv, he1, hpow]
  · obtain ⟨⟨hT, _, _⟩, f, _, _, hreach⟩ :=
      Rounded_Scalar_reach UECFTimeline.bHasFinished F M selfOut a b T tf cbk _ eOut hout
    obtain ⟨s, ev, hrun, hinv⟩ := hreach dts
    refine ⟨s, ev, hrun, fun dt => ?_⟩
    obtain ⟨s1, ht, _, hval, hct, _, _, ha, hb, hTime, hbf, he, _, _⟩ :=
      Rounded.UECFTimeline.Rounded_Scalar_Tick_facts F M f cbk a b T eOut _ (le_of_lt hT) dt s hinv
    have hv : s1.CurrentValue
        = F.Add a (F.Mul (M.Pow (F.Div s1.CurrentTime T) (F.Div 1 eOut)) (F.Sub b a)) := by
      rw [hval]
      simp only [Rounded.UECFTimeline.Blend, Rounded.FMath.Lerp, hbf, ha, hb, hTime, he]
    refine ⟨s1, _, ht, hct, hv, fun he1 hdiv hpow => ?_⟩
    rw [hv, he1, hdiv, hpow]

/-- Witness for C16, in single precision with the rational power function: start
`0`, stop `10`, duration `2`. From the state left by `Setup`, the Advance by `1`
gives `g = 1/2`; EaseIn with the exponent `2` stores `0 + (1/2)² * 10 = 5/2`;
EaseOut with the exponent `1/2` stores `0 + (1/2)^(1 / (1/2)) * 10 = 5/2` as
well; EaseIn and EaseOut with the exponent `1` both store the Linear value
`0 + 1/2 * 10 = 5`. -/
theorem C16_ease_in_and_ease_out_values_witness :
    (∃ s1 ev1, Rounded.UECFTimeline.Tick binary32 rationalMath 1
        ((UECFTimeline.mk none none none 0 0 0 EECFBlendFunc.ECFBlend_Cubic 0 7 7 0 false).Setup
          0 10 2 (some 1) none EECFBlendFunc.ECFBlend_EaseIn 2).2 = some (s1, ev1)
      ∧ s1.CurrentTime = 1 ∧ s1.CurrentValue = 5 / 2)
    ∧ (∃ s1 ev1, Rounded.UECFTimeline.Tick binary32 rationalMath 1
        ((UECFTimeline.mk none none none 0 0 0 EECFBlendFunc.ECFBlend_Cubic 0 7 7 0 false).Setup
          0 10 2 (some 1) none EECFBlendFunc.ECFBlend_EaseOut (1 / 2)).2 = some (s1, ev1)
      ∧ s1.CurrentTime = 1 ∧ s1.CurrentValue = 5 / 2)
    ∧ (∃ s1 ev1, Rounded.UECFTimeline.Tick binary32 rationalMath 1
        ((UECFTimeline.mk none none none 0 0 0 EECFBlendFunc.ECFBlend_Cubic 0 7 7 0 false).Setup
          0 10 2 (some 1) none EECFBlendFunc.ECFBlend_EaseIn 1).2 = some (s1, ev1)
      ∧ s1.CurrentTime = 1 ∧ s1.CurrentValue = 5)
    ∧ (∃ s1 ev1, Rounded.UECFTimeline.Tick binary32 rationalMath 1
        ((UECFTimeline.mk none none none 0 0 0 EECFBlendFunc.ECFBlend_Cubic 0 7 7 0 false).Setup
          0 10 2 (some 1) none EECFBlendFunc.ECFBlend_EaseOut 1).2 = some (s1, ev1)
      ∧ s1.CurrentTime = 1 ∧ s1.CurrentValue = 5) := by
  have hAdd01 : binary32.Add 0 1 = 1 :=
    binary32_Add_exact 0 1 1 1 0 (by norm_num) (by norm_num) (by norm_num) (by norm_num)
      (by norm_num)
  have hAdd05 : binary32.Add 0 5 = 5 :=
    binary32_Add_exact 0 5 5 5 0 (by norm_num) (by norm_num) (by norm_num) (by norm_num)
      (by norm_num)
  have hAdd052 : binary32.Add 0 (5 / 2) = 5 / 2 :=
    binary32_Add_exact 0 (5 / 2) (5 / 2) 5 (-1) (by norm_num) (by norm_num) (by norm_num)
      (by norm_num) (by norm_num)
  have hDiv12 : binary32.Div 1 2 = 1 / 2 :=
    binary32_Div_exact 1 2 (1 / 2) 1 (-1) (by norm_num) (by norm_num) (by norm_num) (by norm_num)
      (by norm_num)
  have hDiv112 : binary32.Div 1 (1 / 2) = 2 :=
    binary32_Div_exact 1 (1 / 2) 2 2 0 (by norm_num) (by norm_num) (by norm_num) (by norm_num)
      (by norm_num)
  have hDiv11 : binary32.Div 1 1 = 1 :=
    binary32_Div_exact 1 1 1 1 0 (by norm_num) (by norm_num) (by norm_num) (by norm_num)
      (by norm_num)
  have hSub100 : binary32.Sub 10 0 = 10 :=
    binary32_Sub_exact 10 0 10 10 0 (by norm_num) (by norm_num) (by norm_num) (by norm_num)
      (by norm_num)
  have hMul1210 : binary32.Mul (1 / 2) 10 = 5 :=
    binary32_Mul_exact (1 / 2) 10 5 5 0 (by norm_num) (by norm_num) (by norm_num) (by norm_num)
      (by norm_num)
  have hMul1410 : binary32.Mul (1 / 4) 10 = 5 / 2 :=
    binary32_Mul_exact (1 / 4) 10 (5 / 2) 5 (-1) (by norm_num) (by norm_num) (by norm_num)
      (by norm_num) (by norm_num)
  have hPow : rationalMath.Pow (1 / 2) 2 = 1 / 4 := by
    rw [rationalMath_Pow_two]
    norm_num
  have hClamp1 : FMath.Clamp 1 0 2 = 1 := by norm_num [FMath.Clamp]
  have h0 : ∀ (bf : EECFBlendFunc) (e : ℚ), e ≠ 0 →
      ((UECFTimeline.mk none none none 0 0 0 EECFBlendFunc.ECFBlend_Cubic 0 7 7 0 false).Setup
        0 10 2 (some 1) none bf e).2.CurrentTime = 0 := by
    intro bf e he
    rw [UECFTimeline.Scalar_Setup_snd_of_accept _ _ _ _ _ _ _ _
      (by rw [UECFTimeline.Scalar_Setup_fst]; simp [he])]
  have hsqr := C16_ease_in_and_ease_out_values binary32 rationalMath
    (UECFTimeline.mk none none none 0 0 0 EECFBlendFunc.ECFBlend_Cubic 0 7 7 0 false)
    (UECFTimeline.mk none none none 0 0 0 EECFBlendFunc.ECFBlend_Cubic 0 7 7 0 false)
    0 10 2 2 (1 / 2) (some 1) none
    (by rw [UECFTimeline.Scalar_Setup_fst]; simp)
    (by rw [UECFTimeline.Scalar_Setup_fst]; simp)
  have hone := C16_ease_in_and_ease_out_values binary32 rationalMath
    (UECFTimeline.mk none none none 0 0 0 EECFBlendFunc.ECFBlend_Cubic 0 7 7 0 false)
    (UECFTimeline.mk none none none 0 0 0 EECFBlendFunc.ECFBlend_Cubic 0 7 7 0 false)
    0 10 2 1 1 (some 1) none
    (by rw [UECFTimeline.Scalar_Setup_fst]; simp)
    (by rw [UECFTimeline.Scalar_Setup_fst]; simp)
  refine ⟨?_, ?_, ?_, ?_⟩
  · obtain ⟨s, ev, hrun, hstep⟩ := hsqr.1 []
    obtain ⟨rfl, -⟩ := Prod.mk.inj (Option.some.inj hrun)
    obtain ⟨s1, ev1, ht, hct, hval, -⟩ := hstep 1
    rw [h0 _ _ (by norm_num), hAdd01, hClamp1] at hct
    rw [hct, hDiv12, hPow, hSub100, hMul1410, hAdd052] at hval
    exact ⟨s1, ev1, ht, hct, hval⟩
  · obtain ⟨s, ev, hrun, hstep⟩ := hsqr.2 []
    obtain ⟨rfl, -⟩ := Prod.mk.inj (Option.some.inj hrun)
    obtain ⟨s1, ev1, ht, hct, hval, -⟩ := hstep 1
    rw [h0 _ _ (by norm_num), hAdd01, hClamp1] at hct
    rw [hct, hDiv12, hDiv112, hPow, hSub100, hMul1410, hAdd052] at hval
    exact ⟨s1, ev1, ht, hct, hval⟩
  · obtain ⟨s, ev, hrun, hstep⟩ := hone.1 []
    obtain ⟨rfl, -⟩ := Prod.mk.inj (Option.some.inj hrun)
    obtain ⟨s1, ev1, ht, hct, -, hlin⟩ := hstep 1
    have hval := hlin rfl rationalMath_Pow_one
    rw [h0 _ _ (by norm_num), hAdd01, hClamp1] at hct
    rw [hct, hDiv12, hSub100, hMul1210, hAdd05] at hval
    exact ⟨s1, ev1, ht, hct, hval⟩
  · obtain ⟨s, ev, hrun, hstep⟩ := hone.2 []
    obtain ⟨rfl, -⟩ := Prod.mk.inj (Option.some.inj hrun)
    obtain ⟨s1, ev1, ht, hct, -, hlin⟩ := hstep 1
    have hval := hlin rfl hDiv11 rationalMath_Pow_one
    rw [h0 _ _ (by norm_num), hAdd01, hClamp1] at hct
    rw [hct, hDiv12, hSub100, hMul1210, hAdd05] at hval
    exact ⟨s1, ev1, ht, hct, hval⟩

/-- In single precision, `Lerp(1, 0.1f, 1)` is not `0.1f`: the difference
`0.1f - 1` is rounded, and adding it back to `1` gives `838861 / 8388608`, the
next single-precision number above `0.1f = 13421773 / 134217728`. -/
theorem binary32_Lerp_misses_stop :
    Rounded.FMath.Lerp binary32 1 (13421773 / 134217728) 1 = 838861 / 8388608 := by
  have hSub : binary32.Sub (13421773 / 134217728) 1 = -7549747 / 8388608 := by
    show Binary32.roundNearest (13421773 / 134217728 - 1) = -7549747 / 8388608
    rw [Binary32.roundNearest_eq _ (-1) (by norm_num) (by norm_num)
      (by rw [abs_of_neg (by norm_num)]; norm_num) (by rw [abs_of_neg (by norm_num)]; norm_num)]
    norm_num [Binary32.roundHalfEven]
  have hMul : binary32.Mul 1 (-7549747 / 8388608) = -7549747 / 8388608 :=
    binary32_Mul_exact 1 (-7549747 / 8388608) (-7549747 / 8388608) (-7549747) (-23)
      (by norm_num) (by norm_num) (by norm_num) (by norm_num) (by norm_num)
  have hAdd : binary32.Add 1 (-7549747 / 8388608) = 838861 / 8388608 :=
    binary32_Add_exact 1 (-7549747 / 8388608) (838861 / 8388608) 838861 (-23)
      (by norm_num) (by norm_num) (by norm_num) (by norm_num) (by norm_num)
  unfold Rounded.FMath.Lerp
  rw [hSub, hMul, hAdd]

/-- One Advance by `1` of a scalar timeline from `1` to `0.1f` of duration `1`
whose blend function is Linear, EaseIn or EaseOut (exponent `2`), in single
precision, from a time `t` that is `0` or `1`: the time becomes `1`, the value
`838861 / 8388608`, the only call is the tick call, and the finished flag stays
down. -/
theorem binary32_Tick_misses_stop (bf : EECFBlendFunc) (e t v : ℚ)
    (hbf : (bf = EECFBlendFunc.ECFBlend_Linear ∧ e = 1)
      ∨ (bf = EECFBlendFunc.ECFBlend_EaseIn ∧ e = 2)
      ∨ (bf = EECFBlendFunc.ECFBlend_EaseOut ∧ e = 2))
    (ht : t = 0 ∨ t = 1) :
    Rounded.UECFTimeline.Tick binary32 rationalMath 1
        (UECFTimeline.mk (some 1) (some (StoppedCallback.user 9)) none 1 (13421773 / 134217728)
          1 bf e t v 1 false)
      = some (UECFTimeline.mk (some 1) (some (StoppedCallback.user 9)) none 1
            (13421773 / 134217728) 1 bf e 1 (838861 / 8388608) 1 false,
          [TimelineCall.TickFunc 1 (838861 / 8388608) 1]) := by
  have hAdd01 : binary32.Add 0 1 = 1 :=
    binary32_Add_exact 0 1 1 1 0 (by norm_num) (by norm_num) (by norm_num) (by norm_num)
      (by norm_num)
  have hAdd11 : binary32.Add 1 1 = 2 :=
    binary32_Add_exact 1 1 2 2 0 (by norm_num) (by norm_num) (by norm_num) (by norm_num)
      (by norm_num)
  have hDiv11 : binary32.Div 1 1 = 1 :=
    binary32_Div_exact 1 1 1 1 0 (by norm_num) (by norm_num) (by norm_num) (by norm_num)
      (by norm_num)
  have hDiv12 : binary32.Div 1 2 = 1 / 2 :=
    binary32_Div_exact 1 2 (1 / 2) 1 (-1) (by norm_num) (by norm_num) (by norm_num) (by norm_num)
      (by norm_num)
  have hClamp : FMath.Clamp (binary32.Add t 1) 0 1 = 1 := by
    rcases ht with rfl | rfl
    · rw [hAdd01]; norm_num [FMath.Clamp]
    · rw [hAdd11]; norm_num [FMath.Clamp]
  have hBlend : Rounded.UECFTimeline.Blend binary32 rationalMath
      (UECFTimeline.mk (some 1) (some (StoppedCallback.user 9)) none 1 (13421773 / 134217728)
        1 bf e 1 v 1 false) = 838861 / 8388608 := by
    rcases hbf with ⟨rfl, rfl⟩ | ⟨rfl, rfl⟩ | ⟨rfl, rfl⟩
    · show Rounded.FMath.Lerp binary32 1 (13421773 / 134217728) (binary32.Div 1 1) = _
      rw [hDiv11, binary32_Lerp_misses_stop]
    · show Rounded.FMath.Lerp binary32 1 (13421773 / 134217728)
        (rationalMath.Pow (binary32.Div 1 1) 2) = _
      rw [hDiv11, rationalMath_one_Pow, binary32_Lerp_misses_stop]
    · show Rounded.FMath.Lerp binary32 1 (13421773 / 134217728)
        (rationalMath.Pow (binary32.Div 1 1) (binary32.Div 1 2)) = _
      rw [hDiv11, rationalMath_one_Pow, binary32_Lerp_misses_stop]
  have hU : Rounded.UECFTimeline.UpdateValue binary32 rationalMath
      (Rounded.UECFTimeline.UpdateTime binary32 1
        (UECFTimeline.mk (some 1) (some (StoppedCallback.user 9)) none 1 (13421773 / 134217728)
          1 bf e t v 1 false))
      = UECFTimeline.mk (some 1) (some (StoppedCallback.user 9)) none 1
          (13421773 / 134217728) 1 bf e 1 (838861 / 8388608) 1 false := by
    have h1 : Rounded.UECFTimeline.UpdateTime binary32 1
        (UECFTimeline.mk (some 1) (some (StoppedCallback.user 9)) none 1 (13421773 / 134217728)
          1 bf e t v 1 false)
        = UECFTimeline.mk (some 1) (some (StoppedCallback.user 9)) none 1
            (13421773 / 134217728) 1 bf e 1 v 1 false := by
      show UECFTimeline.mk _ _ _ _ _ _ _ _ (FMath.Clamp (binary32.Add t 1) 0 1) _ _ _ = _
      rw [hClamp]
    rw [h1]
    show UECFTimeline.mk _ _ _ _ _ _ _ _ _ (Rounded.UECFTimeline.Blend binary32 rationalMath _)
      _ _ = _
    rw [hBlend]
  unfold Rounded.UECFTimeline.Tick
  simp only [hU]
  norm_num [UECFTimeline.HasReachedStop]

/-- C3, failing input, in single precision: a Linear scalar timeline from `1`
down to `0.1f = 13421773 / 134217728` of duration `1`, which `Setup` accepts,
with tick callable `1` and completion callable `9`. The Advance by `1` brings
`CurrentTime` to the duration, but the value it computes,
`1 + 1 * (0.1f - 1) = 838861 / 8388608`, is above the stop value, so the
completion test `CurrentValue ≤ StopValue` fails: the completion callable is
not called and the action is not marked finished. A further Advance by `1`
changes nothing: the time stays at the duration, the value above the stop
value, the action running. -/
theorem C3_linear_timeline_misses_stop_value_at_duration :
    ((UECFTimeline.mk none none none 0 0 0 EECFBlendFunc.ECFBlend_Cubic 0 7 7 0 false).Setup
        1 (13421773 / 134217728) 1 (some 1) (some (StoppedCallback.user 9))
        EECFBlendFunc.ECFBlend_Linear 1).1 = true
    ∧ (runTicks UECFTimeline.bHasFinished (Rounded.UECFTimeline.Tick binary32 rationalMath) [1, 1]
        ((UECFTimeline.mk none none none 0 0 0 EECFBlendFunc.ECFBlend_Cubic 0 7 7 0 false).Setup
          1 (13421773 / 134217728) 1 (some 1) (some (StoppedCallback.user 9))
          EECFBlendFunc.ECFBlend_Linear 1).2).map
        (fun r => (r.1.bHasFinished, r.1.CurrentTime, r.1.CurrentValue, r.2))
      = some (false, 1, 838861 / 8388608,
          [TimelineCall.TickFunc 1 (838861 / 8388608) 1,
            TimelineCall.TickFunc 1 (838861 / 8388608) 1])
    ∧ (13421773 / 134217728 : ℚ) < 838861 / 8388608 := by
  have hacc : ((UECFTimeline.mk none none none 0 0 0 EECFBlendFunc.ECFBlend_Cubic 0 7 7 0
      false).Setup 1 (13421773 / 134217728) 1 (some 1) (some (StoppedCallback.user 9))
      EECFBlendFunc.ECFBlend_Linear 1).1 = true := by
    rw [UECFTimeline.Scalar_Setup_fst]
    norm_num
  refine ⟨hacc, ?_, by norm_num⟩
  rw [UECFTimeline.Scalar_Setup_snd_of_accept _ _ _ _ _ _ _ _ hacc]
  rw [runTicks_cons_of_running _ _ 1 [1] _ _ _ rfl
    (binary32_Tick_misses_stop EECFBlendFunc.ECFBlend_Linear 1 0 7 (Or.inl ⟨rfl, rfl⟩)
      (Or.inl rfl))]
  rw [runTicks_cons_of_running _ _ 1 [] _ _ _ rfl
    (binary32_Tick_misses_stop EECFBlendFunc.ECFBlend_Linear 1 1 (838861 / 8388608)
      (Or.inl ⟨rfl, rfl⟩) (Or.inr rfl))]
  rfl

/-- C18, failing input, in single precision: scalar timelines from `1` down to
`0.1f = 13421773 / 134217728` of duration `1` with the EaseIn and with the
EaseOut blend function, exponent `2`, which `Setup` accepts. The Advance by `1`
brings `CurrentTime` to the duration (`f = 1`) and the power is `Pow(1, y) = 1`,
but the computed value `1 + 1 * (0.1f - 1) = 838861 / 8388608` is not the stop
value: the completion test fails, the only call is the tick call, and the
action is not marked finished. -/
theorem C18_ease_blend_misses_stop_value_at_duration :
    ((UECFTimeline.mk none none none 0 0 0 EECFBlendFunc.ECFBlend_Cubic 0 7 7 0 false).Setup
        1 (13421773 / 134217728) 1 (some 1) (some (StoppedCallback.user 9))
        EECFBlendFunc.ECFBlend_EaseIn 2).1 = true
    ∧ (Rounded.UECFTimeline.Tick binary32 rationalMath 1
        ((UECFTimeline.mk none none none 0 0 0 EECFBlendFunc.ECFBlend_Cubic 0 7 7 0 false).Setup
          1 (13421773 / 134217728) 1 (some 1) (some (StoppedCallback.user 9))
          EECFBlendFunc.ECFBlend_EaseIn 2).2).map
        (fun r => (r.1.bHasFinished, r.1.CurrentTime, r.1.CurrentValue, r.2))
      = some (false, 1, 838861 / 8388608, [TimelineCall.TickFunc 1 (838861 / 8388608) 1])
    ∧ ((UECFTimeline.mk none none none 0 0 0 EECFBlendFunc.ECFBlend_Cubic 0 7 7 0 false).Setup
        1 (13421773 / 134217728) 1 (some 1) (some (StoppedCallback.user 9))
        EECFBlendFunc.ECFBlend_EaseOut 2).1 = true
    ∧ (Rounded.UECFTimeline.Tick binary32 rationalMath 1
        ((UECFTimeline.mk none none none 0 0 0 EECFBlendFunc.ECFBlend_Cubic 0 7 7 0 false).Setup
          1 (13421773 / 134217728) 1 (some 1) (some (StoppedCallback.user 9))
          EECFBlendFunc.ECFBlend_EaseOut 2).2).map
        (fun r => (r.1.bHasFinished, r.1.CurrentTime, r.1.CurrentValue, r.2))
      = some (false, 1, 838861 / 8388608, [TimelineCall.TickFunc 1 (838861 / 8388608) 1])
    ∧ (838861 / 8388608 : ℚ) ≠ 13421773 / 134217728 := by
  have hin : ((UECFTimeline.mk none none none 0 0 0 EECFBlendFunc.ECFBlend_Cubic 0 7 7 0
      false).Setup 1 (13421773 / 134217728) 1 (some 1) (some (StoppedCallback.user 9))
      EECFBlendFunc.ECFBlend_EaseIn 2).1 = true := by
    rw [UECFTimeline.Scalar_Setup_fst]
    norm_num
  have hout : ((UECFTimeline.mk none none none 0 0 0 EECFBlendFunc.ECFBlend_Cubic 0 7 7 0
      false).Setup 1 (13421773 / 134217728) 1 (some 1) (some (StoppedCallback.user 9))
      EECFBlendFunc.ECFBlend_EaseOut 2).1 = true := by
    rw [UECFTimeline.Scalar_Setup_fst]
    norm_num
  refine ⟨hin, ?_, hout, ?_, by norm_num⟩
  · rw [UECFTimeline.Scalar_Setup_snd_of_accept _ _ _ _ _ _ _ _ hin,
      binary32_Tick_misses_stop EECFBlendFunc.ECFBlend_EaseIn 2 0 7 (Or.inr (Or.inl ⟨rfl, rfl⟩))
        (Or.inl rfl)]
    rfl
  · rw [UECFTimeline.Scalar_Setup_snd_of_accept _ _ _ _ _ _ _ _ hout,
      binary32_Tick_misses_stop EECFBlendFunc.ECFBlend_EaseOut 2 0 7 (Or.inr (Or.inr ⟨rfl, rfl⟩))
        (Or.inl rfl)]
    rfl

/-! ## Splitting an Advance into several -/

namespace FMath

/-- On a non-negative argument `Clamp` to `[0, Max]` is the minimum with `Max`. -/
theorem Clamp_eq_min (X Max : ℚ) (hX : 0 ≤ X) : Clamp X 0 Max = min X Max := by
  unfold Clamp
  rw [if_neg (not_lt.mpr hX)]
  split_ifs with h
  · exact (min_eq_left (le_of_lt h)).symm
  · exact (min_eq_right (not_lt.mp h)).symm

/-- Two clamped steps forward from a time `t ≥ 0`, with exact sums, are one
clamped step by the sum. -/
theorem Clamp_Clamp_add (t x y Max : ℚ) (ht : 0 ≤ t) (hx : 0 ≤ x) (hy : 0 ≤ y) (hM : 0 ≤ Max) :
    Clamp (Clamp (t + x) 0 Max + y) 0 Max = Clamp (t + x + y) 0 Max := by
  have h1 : 0 ≤ t + x := add_nonneg ht hx
  rw [Clamp_eq_min (t + x) Max h1, Clamp_eq_min _ Max (add_nonneg (le_min h1 hM) hy),
    Clamp_eq_min _ Max (add_nonneg h1 hy)]
  rcases le_total (t + x) Max with h | h
  · rw [min_eq_left h]
  · rw [min_eq_right h, min_eq_right (by linarith), min_eq_right (by linarith)]

/-- Capping a sum again after adding a non-negative amount. -/
theorem min_min_add (x S Max : ℚ) (hS : 0 ≤ S) : min (min x Max + S) Max = min (x + S) Max := by
  rcases le_total x Max with h | h
  · rw [min_eq_left h]
  · rw [min_eq_right h, min_eq_right (by linarith), min_eq_right (by linarith)]

end FMath

namespace UECFTimeline

/-- `Complete` makes no tick call. -/
theorem Scalar_Complete_no_tick (s : UECFTimeline) (bStopped : Bool) :
    ∀ c ∈ s.Complete bStopped, ∀ g v t, c ≠ TimelineCall.TickFunc g v t := by
  intro c hc g v t
  unfold Complete at hc
  split at hc
  · simp at hc
  · simp only [List.mem_singleton] at hc
    rw [hc]
    simp
  · split at hc
    · simp at hc
    · simp only [List.mem_singleton] at hc
      rw [hc]
      simp

end UECFTimeline

namespace UECFTimelineLinearColor

/-- `Complete` makes no tick call. -/
theorem Color_Complete_no_tick (s : UECFTimelineLinearColor) (bStopped : Bool) :
    ∀ c ∈ s.Complete bStopped, ∀ g v t, c ≠ TimelineCall.TickFunc g v t := by
  intro c hc g v t
  unfold Complete at hc
  split at hc
  · simp at hc
  · simp only [List.mem_singleton] at hc
    rw [hc]
    simp
  · split at hc
    · simp at hc
    · simp only [List.mem_singleton] at hc
      rw [hc]
      simp

end UECFTimelineLinearColor

namespace Rounded

namespace UECFTimeline

/-- The value stored by a `Tick`, written out for each blend function. -/
theorem Rounded_Scalar_value_formula (F : FloatArith) (M : EngineMath) (a b T e : ℚ)
    (bf : EECFBlendFunc) (s : ECF.UECFTimeline)
    (hs : s.StartValue = a ∧ s.StopValue = b ∧ s.Time = T ∧ s.BlendFunc = bf ∧ s.BlendExp = e)
    (hval : s.CurrentValue = Blend F M s) :
    (let g := F.Div s.CurrentTime T
     let g2 := F.Mul g g
     let g3 := F.Mul g2 g
     (bf = EECFBlendFunc.ECFBlend_Linear → s.CurrentValue = F.Add a (F.Mul g (F.Sub b a)))
     ∧ (bf = EECFBlendFunc.ECFBlend_Cubic →
        s.CurrentValue
          = F.Add
              (F.Add
                (F.Add (F.Mul (F.Add (F.Sub (F.Mul 2 g3) (F.Mul 3 g2)) 1) a)
                  (F.Mul (F.Add (F.Sub g3 (F.Mul 2 g2)) g) 0))
                (F.Mul (F.Sub g3 g2) 0))
              (F.Mul (F.Add (F.Mul (-2) g3) (F.Mul 3 g2)) b))
     ∧ (bf = EECFBlendFunc.ECFBlend_EaseIn →
        s.CurrentValue = F.Add a (F.Mul (M.Pow g e) (F.Sub b a)))
     ∧ (bf = EECFBlendFunc.ECFBlend_EaseOut →
        s.CurrentValue = F.Add a (F.Mul (M.Pow g (F.Div 1 e)) (F.Sub b a)))
     ∧ (bf = EECFBlendFunc.ECFBlend_EaseInOut → s.CurrentValue = M.InterpEaseInOut a b g e)) := by
  obtain ⟨ha, hb, hTime, hbf, he⟩ := hs
  dsimp only
  rw [hval]
  simp only [Blend, FMath.Lerp, FMath.CubicInterp, hbf, ha, hb, hTime, he]
  refine ⟨?_, ?_, ?_, ?_, ?_⟩ <;> rintro rfl <;> rfl

/-- A scalar timeline that holds what `Setup` stored, advanced over a non-empty
list of non-negative frames with no frame left out, when every addition of a
frame to the stored time is exact: the time ends at the capped sum, the value is
the blend at that time, and the last tick call of the trace carries that value
and time. -/
theorem Rounded_Scalar_plain_run (F : FloatArith) (M : EngineMath) (tf : FuncId)
    (cbk : Option StoppedCallback) (a b T e : ℚ) (bf : EECFBlendFunc) (hT : 0 ≤ T)
    (dts : List ℚ) (hdts : ∀ dt ∈ dts, 0 ≤ dt) (hne : dts ≠ []) :
    ∀ s : ECF.UECFTimeline,
      (s.TickFunc = some tf ∧ s.CallbackFunc = cbk ∧ s.StartValue = a ∧ s.StopValue = b
        ∧ s.Time = T ∧ s.BlendFunc = bf ∧ s.BlendExp = e ∧ 0 ≤ s.CurrentTime
        ∧ s.CurrentTime ≤ T) →
      (∀ k, k < dts.length →
        F.Add (min (s.CurrentTime + (dts.take k).sum) T) (dts.getD k 0)
          = min (s.CurrentTime + (dts.take k).sum) T + dts.getD k 0) →
      ∃ s1 ev0 rest,
        runTicks (fun _ => false) (Tick F M) dts s
          = some (s1, ev0 ++ TimelineCall.TickFunc tf s1.CurrentValue s1.CurrentTime :: rest)
        ∧ (∀ c ∈ rest, ∀ g v t, c ≠ TimelineCall.TickFunc g v t)
        ∧ s1.CurrentTime = min (s.CurrentTime + dts.sum) T
        ∧ s1.CurrentValue = Blend F M s1
        ∧ (s1.TickFunc = some tf ∧ s1.CallbackFunc = cbk ∧ s1.StartValue = a
          ∧ s1.StopValue = b ∧ s1.Time = T ∧ s1.BlendFunc = bf ∧ s1.BlendExp = e
          ∧ 0 ≤ s1.CurrentTime ∧ s1.CurrentTime ≤ T) := by
  induction dts with
  | nil => exact absurd rfl hne
  | cons dt dts ih =>
    intro s hs hexact
    have hdt : 0 ≤ dt := hdts dt (List.mem_cons_self _ _)
    have hrest : ∀ x ∈ dts, 0 ≤ x := fun x hx => hdts x (List.mem_cons_of_mem _ hx)
    have h0 : 0 ≤ s.CurrentTime := hs.2.2.2.2.2.2.2.1
    have hle : s.CurrentTime ≤ T := hs.2.2.2.2.2.2.2.2
    obtain ⟨s1, ht, _, hval, hct, hinv1⟩ := Rounded_Scalar_Tick_facts F M tf cbk a b T e bf hT dt s hs
    have hadd : F.Add s.CurrentTime dt = s.CurrentTime + dt := by
      have h := hexact 0 (by simp)
      simpa [min_eq_left hle] using h
    have hct1 : s1.CurrentTime = min (s.CurrentTime + dt) T := by
      rw [hct, hadd]
      exact ECF.FMath.Clamp_eq_min _ _ (add_nonneg h0 hdt)
    have hstep := runTicks_cons_of_running (fun _ => false) (Tick F M) dt dts s s1 _ rfl ht
    by_cases hnil : dts = []
    · subst hnil
      refine ⟨s1, [], (if s1.HasReachedStop = true then s1.Complete false else []),
        ?_, ?_, ?_, hval, hinv1⟩
      · rw [hstep]
        simp [runTicks]
      · intro c hc
        split_ifs at hc with hr
        · exact ECF.UECFTimeline.Scalar_Complete_no_tick s1 false c hc
        · simp at hc
      · rw [hct1]
        simp
    · have hexact1 : ∀ k, k < dts.length →
          F.Add (min (s1.CurrentTime + (dts.take k).sum) T) (dts.getD k 0)
            = min (s1.CurrentTime + (dts.take k).sum) T + dts.getD k 0 := by
        intro k hk
        have h := hexact (k + 1) (by simp; omega)
        have hS : 0 ≤ (dts.take k).sum :=
          List.sum_nonneg (fun x hx => hrest x (List.mem_of_mem_take hx))
        rw [hct1, ECF.FMath.min_min_add _ _ _ hS]
        simpa [add_assoc] using h
      obtain ⟨s2, ev0, rest, hrun, hrest2, hct2, hval2, hinv2⟩ := ih hrest hnil s1 hinv1 hexact1
      refine ⟨s2, (TimelineCall.TickFunc tf s1.CurrentValue s1.CurrentTime
          :: (if s1.HasReachedStop = true then s1.Complete false else [])) ++ ev0, rest,
        ?_, hrest2, ?_, hval2, hinv2⟩
      · rw [hstep, hrun]
        simp
      · rw [hct2, hct1, ECF.FMath.min_min_add _ _ _ (List.sum_nonneg hrest), List.sum_cons,
          add_assoc]

end UECFTimeline

namespace UECFTimelineLinearColor

/-- The value stored by a `Tick`, written out for each blend function. -/
theorem Rounded_Color_value_formula (F : FloatArith) (M : EngineMath) (c0 c1 : ECF.FLinearColor)
    (T e : ℚ) (bf : EECFBlendFunc) (s : ECF.UECFTimelineLinearColor)
    (hs : s.StartValue = c0 ∧ s.StopValue = c1 ∧ s.Time = T ∧ s.BlendFunc = bf ∧ s.BlendExp = e)
    (hval : s.CurrentValue = Blend F M s (F.Div s.CurrentTime T)) :
    (let g := F.Div s.CurrentTime T
     let g2 := F.Mul g g
     let g3 := F.Mul g2 g
     let lerp := fun (w x y : ℚ) => F.Add x (F.Mul (F.Sub y x) w)
     let cubic := fun (x t y : ℚ) =>
       F.Add
         (F.Add
           (F.Add (F.Mul x (F.Add (F.Sub (F.Mul 2 g3) (F.Mul 3 g2)) 1))
             (F.Mul t (F.Add (F.Sub g3 (F.Mul 2 g2)) g)))
           (F.Mul t (F.Sub g3 g2)))
         (F.Mul y (F.Add (F.Mul (-2) g3) (F.Mul 3 g2)))
     (bf = EECFBlendFunc.ECFBlend_Linear →
        s.CurrentValue
          = ECF.FLinearColor.mk (lerp g c0.R c1.R) (lerp g c0.G c1.G) (lerp g c0.B c1.B)
              (lerp g c0.A c1.A))
     ∧ (bf = EECFBlendFunc.ECFBlend_Cubic →
        s.CurrentValue
          = ECF.FLinearColor.mk (cubic c0.R 0 c1.R) (cubic c0.G 0 c1.G) (cubic c0.B 0 c1.B)
              (cubic c0.A 1 c1.A))
     ∧ (bf = EECFBlendFunc.ECFBlend_EaseIn →
        s.CurrentValue
          = ECF.FLinearColor.mk (lerp (M.Pow g e) c0.R c1.R) (lerp (M.Pow g e) c0.G c1.G)
              (lerp (M.Pow g e) c0.B c1.B) (lerp (M.Pow g e) c0.A c1.A))
     ∧ (bf = EECFBlendFunc.ECFBlend_EaseOut →
        s.CurrentValue
          = ECF.FLinearColor.mk (lerp (M.Pow g (F.Div 1 e)) c0.R c1.R)
              (lerp (M.Pow g (F.Div 1 e)) c0.G c1.G)
              (lerp (M.Pow g (F.Div 1 e)) c0.B c1.B)
              (lerp (M.Pow g (F.Div 1 e)) c0.A c1.A))
     ∧ (bf = EECFBlendFunc.ECFBlend_EaseInOut →
        s.CurrentValue = M.InterpEaseInOutColor c0 c1 g e)) := by
  obtain ⟨ha, hb, _, hbf, he⟩ := hs
  dsimp only
  rw [hval]
  simp only [Blend, FLinearColor.Lerp, FLinearColor.CubicInterp, FLinearColor.Plus,
    FLinearColor.Minus, FLinearColor.Times, ECF.FLinearColor.Black, hbf, ha, hb, he]
  refine ⟨?_, ?_, ?_, ?_, ?_⟩ <;> rintro rfl <;> rfl

/-- A color timeline that holds what `Setup` stored, advanced over a non-empty
list of non-negative frames with no frame left out, when every addition of a
frame to the stored time is exact: the time ends at the capped sum, the value is
the blend at that time, and the last tick call of the trace carries that value
and time. -/
theorem Rounded_Color_plain_run (F : FloatArith) (M : EngineMath) (tf : FuncId)
    (cbk : Option StoppedCallback) (a b : ECF.FLinearColor) (T e : ℚ) (bf : EECFBlendFunc)
    (hT : 0 ≤ T) (dts : List ℚ) (hdts : ∀ dt ∈ dts, 0 ≤ dt) (hne : dts ≠ []) :
    ∀ s : ECF.UECFTimelineLinearColor,
      (s.TickFunc = some tf ∧ s.CallbackFunc = cbk ∧ s.StartValue = a ∧ s.StopValue = b
        ∧ s.Time = T ∧ s.BlendFunc = bf ∧ s.BlendExp = e ∧ 0 ≤ s.CurrentTime
        ∧ s.CurrentTime ≤ T) →
      (∀ k, k < dts.length →
        F.Add (min (s.CurrentTime + (dts.take k).sum) T) (dts.getD k 0)
          = min (s.CurrentTime + (dts.take k).sum) T + dts.getD k 0) →
      ∃ s1 ev0 rest,
        runTicks (fun _ => false) (Tick F M) dts s
          = some (s1, ev0 ++ TimelineCall.TickFunc tf s1.CurrentValue s1.CurrentTime :: rest)
        ∧ (∀ c ∈ rest, ∀ g v t, c ≠ TimelineCall.TickFunc g v t)
        ∧ s1.CurrentTime = min (s.CurrentTime + dts.sum) T
        ∧ s1.CurrentValue = Blend F M s1 (F.Div s1.CurrentTime T)
        ∧ (s1.TickFunc = some tf ∧ s1.CallbackFunc = cbk ∧ s1.StartValue = a
          ∧ s1.StopValue = b ∧ s1.Time = T ∧ s1.BlendFunc = bf ∧ s1.BlendExp = e
          ∧ 0 ≤ s1.CurrentTime ∧ s1.CurrentTime ≤ T) := by
  induction dts with
  | nil => exact absurd rfl hne
  | cons dt dts ih =>
    intro s hs hexact
    have hdt : 0 ≤ dt := hdts dt (List.mem_cons_self _ _)
    have hrest : ∀ x ∈ dts, 0 ≤ x := fun x hx => hdts x (List.mem_cons_of_mem _ hx)
    have h0 : 0 ≤ s.CurrentTime := hs.2.2.2.2.2.2.2.1
    have hle : s.CurrentTime ≤ T := hs.2.2.2.2.2.2.2.2
    obtain ⟨s1, ht, _, hval, hct, hinv1⟩ := Rounded_Color_Tick_facts F M tf cbk a b T e bf hT dt s hs
    have hadd : F.Add s.CurrentTime dt = s.CurrentTime + dt := by
      have h := hexact 0 (by simp)
      simpa [min_eq_left hle] using h
    have hct1 : s1.CurrentTime = min (s.CurrentTime + dt) T := by
      rw [hct, hadd]
      exact ECF.FMath.Clamp_eq_min _ _ (add_nonneg h0 hdt)
    have hstep := runTicks_cons_of_running (fun _ => false) (Tick F M) dt dts s s1 _ rfl ht
    by_cases hnil : dts = []
    · subst hnil
      refine ⟨s1, [], (if F.Div s1.CurrentTime T ≥ 1 then s1.Complete false else []),
        ?_, ?_, ?_, hval, hinv1⟩
      · rw [hstep]
        simp [runTicks]
      · intro c hc
        split_ifs at hc with hr
        · exact ECF.UECFTimelineLinearColor.Color_Complete_no_tick s1 false c hc
        · simp at hc
      · rw [hct1]
        simp
    · have hexact1 : ∀ k, k < dts.length →
          F.Add (min (s1.CurrentTime + (dts.take k).sum) T) (dts.getD k 0)
            = min (s1.CurrentTime + (dts.take k).sum) T + dts.getD k 0 := by
        intro k hk
        have h := hexact (k + 1) (by simp; omega)
        have hS : 0 ≤ (dts.take k).sum :=
          List.sum_nonneg (fun x hx => hrest x (List.mem_of_mem_take hx))
        rw [hct1, ECF.FMath.min_min_add _ _ _ hS]
        simpa [add_assoc] using h
      obtain ⟨s2, ev0, rest, hrun, hrest2, hct2, hval2, hinv2⟩ := ih hrest hnil s1 hinv1 hexact1
      refine ⟨s2, (TimelineCall.TickFunc tf s1.CurrentValue s1.CurrentTime
          :: (if F.Div s1.CurrentTime T ≥ 1 then s1.Complete false else [])) ++ ev0, rest,
        ?_, hrest2, ?_, hval2, hinv2⟩
      · rw [hstep, hrun]
        simp
      · rw [hct2, hct1, ECF.FMath.min_min_add _ _ _ (List.sum_nonneg hrest), List.sum_cons,
          add_assoc]

end UECFTimelineLinearColor

end Rounded

/-- C19, counterexample, in single precision: a color timeline from opaque black
to white of duration `T = 1 + 2⁻²³ = 8388609 / 8388608`, Linear, advanced from
the state left by `Setup` by the three calls `1`, `2⁻²⁴`, `2⁻²⁴`. The first call
stores the time `1`; each of the next two adds `2⁻²⁴` to `1`, and the sum is
rounded back to `1`. So the resulting `CurrentTime` is `1`, not
`min(1 + 2⁻²⁴ + 2⁻²⁴, T) = T`, and the action is not finished, while the single
Advance by the sum `1 + 2⁻²³` stores the time `T` and finishes the action. The
clamp identity also fails for a negative time, with exact sums:
`Clamp(Clamp(-5 + 1, 0, 2) + 1, 0, 2) = 1` and `Clamp(-5 + 1 + 1, 0, 2) = 0`. -/
theorem C19_split_advances_lose_time_in_single_precision :
    ((UECFTimelineLinearColor.mk none none none FLinearColor.Black FLinearColor.Black 0
        EECFBlendFunc.ECFBlend_Cubic 0 7 FLinearColor.Black 0 false).Setup
        FLinearColor.Black ⟨1, 1, 1, 1⟩ (8388609 / 8388608) (some 1) none
        EECFBlendFunc.ECFBlend_Linear 1).1 = true
    ∧ (runTicks (fun _ => false) (Rounded.UECFTimelineLinearColor.Tick binary32 rationalMath)
        [1, 1 / 16777216, 1 / 16777216]
        ((UECFTimelineLinearColor.mk none none none FLinearColor.Black FLinearColor.Black 0
          EECFBlendFunc.ECFBlend_Cubic 0 7 FLinearColor.Black 0 false).Setup
          FLinearColor.Black ⟨1, 1, 1, 1⟩ (8388609 / 8388608) (some 1) none
          EECFBlendFunc.ECFBlend_Linear 1).2).map
        (fun r => (r.1.CurrentTime, r.1.bHasFinished))
      = some (1, false)
    ∧ min ([1, 1 / 16777216, 1 / 16777216] : List ℚ).sum (8388609 / 8388608) = 8388609 / 8388608
    ∧ (Rounded.UECFTimelineLinearColor.Tick binary32 rationalMath (8388609 / 8388608)
        ((UECFTimelineLinearColor.mk none none none FLinearColor.Black FLinearColor.Black 0
          EECFBlendFunc.ECFBlend_Cubic 0 7 FLinearColor.Black 0 false).Setup
          FLinearColor.Black ⟨1, 1, 1, 1⟩ (8388609 / 8388608) (some 1) none
          EECFBlendFunc.ECFBlend_Linear 1).2).map
        (fun r => (r.1.CurrentTime, r.1.bHasFinished))
      = some (8388609 / 8388608, true)
    ∧ FMath.Clamp (FMath.Clamp (-5 + 1) 0 2 + 1) 0 2 = 1
    ∧ FMath.Clamp (-5 + 1 + 1) 0 2 = 0 := by
  have hacc : ((UECFTimelineLinearColor.mk none none none FLinearColor.Black FLinearColor.Black 0
      EECFBlendFunc.ECFBlend_Cubic 0 7 FLinearColor.Black 0 false).Setup
      FLinearColor.Black ⟨1, 1, 1, 1⟩ (8388609 / 8388608) (some 1) none
      EECFBlendFunc.ECFBlend_Linear 1).1 = true := by
    rw [UECFTimelineLinearColor.Color_Setup_fst]
    simp [FLinearColor.Black]
  have hAdd01 : binary32.Add 0 1 = 1 :=
    binary32_Add_exact 0 1 1 1 0 (by norm_num) (by norm_num) (by norm_num) (by norm_num)
      (by norm_num)
  have hAddT : binary32.Add 0 (8388609 / 8388608) = 8388609 / 8388608 :=
    binary32_Add_exact 0 (8388609 / 8388608) (8388609 / 8388608) 8388609 (-23) (by norm_num)
      (by norm_num) (by norm_num) (by norm_num) (by norm_num)
  have hAddeps : binary32.Add 1 (1 / 16777216) = 1 := by
    show Binary32.roundNearest (1 + 1 / 16777216) = 1
    rw [Binary32.roundNearest_eq _ 0 (by norm_num) (by norm_num)
      (by rw [abs_of_pos (by norm_num)]; norm_num) (by rw [abs_of_pos (by norm_num)]; norm_num)]
    norm_num [Binary32.roundHalfEven]
  have hDiv1T : binary32.Div 1 (8388609 / 8388608) = 8388607 / 8388608 := by
    show Binary32.roundNearest (1 / (8388609 / 8388608)) = 8388607 / 8388608
    rw [Binary32.roundNearest_eq _ (-1) (by norm_num) (by norm_num)
      (by rw [abs_of_pos (by norm_num)]; norm_num) (by rw [abs_of_pos (by norm_num)]; norm_num)]
    norm_num [Binary32.roundHalfEven]
  have hDivTT : binary32.Div (8388609 / 8388608) (8388609 / 8388608) = 1 :=
    binary32_Div_exact (8388609 / 8388608) (8388609 / 8388608) 1 1 0 (by norm_num)
      (by norm_num) (by norm_num) (by norm_num) (by norm_num)
  have hClamp1 : FMath.Clamp 1 0 (8388609 / 8388608) = 1 := by norm_num [FMath.Clamp]
  have hClampT : FMath.Clamp (8388609 / 8388608) 0 (8388609 / 8388608) = 8388609 / 8388608 := by
    norm_num [FMath.Clamp]
  have h0f : ((UECFTimelineLinearColor.mk none none none FLinearColor.Black FLinearColor.Black 0
      EECFBlendFunc.ECFBlend_Cubic 0 7 FLinearColor.Black 0 false).Setup
      FLinearColor.Black ⟨1, 1, 1, 1⟩ (8388609 / 8388608) (some 1) none
      EECFBlendFunc.ECFBlend_Linear 1).2.bHasFinished = false := by
    rw [UECFTimelineLinearColor.Color_Setup_snd_of_accept _ _ _ _ _ _ _ _ hacc]
  obtain ⟨-, f, hf, h0t, hreach⟩ := Rounded_Color_reach (fun _ => false) binary32 rationalMath
    (UECFTimelineLinearColor.mk none none none FLinearColor.Black FLinearColor.Black 0
      EECFBlendFunc.ECFBlend_Cubic 0 7 FLinearColor.Black 0 false)
    FLinearColor.Black ⟨1, 1, 1, 1⟩ (8388609 / 8388608) (some 1) none
    EECFBlendFunc.ECFBlend_Linear 1 hacc
  obtain rfl := Option.some.inj hf
  obtain ⟨s0, ev, hrun0, hinv⟩ := hreach []
  obtain ⟨rfl, -⟩ := Prod.mk.inj (Option.some.inj hrun0)
  clear hreach hf
  refine ⟨hacc, ?_, by norm_num, ?_, by norm_num [FMath.Clamp], by norm_num [FMath.Clamp]⟩
  · generalize (UECFTimelineLinearColor.mk none none none FLinearColor.Black FLinearColor.Black 0
        EECFBlendFunc.ECFBlend_Cubic 0 7 FLinearColor.Black 0 false).Setup
        FLinearColor.Black ⟨1, 1, 1, 1⟩ (8388609 / 8388608) (some 1) none
        EECFBlendFunc.ECFBlend_Linear 1 = r at hinv h0t h0f ⊢
    obtain ⟨s1, ht1, hfin1, -, hct1, hinv1⟩ :=
      Rounded.UECFTimelineLinearColor.Rounded_Color_Tick_facts binary32 rationalMath 1 none
        FLinearColor.Black ⟨1, 1, 1, 1⟩ (8388609 / 8388608) 1 EECFBlendFunc.ECFBlend_Linear
        (by norm_num) 1 r.2 hinv
    have hct1' : s1.CurrentTime = 1 := by
      rw [hct1, h0t, hAdd01, hClamp1]
    have hfin1' : s1.bHasFinished = false := by
      rw [hfin1, h0f, hct1', hDiv1T]
      norm_num
    obtain ⟨s2, ht2, hfin2, -, hct2, hinv2⟩ :=
      Rounded.UECFTimelineLinearColor.Rounded_Color_Tick_facts binary32 rationalMath 1 none
        FLinearColor.Black ⟨1, 1, 1, 1⟩ (8388609 / 8388608) 1 EECFBlendFunc.ECFBlend_Linear
        (by norm_num) (1 / 16777216) s1 hinv1
    have hct2' : s2.CurrentTime = 1 := by
      rw [hct2, hct1', hAddeps, hClamp1]
    have hfin2' : s2.bHasFinished = false := by
      rw [hfin2, hfin1', hct2', hDiv1T]
      norm_num
    obtain ⟨s3, ht3, hfin3, -, hct3, -⟩ :=
      Rounded.UECFTimelineLinearColor.Rounded_Color_Tick_facts binary32 rationalMath 1 none
        FLinearColor.Black ⟨1, 1, 1, 1⟩ (8388609 / 8388608) 1 EECFBlendFunc.ECFBlend_Linear
        (by norm_num) (1 / 16777216) s2 hinv2
    have hct3' : s3.CurrentTime = 1 := by
      rw [hct3, hct2', hAddeps, hClamp1]
    have hfin3' : s3.bHasFinished = false := by
      rw [hfin3, hfin2', hct3', hDiv1T]
      norm_num
    rw [runTicks_cons_of_running _ _ _ _ _ _ _ rfl ht1,
      runTicks_cons_of_running _ _ _ _ _ _ _ rfl ht2,
      runTicks_cons_of_running _ _ _ _ _ _ _ rfl ht3]
    simp [runTicks, hct3', hfin3']
  · generalize (UECFTimelineLinearColor.mk none none none FLinearColor.Black FLinearColor.Black 0
        EECFBlendFunc.ECFBlend_Cubic 0 7 FLinearColor.Black 0 false).Setup
        FLinearColor.Black ⟨1, 1, 1, 1⟩ (8388609 / 8388608) (some 1) none
        EECFBlendFunc.ECFBlend_Linear 1 = r at hinv h0t h0f ⊢
    obtain ⟨s1, ht1, hfin1, -, hct1, -⟩ :=
      Rounded.UECFTimelineLinearColor.Rounded_Color_Tick_facts binary32 rationalMath 1 none
        FLinearColor.Black ⟨1, 1, 1, 1⟩ (8388609 / 8388608) 1 EECFBlendFunc.ECFBlend_Linear
        (by norm_num) (8388609 / 8388608) r.2 hinv
    have hct1' : s1.CurrentTime = 8388609 / 8388608 := by
      rw [hct1, h0t, hAddT, hClampT]
    have hfin1' : s1.bHasFinished = true := by
      rw [hfin1, hct1', hDivTT]
      norm_num
    rw [ht1]
    simp [hct1', hfin1']

/-- C19, amended: frame-rate independence holds as far as the float additions are
exact. For a scalar timeline and for a color timeline accepted by `Setup` with
duration `T`, advanced from `CurrentTime = 0` by the Advance calls
`dt₁, ..., dtₙ` (`n ≥ 1`, every `dt ≥ 0`, every call made), when each addition
of a `dtₖ` to the time stored before it gives the exact sum, and so does the
addition of `dt₁ + ... + dtₙ` to `0`: no call aborts, the resulting
`CurrentTime` is `min(dt₁ + ... + dtₙ, T)`, the last tick call of the trace
carries the resulting `CurrentValue` and `CurrentTime`, and both are the
`CurrentValue` and `CurrentTime` that the single Advance by `dt₁ + ... + dtₙ`
from the same start produces; the value is the one that the blend function
gives at `g = CurrentTime / T`. For exact sums,
`Clamp(Clamp(t + x, 0, T) + y, 0, T) = Clamp(t + x + y, 0, T)` for a time
`t ≥ 0` and `x, y ≥ 0`. -/
theorem C19_split_advances_agree_when_additions_are_exact (F : FloatArith) (M : EngineMath)
    (self : UECFTimeline) (cself : UECFTimelineLinearColor) (a b T e : ℚ)
    (c0 c1 : FLinearColor) (tf : Option FuncId) (cbk : Option StoppedCallback)
    (bf : EECFBlendFunc) (dts : List ℚ)
    (hs : (self.Setup a b T tf cbk bf e).1 = true)
    (hc : (cself.Setup c0 c1 T tf cbk bf e).1 = true)
    (hdts : ∀ dt ∈ dts, 0 ≤ dt) (hne : dts ≠ [])
    (hexact : ∀ k, k < dts.length →
      F.Add (min (dts.take k).sum T) (dts.getD k 0) = min (dts.take k).sum T + dts.getD k 0)
    (hsingle : F.Add 0 dts.sum = dts.sum) :
    (∃ f s ev0 rest s1 ev1, tf = some f
      ∧ runTicks (fun _ => false) (Rounded.UECFTimeline.Tick F M) dts
            (self.Setup a b T tf cbk bf e).2
          = some (s, ev0 ++ TimelineCall.TickFunc f s.CurrentValue s.CurrentTime :: rest)
      ∧ (∀ c ∈ rest, ∀ g v t, c ≠ TimelineCall.TickFunc g v t)
      ∧ s.CurrentTime = min dts.sum T
      ∧ Rounded.UECFTimeline.Tick F M dts.sum (self.Setup a b T tf cbk bf e).2 = some (s1, ev1)
      ∧ s1.CurrentTime = s.CurrentTime
      ∧ s1.CurrentValue = s.CurrentValue
      ∧ (let g := F.Div s.CurrentTime T
         let g2 := F.Mul g g
         let g3 := F.Mul g2 g
         (bf = EECFBlendFunc.ECFBlend_Linear →
            s.CurrentValue = F.Add a (F.Mul g (F.Sub b a)))
         ∧ (bf = EECFBlendFunc.ECFBlend_Cubic →
            s.CurrentValue
              = F.Add
                  (F.Add
                    (F.Add (F.Mul (F.Add (F.Sub (F.Mul 2 g3) (F.Mul 3 g2)) 1) a)
                      (F.Mul (F.Add (F.Sub g3 (F.Mul 2 g2)) g) 0))
                    (F.Mul (F.Sub g3 g2) 0))
                  (F.Mul (F.Add (F.Mul (-2) g3) (F.Mul 3 g2)) b))
         ∧ (bf = EECFBlendFunc.ECFBlend_EaseIn →
            s.CurrentValue = F.Add a (F.Mul (M.Pow g e) (F.Sub b a)))
         ∧ (bf = EECFBlendFunc.ECFBlend_EaseOut →
            s.CurrentValue = F.Add a (F.Mul (M.Pow g (F.Div 1 e)) (F.Sub b a)))
         ∧ (bf = EECFBlendFunc.ECFBlend_EaseInOut →
            s.CurrentValue = M.InterpEaseInOut a b g e)))
    ∧ (∃ f s ev0 rest s1 ev1, tf = some f
      ∧ runTicks (fun _ => false) (Rounded.UECFTimelineLinearColor.Tick F M) dts
            (cself.Setup c0 c1 T tf cbk bf e).2
          = some (s, ev0 ++ TimelineCall.TickFunc f s.CurrentValue s.CurrentTime :: rest)
      ∧ (∀ c ∈ rest, ∀ g v t, c ≠ TimelineCall.TickFunc g v t)
      ∧ s.CurrentTime = min dts.sum T
      ∧ Rounded.UECFTimelineLinearColor.Tick F M dts.sum (cself.Setup c0 c1 T tf cbk bf e).2
          = some (s1, ev1)
      ∧ s1.CurrentTime = s.CurrentTime
      ∧ s1.CurrentValue = s.CurrentValue
      ∧ (let g := F.Div s.CurrentTime T
         let g2 := F.Mul g g
         let g3 := F.Mul g2 g
         let lerp := fun (w x y : ℚ) => F.Add x (F.Mul (F.Sub y x) w)
         let cubic := fun (x t y : ℚ) =>
           F.Add
             (F.Add
               (F.Add (F.Mul x (F.Add (F.Sub (F.Mul 2 g3) (F.Mul 3 g2)) 1))
                 (F.Mul t (F.Add (F.Sub g3 (F.Mul 2 g2)) g)))
               (F.Mul t (F.Sub g3 g2)))
             (F.Mul y (F.Add (F.Mul (-2) g3) (F.Mul 3 g2)))
         (bf = EECFBlendFunc.ECFBlend_Linear →
            s.CurrentValue
              = FLinearColor.mk (lerp g c0.R c1.R) (lerp g c0.G c1.G) (lerp g c0.B c1.B)
                  (lerp g c0.A c1.A))
         ∧ (bf = EECFBlendFunc.ECFBlend_Cubic →
            s.CurrentValue
              = FLinearColor.mk (cubic c0.R 0 c1.R) (cubic c0.G 0 c1.G) (cubic c0.B 0 c1.B)
                  (cubic c0.A 1 c1.A))
         ∧ (bf = EECFBlendFunc.ECFBlend_EaseIn →
            s.CurrentValue
              = FLinearColor.mk (lerp (M.Pow g e) c0.R c1.R) (lerp (M.Pow g e) c0.G c1.G)
                  (lerp (M.Pow g e) c0.B c1.B) (lerp (M.Pow g e) c0.A c1.A))
         ∧ (bf = EECFBlendFunc.ECFBlend_EaseOut →
            s.CurrentValue
              = FLinearColor.mk (lerp (M.Pow g (F.Div 1 e)) c0.R c1.R)
                  (lerp (M.Pow g (F.Div 1 e)) c0.G c1.G)
                  (lerp (M.Pow g (F.Div 1 e)) c0.B c1.B)
                  (lerp (M.Pow g (F.Div 1 e)) c0.A c1.A))
         ∧ (bf = EECFBlendFunc.ECFBlend_EaseInOut →
            s.CurrentValue = M.InterpEaseInOutColor c0 c1 g e)))
    ∧ (∀ t x y : ℚ, 0 ≤ t → 0 ≤ x → 0 ≤ y →
        FMath.Clamp (FMath.Clamp (t + x) 0 T + y) 0 T = FMath.Clamp (t + x + y) 0 T) := by
  have hsum : 0 ≤ dts.sum := List.sum_nonneg hdts
  refine ⟨?_, ?_, ?_⟩
  · obtain ⟨⟨hT, _, _⟩, f, hf, h0, hreach⟩ :=
      Rounded_Scalar_reach (fun _ => false) F M self a b T tf cbk bf e hs
    obtain ⟨s0, ev, hrun0, hinv⟩ := hreach []
    obtain ⟨rfl, -⟩ := Prod.mk.inj (Option.some.inj hrun0)
    obtain ⟨s, ev0, rest, hrun, hrest, hct, hval, hinvs⟩ :=
      Rounded.UECFTimeline.Rounded_Scalar_plain_run F M f cbk a b T e bf (le_of_lt hT) dts hdts
        hne _ hinv (by rw [h0]; simpa using hexact)
    obtain ⟨s1, ht, _, hval1, hct1, hinv1⟩ :=
      Rounded.UECFTimeline.Rounded_Scalar_Tick_facts F M f cbk a b T e bf (le_of_lt hT) dts.sum
        _ hinv
    rw [h0, zero_add] at hct
    rw [h0, hsingle, FMath.Clamp_eq_min _ _ hsum] at hct1
    have htime : s1.CurrentTime = s.CurrentTime := by rw [hct, hct1]
    refine ⟨f, s, ev0, rest, s1, _, hf, hrun, hrest, hct, ht, htime, ?_, ?_⟩
    · rw [hval, hval1]
      unfold Rounded.UECFTimeline.Blend
      rw [hinvs.2.2.1, hinvs.2.2.2.1, hinvs.2.2.2.2.1, hinvs.2.2.2.2.2.1, hinvs.2.2.2.2.2.2.1,
        hinv1.2.2.1, hinv1.2.2.2.1, hinv1.2.2.2.2.1, hinv1.2.2.2.2.2.1, hinv1.2.2.2.2.2.2.1,
        htime]
    · exact Rounded.UECFTimeline.Rounded_Scalar_value_formula F M a b T e bf s
        ⟨hinvs.2.2.1, hinvs.2.2.2.1, hinvs.2.2.2.2.1, hinvs.2.2.2.2.2.1, hinvs.2.2.2.2.2.2.1⟩
        hval
  · obtain ⟨⟨hT, _, _⟩, f, hf, h0, hreach⟩ :=
      Rounded_Color_reach (fun _ => false) F M cself c0 c1 T tf cbk bf e hc
    obtain ⟨s0, ev, hrun0, hinv⟩ := hreach []
    obtain ⟨rfl, -⟩ := Prod.mk.inj (Option.some.inj hrun0)
    obtain ⟨s, ev0, rest, hrun, hrest, hct, hval, hinvs⟩ :=
      Rounded.UECFTimelineLinearColor.Rounded_Color_plain_run F M f cbk c0 c1 T e bf
        (le_of_lt hT) dts hdts hne _ hinv (by rw [h0]; simpa using hexact)
    obtain ⟨s1, ht, _, hval1, hct1, hinv1⟩ :=
      Rounded.UECFTimelineLinearColor.Rounded_Color_Tick_facts F M f cbk c0 c1 T e bf
        (le_of_lt hT) dts.sum _ hinv
    rw [h0, zero_add] at hct
    rw [h0, hsingle, FMath.Clamp_eq_min _ _ hsum] at hct1
    have htime : s1.CurrentTime = s.CurrentTime := by rw [hct, hct1]
    refine ⟨f, s, ev0, rest, s1, _, hf, hrun, hrest, hct, ht, htime, ?_, ?_⟩
    · rw [hval, hval1]
      unfold Rounded.UECFTimelineLinearColor.Blend
      rw [hinvs.2.2.1, hinvs.2.2.2.1, hinvs.2.2.2.2.2.1, hinvs.2.2.2.2.2.2.1,
        hinv1.2.2.1, hinv1.2.2.2.1, hinv1.2.2.2.2.2.1, hinv1.2.2.2.2.2.2.1, htime]
    · exact Rounded.UECFTimelineLinearColor.Rounded_Color_value_formula F M c0 c1 T e bf s
        ⟨hinvs.2.2.1, hinvs.2.2.2.1, hinvs.2.2.2.2.1, hinvs.2.2.2.2.2.1, hinvs.2.2.2.2.2.2.1⟩
        hval
  · intro t x y ht hx hy
    have hT : 0 < T := (Rounded_Scalar_reach (fun _ => false) F M self a b T tf cbk bf e hs).1.1
    exact FMath.Clamp_Clamp_add t x y T ht hx hy (le_of_lt hT)

/-- Witness for the amended C19, in single precision: a scalar timeline from `0`
to `10` and a color timeline from opaque black to white, duration `2`, Linear.
The three Advance calls `1/2`, `1/4`, `3` add exactly (`0 + 1/2`, `1/2 + 1/4`,
`3/4 + 3`, and `0 + 15/4` for the single call); they leave
`CurrentTime = min(15/4, 2) = 2` and the stop value, the same time and value as
the single Advance by `15/4`. -/
theorem C19_split_advances_agree_when_additions_are_exact_witness :
    (∃ s ev s1 ev1,
      runTicks (fun _ => false) (Rounded.UECFTimeline.Tick binary32 rationalMath)
          [1 / 2, 1 / 4, 3]
          ((UECFTimeline.mk none none none 0 0 0 EECFBlendFunc.ECFBlend_Cubic 0 7 7 0 false).Setup
            0 10 2 (some 1) none EECFBlendFunc.ECFBlend_Linear 1).2 = some (s, ev)
      ∧ Rounded.UECFTimeline.Tick binary32 rationalMath (15 / 4)
          ((UECFTimeline.mk none none none 0 0 0 EECFBlendFunc.ECFBlend_Cubic 0 7 7 0 false).Setup
            0 10 2 (some 1) none EECFBlendFunc.ECFBlend_Linear 1).2 = some (s1, ev1)
      ∧ s.CurrentTime = 2 ∧ s1.CurrentTime = 2
      ∧ s.CurrentValue = 10 ∧ s1.CurrentValue = 10)
    ∧ (∃ s ev s1 ev1,
      runTicks (fun _ => false) (Rounded.UECFTimelineLinearColor.Tick binary32 rationalMath)
          [1 / 2, 1 / 4, 3]
          ((UECFTimelineLinearColor.mk none none none FLinearColor.Black FLinearColor.Black 0
            EECFBlendFunc.ECFBlend_Cubic 0 7 FLinearColor.Black 0 false).Setup
            FLinearColor.Black ⟨1, 1, 1, 1⟩ 2 (some 1) none EECFBlendFunc.ECFBlend_Linear 1).2
          = some (s, ev)
      ∧ Rounded.UECFTimelineLinearColor.Tick binary32 rationalMath (15 / 4)
          ((UECFTimelineLinearColor.mk none none none FLinearColor.Black FLinearColor.Black 0
            EECFBlendFunc.ECFBlend_Cubic 0 7 FLinearColor.Black 0 false).Setup
            FLinearColor.Black ⟨1, 1, 1, 1⟩ 2 (some 1) none EECFBlendFunc.ECFBlend_Linear 1).2
          = some (s1, ev1)
      ∧ s.CurrentTime = 2 ∧ s1.CurrentTime = 2
      ∧ s.CurrentValue = ⟨1, 1, 1, 1⟩ ∧ s1.CurrentValue = ⟨1, 1, 1, 1⟩) := by
  have hA1 : binary32.Add 0 (1 / 2) = 1 / 2 :=
    binary32_Add_exact 0 (1 / 2) (1 / 2) 1 (-1) (by norm_num) (by norm_num) (by norm_num)
      (by norm_num) (by norm_num)
  have hA2 : binary32.Add (1 / 2) (1 / 4) = 3 / 4 :=
    binary32_Add_exact (1 / 2) (1 / 4) (3 / 4) 3 (-2) (by norm_num) (by norm_num) (by norm_num)
      (by norm_num) (by norm_num)
  have hA3 : binary32.Add (3 / 4) 3 = 15 / 4 :=
    binary32_Add_exact (3 / 4) 3 (15 / 4) 15 (-2) (by norm_num) (by norm_num) (by norm_num)
      (by norm_num) (by norm_num)
  have hA4 : binary32.Add 0 (15 / 4) = 15 / 4 :=
    binary32_Add_exact 0 (15 / 4) (15 / 4) 15 (-2) (by norm_num) (by norm_num) (by norm_num)
      (by norm_num) (by norm_num)
  have hAdd010 : binary32.Add 0 10 = 10 :=
    binary32_Add_exact 0 10 10 10 0 (by norm_num) (by norm_num) (by norm_num) (by norm_num)
      (by norm_num)
  have hAdd01 : binary32.Add 0 1 = 1 :=
    binary32_Add_exact 0 1 1 1 0 (by norm_num) (by norm_num) (by norm_num) (by norm_num)
      (by norm_num)
  have hAdd10 : binary32.Add 1 0 = 1 :=
    binary32_Add_exact 1 0 1 1 0 (by norm_num) (by norm_num) (by norm_num) (by norm_num)
      (by norm_num)
  have hDiv22 : binary32.Div 2 2 = 1 :=
    binary32_Div_exact 2 2 1 1 0 (by norm_num) (by norm_num) (by norm_num) (by norm_num)
      (by norm_num)
  have hSub100 : binary32.Sub 10 0 = 10 :=
    binary32_Sub_exact 10 0 10 10 0 (by norm_num) (by norm_num) (by norm_num) (by norm_num)
      (by norm_num)
  have hSub10 : binary32.Sub 1 0 = 1 :=
    binary32_Sub_exact 1 0 1 1 0 (by norm_num) (by norm_num) (by norm_num) (by norm_num)
      (by norm_num)
  have hSub11 : binary32.Sub 1 1 = 0 :=
    binary32_Sub_exact 1 1 0 0 0 (by norm_num) (by norm_num) (by norm_num) (by norm_num)
      (by norm_num)
  have hMul110 : binary32.Mul 1 10 = 10 :=
    binary32_Mul_exact 1 10 10 10 0 (by norm_num) (by norm_num) (by norm_num) (by norm_num)
      (by norm_num)
  have hMul11 : binary32.Mul 1 1 = 1 :=
    binary32_Mul_exact 1 1 1 1 0 (by norm_num) (by norm_num) (by norm_num) (by norm_num)
      (by norm_num)
  have hMul01 : binary32.Mul 0 1 = 0 :=
    binary32_Mul_exact 0 1 0 0 0 (by norm_num) (by norm_num) (by norm_num) (by norm_num)
      (by norm_num)
  have hsum : ([1 / 2, 1 / 4, 3] : List ℚ).sum = 15 / 4 := by norm_num
  have hmin : min (15 / 4 : ℚ) 2 = 2 := by norm_num
  have h := C19_split_advances_agree_when_additions_are_exact binary32 rationalMath
    (UECFTimeline.mk none none none 0 0 0 EECFBlendFunc.ECFBlend_Cubic 0 7 7 0 false)
    (UECFTimelineLinearColor.mk none none none FLinearColor.Black FLinearColor.Black 0
      EECFBlendFunc.ECFBlend_Cubic 0 7 FLinearColor.Black 0 false)
    0 10 2 1 FLinearColor.Black ⟨1, 1, 1, 1⟩ (some 1) none EECFBlendFunc.ECFBlend_Linear
    [1 / 2, 1 / 4, 3]
    (by rw [UECFTimeline.Scalar_Setup_fst]; simp)
    (by rw [UECFTimelineLinearColor.Color_Setup_fst]; simp [FLinearColor.Black])
    (by intro dt hdt; simp at hdt; rcases hdt with h | h | h <;> rw [h] <;> norm_num)
    (by simp)
    (by
      intro k hk
      have hk3 : k < 3 := hk
      interval_cases k
      · norm_num
        exact hA1
      · norm_num
        exact hA2
      · norm_num
        exact hA3)
    (by rw [hsum]; exact hA4)
  rw [hsum, hmin] at h
  obtain ⟨⟨f, s, ev0, rest, s1, ev1, -, hrun, -, hct, ht, hct1, hv1, hval⟩,
    ⟨g, c, cev0, crest, c1, cev1, -, hcrun, -, hcct, hct', hcct1, hcv1, hcval⟩, -⟩ := h
  refine ⟨⟨s, _, s1, ev1, hrun, ht, hct, by rw [hct1, hct], ?_, ?_⟩,
    ⟨c, _, c1, cev1, hcrun, hct', hcct, by rw [hcct1, hcct], ?_, ?_⟩⟩
  · have hv := hval.1 rfl
    rw [hct, hDiv22, hSub100, hMul110, hAdd010] at hv
    exact hv
  · have hv := hval.1 rfl
    rw [hct, hDiv22, hSub100, hMul110, hAdd010] at hv
    rw [hv1, hv]
  · have hv := hcval.1 rfl
    rw [hcct] at hv
    simp only [hDiv22, hSub10, hSub11, hMul11, hMul01, hAdd01, hAdd10, FLinearColor.Black]
      at hv
    exact hv
  · have hv := hcval.1 rfl
    rw [hcct] at hv
    simp only [hDiv22, hSub10, hSub11, hMul11, hMul01, hAdd01, hAdd10, FLinearColor.Black]
      at hv
    rw [hcv1, hv]

end ECF
